import Mathlib

/-!
Verification development for the hive-agent ingestion core.

Shallow embedding of

* `hive-agent/internal/pipeline/pipeline.go` (batching pipeline), and
* `hive-agent/internal/collectors/logs.go` (log tailer),

followed by theorems about the embedded definitions.

Conventions.  A Go slice is a `List`.  A byte is a `Nat` (`'\n'` is `10`,
`'\r'` is `13`).  File offsets (`int64`) are `Nat` where the code can only
produce non-negative values and `Int` where a value is read from outside.
A `select` over channels is modelled by an explicit outcome chosen by the
environment.  Logging calls have no effect on the state and are omitted.
-/

namespace Pipeline

/-- Which arm of the `select` in `flushUnsafe` fires
(pipeline.go 165-172): the send on `outputCh`, `ctx.Done()`, or the
five second timer. -/
inductive SendOutcome where
  | sent
  | cancelled
  | timedOut
  deriving DecidableEq, Repr

/-- The fields of `pipeline.Config` read by the batching code. -/
structure Config where
  BufferSize : Int
  BatchSize : Int
  deriving DecidableEq, Repr

/-- The `Pipeline` struct: its configuration, its `buffer`, and the batches
that have been put on `outputCh` so far, oldest first. -/
structure State (α : Type) where
  config : Config
  buffer : List α
  outputCh : List (List α)

/-- Go `New`: an empty buffer and an empty output channel. -/
def New {α : Type} (cfg : Config) : State α :=
  { config := cfg, buffer := [], outputCh := [] }

/-- Go `flushUnsafe` (pipeline.go 152-173).  Returns the new state and the
batch that was built and offered to the channel, if any. -/
def flushUnsafe {α : Type} (p : State α) (o : SendOutcome) : State α × Option (List α) :=
  if p.buffer.length = 0 then
    (p, none)
  else
    let batch := p.buffer
    let p1 := { p with buffer := [] }
    match o with
    | SendOutcome.sent => ({ p1 with outputCh := p1.outputCh ++ [batch] }, some batch)
    | SendOutcome.cancelled => (p1, some batch)
    | SendOutcome.timedOut => (p1, some batch)

/-- Go `addToBuffer` (pipeline.go 115-125). -/
def addToBuffer {α : Type} (p : State α) (data : α) (o : SendOutcome) :
    State α × Option (List α) :=
  let p1 := { p with buffer := p.buffer ++ [data] }
  if (p1.buffer.length : Int) ≥ p1.config.BatchSize then
    flushUnsafe p1 o
  else
    (p1, none)

/-- Go `flush` (pipeline.go 145-149): what the timer calls on every tick. -/
def flush {α : Type} (p : State α) (o : SendOutcome) : State α × Option (List α) :=
  flushUnsafe p o

/-- One step of the pipeline as seen under `bufferMu`: a record taken from
the data channel by `processData`, or a tick of `flushTimer`.  Each carries
the outcome of the channel send, should the step flush. -/
inductive Op (α : Type) where
  | add (data : α) (o : SendOutcome)
  | tick (o : SendOutcome)

/-- The send outcome attached to a step. -/
def Op.outcome {α : Type} : Op α → SendOutcome
  | Op.add _ o => o
  | Op.tick o => o

/-- The records appended by a sequence of steps, in order. -/
def appended {α : Type} : List (Op α) → List α
  | [] => []
  | Op.add d _ :: ops => d :: appended ops
  | Op.tick _ :: ops => appended ops

/-- Perform one step. -/
def step {α : Type} (p : State α) : Op α → State α × Option (List α)
  | Op.add d o => addToBuffer p d o
  | Op.tick o => flush p o

/-- Run a sequence of steps; the second component lists the batches that
were offered to the output channel, in order. -/
def run {α : Type} : State α → List (Op α) → State α × List (List α)
  | p, [] => (p, [])
  | p, op :: ops =>
    let r := step p op
    let rest := run r.1 ops
    (rest.1, r.2.toList ++ rest.2)

/-- The buffer stays strictly below the batch size. -/
def BufferBelow {α : Type} (p : State α) : Prop :=
  (p.buffer.length : Int) < p.config.BatchSize

end Pipeline


/-- A Go `map[string]V`: an association list with at most one entry per key
when built with `GoMap.set`. -/
abbrev GoMap (V : Type) := List (String × V)

/-- Go `m[k] = v`. -/
def GoMap.set {V : Type} (m : GoMap V) (k : String) (v : V) : GoMap V :=
  m.filter (fun e => e.1 != k) ++ [(k, v)]

/-- Go `v, ok := m[k]`. -/
def GoMap.get {V : Type} (m : GoMap V) (k : String) : Option V :=
  (m.find? (fun e => e.1 == k)).map (fun e => e.2)

/-- Go `delete(m, k)`. -/
def GoMap.delete {V : Type} (m : GoMap V) (k : String) : GoMap V :=
  m.filter (fun e => e.1 != k)

namespace config

/-- Go `config.LogPathConfig`. -/
structure LogPathConfig where
  Path : String
  Parser : String
  Tags : GoMap String
  Fields : GoMap String
  Multiline : String
  Recursive : Bool
  MaxDepth : Int
  deriving DecidableEq, Repr

/-- Go `config.LogPatternConfig`. -/
structure LogPatternConfig where
  Name : String
  Pattern : String
  Severity : String
  Category : String
  Description : String
  AutoFix : String
  deriving DecidableEq, Repr

/-- Go `config.ParserConfig` (the `Fields` map is never read by the tailer). -/
structure ParserConfig where
  Type_ : String
  Pattern : String
  deriving DecidableEq, Repr

/-- Go `config.LogCollectorConfig`, the fields read by the tailer. -/
structure LogCollectorConfig where
  Enabled : Bool
  Paths : List LogPathConfig
  Patterns : List LogPatternConfig
  Parsers : GoMap ParserConfig
  deriving DecidableEq, Repr

end config

namespace collectors

open config

/-- The part of Go's `regexp` package used by the tailer, for a type `R` of
compiled expressions.  The package is external to the repository, so its
functions are parameters of the model. -/
structure Regexp (R : Type) where
  Compile : String → Option R
  MatchString : R → List Nat → Bool
  FindStringSubmatch : R → List Nat → List (List Nat)
  SubexpNames : R → List String

/-- A reading of the clock: `time.Now()` formatted as RFC 3339 and as Unix
seconds. -/
structure Clock where
  rfc3339 : String
  unix : Int
  deriving DecidableEq, Repr

/-- A value of `LogData.Fields`: a configured string, or text captured from
the line. -/
inductive FieldValue where
  | str (s : String)
  | text (bytes : List Nat)
  deriving DecidableEq, Repr

/-- Go `collectors.LogData`.  `Message` holds the bytes of the line. -/
structure LogData where
  Message : List Nat
  Level : String
  Fields : GoMap FieldValue
  Timestamp : String
  Source : String
  Tags : GoMap String
  deriving DecidableEq, Repr

/-- The `Context` map built by `checkForIssues`, with its three keys
`line`, `file` and `log_fields`. -/
structure IssueContext where
  line : List Nat
  file : String
  log_fields : GoMap FieldValue
  deriving DecidableEq, Repr

/-- Go `collectors.IssueData`. -/
structure IssueData where
  ID : String
  Severity : String
  Category : String
  Title : String
  Description : String
  Pattern : String
  Context : IssueContext
  SuggestedFix : String
  AutoFixable : Bool
  Source : String
  Timestamp : String
  deriving DecidableEq, Repr

/-- A value stored in `CollectedData.Data`. -/
inductive DataValue where
  | str (s : String)
  | text (bytes : List Nat)
  | issue (i : IssueData)
  deriving DecidableEq, Repr

/-- Go `collectors.DataType`. -/
abbrev DataType := String

/-- Go `DataTypeLog`. -/
def DataTypeLog : DataType := "log"

/-- Go `DataTypeEvent`. -/
def DataTypeEvent : DataType := "event"

/-- Go `collectors.CollectedData` (`Metadata` is never set by the tailer). -/
structure CollectedData where
  Type_ : DataType
  Source : String
  Data : GoMap DataValue
  Tags : GoMap String
  Timestamp : String
  deriving DecidableEq, Repr

/-- The `logFile` struct: `offset` is the read offset of the open
`*os.File`, `position` the tracked `position` field. -/
structure logFile where
  path : String
  offset : Nat
  position : Nat
  parser : String
  tags : GoMap String
  fields : GoMap String
  deriving DecidableEq, Repr

/-- The `LogCollector` struct: configuration, tracked files by path, and the
compiled patterns. -/
structure LogCollector (R : Type) where
  config : LogCollectorConfig
  files : GoMap logFile
  patterns : List R

/-- What the system calls of one `scanFile` call observe: whether
`os.Stat(path)` succeeds, whether `file.Stat()` succeeds, and the bytes of
the open file. -/
structure FileView where
  pathExists : Bool
  statOk : Bool
  content : List Nat
  deriving DecidableEq, Repr

/-- The local variables of the read loop of `scanFile` together with the
tracked position and the lines handed to `processLogLine` so far. -/
structure ScanState where
  lineBuffer : List Nat
  linesRead : Nat
  position : Nat
  lines : List (List Nat)
  deriving DecidableEq, Repr

/-- The `for i := 0; i < n; i++` loop of `scanFile` (logs.go 428-454) over
the bytes of one chunk.  `offset` is the file offset after the `Read`, which
is what `logFile.file.Seek(0, 1)` returns throughout the loop. -/
def chunkLoop (maxLinesPerBatch offset : Nat) : List Nat → ScanState → ScanState
  | [], s => s
  | b :: rest, s =>
    if b = 10 then
      if s.lineBuffer.length > 0 then
        let line := s.lineBuffer
        let s1 := { s with lineBuffer := [] }
        if line ≠ [] then
          let s2 := { s1 with lines := s1.lines ++ [line], linesRead := s1.linesRead + 1 }
          if s2.linesRead ≥ maxLinesPerBatch then
            s2
          else
            chunkLoop maxLinesPerBatch offset rest { s2 with position := offset }
        else
          chunkLoop maxLinesPerBatch offset rest { s1 with position := offset }
      else
        chunkLoop maxLinesPerBatch offset rest { s with position := offset }
    else if b ≠ 13 then
      chunkLoop maxLinesPerBatch offset rest { s with lineBuffer := s.lineBuffer ++ [b] }
    else
      chunkLoop maxLinesPerBatch offset rest s

/-- The `for linesRead < maxLinesPerBatch` loop of `scanFile`
(logs.go 417-467).  `Read` returns the next `min bufSize remaining` bytes
and advances the file offset; `n == 0` ends the loop.  Every iteration that
does not end the loop consumes at least one byte, so `fuel` larger than the
number of unread bytes is never exhausted.  Returns the file offset and the
state. -/
def readLoop (maxLinesPerBatch bufSize : Nat) (content : List Nat) :
    Nat → Nat → ScanState → Nat × ScanState
  | 0, offset, s => (offset, s)
  | fuel + 1, offset, s =>
    if s.linesRead < maxLinesPerBatch then
      let chunk := (content.drop offset).take bufSize
      let n := chunk.length
      if n = 0 then
        (offset, s)
      else
        let offset1 := offset + n
        let s1 := chunkLoop maxLinesPerBatch offset1 chunk s
        readLoop maxLinesPerBatch bufSize content fuel offset1 { s1 with position := offset1 }
    else
      (offset, s)

/-- What one call of `scanFile` does: the file state afterwards, whether
`removeLogFile` was called, the lines handed to `processLogLine` in order,
and the offset written to the position file, if any. -/
structure ScanResult where
  file : logFile
  removed : Bool
  lines : List (List Nat)
  persisted : Option Nat
  deriving DecidableEq, Repr

/-- Go `scanFile` (logs.go 366-497) with the two constants of the source as
parameters. -/
def scanFileWith (maxLinesPerBatch bufSize : Nat) (lf : logFile) (v : FileView) : ScanResult :=
  if !v.pathExists then
    { file := lf, removed := true, lines := [], persisted := none }
  else if !v.statOk then
    { file := lf, removed := false, lines := [], persisted := none }
  else
    let currentFileSize := v.content.length
    let currentPos := if lf.position > lf.offset then lf.position else lf.offset
    if currentPos ≥ currentFileSize then
      { file := lf, removed := false, lines := [], persisted := none }
    else
      let r := readLoop maxLinesPerBatch bufSize v.content (v.content.length + 1) lf.position
        { lineBuffer := [], linesRead := 0, position := lf.position, lines := [] }
      let offset := r.1
      let s := r.2
      let s1 :=
        if s.lineBuffer.length > 0 then
          if offset ≥ currentFileSize then
            if s.lineBuffer ≠ [] then
              { s with lines := s.lines ++ [s.lineBuffer], linesRead := s.linesRead + 1 }
            else s
          else s
        else s
      { file := { lf with offset := offset, position := s1.position }
        removed := false
        lines := s1.lines
        persisted := if s1.linesRead > 0 then some s1.position else none }

/-- Go `scanFile` with `maxLinesPerBatch := 1000` and the 8 KiB read buffer. -/
def scanFile (lf : logFile) (v : FileView) : ScanResult :=
  scanFileWith 1000 8192 lf v

/-- A file as seen through an open handle: whether `file.Stat()` succeeds and
the bytes of the file. -/
structure OpenFile where
  statOk : Bool
  content : List Nat
  deriving DecidableEq, Repr

/-- What `os.ReadFile` followed by `strconv.ParseInt(strings.TrimSpace(..), 10, 64)`
yields for a position file that exists: a number, or a parse error. -/
inductive PosData where
  | number (pos : Int)
  | garbage
  deriving DecidableEq, Repr

/-- The file system as the tailer sees it: `open` is `os.Open` on a log
path, `readFile` is `os.ReadFile` on a position file. -/
structure Disk where
  open_ : String → Option OpenFile
  readFile : String → Option PosData

/-- Go's `filepath.Base` on a slash-separated path: the last element, after
trailing slashes are removed; `"."` for the empty path and `"/"` for a path
of slashes only. -/
def Base (path : String) : String :=
  if path = "" then "."
  else
    let stripped := (path.toList.reverse.dropWhile (fun c => c == '/')).reverse
    let last := (stripped.reverse.takeWhile (fun c => c != '/')).reverse
    if last = [] then "/" else String.mk last

/-- Go `strings.ReplaceAll(s, "/", "_")`. -/
def replaceSlashes (s : String) : String :=
  String.mk (s.toList.map (fun c => if c == '/' then '_' else c))

/-- The position file of a path, as computed in `addLogFile` (logs.go 277-279)
and again in `scanFile` (logs.go 487-488).  The joined name has no separator
and is neither `.` nor `..`, so `filepath.Join` is concatenation with `/`. -/
def positionFile (path : String) : String :=
  "/var/lib/pulse-hive" ++ "/" ++ ("." ++ replaceSlashes (Base path) ++ ".pos")

/-- Go `NewLogCollector`, the loop compiling `cfg.Patterns` (logs.go 84-91): a
pattern that does not compile is skipped. -/
def compilePatterns {R : Type} (re : Regexp R) : List LogPatternConfig → List R
  | [] => []
  | pattern :: rest =>
    match re.Compile pattern.Pattern with
    | none => compilePatterns re rest
    | some regex => regex :: compilePatterns re rest

/-- Go `NewLogCollector` (logs.go 64-94); `none` is the error for a disabled
collector.  Creating the watcher is assumed to succeed. -/
def NewLogCollector {R : Type} (re : Regexp R) (cfg : LogCollectorConfig) :
    Option (LogCollector R) :=
  if !cfg.Enabled then none
  else some { config := cfg, files := [], patterns := compilePatterns re cfg.Patterns }

/-- The offset of the file handle when `addLogFile` has finished seeking
(logs.go 281-309).  A `Seek` to a negative offset fails and falls back to
the end of the file; a `Seek` past the end succeeds (offsets beyond the limit of
the file system, where it fails too, are left out of the model). -/
def initialOffset (stored : Option PosData) (f : OpenFile) : Nat :=
  match stored with
  | some (PosData.number pos) => if pos < 0 then f.content.length else pos.toNat
  | some PosData.garbage => 0
  | none =>
    if f.statOk then
      if f.content.length > 100 * 1024 * 1024 then f.content.length else 0
    else f.content.length

/-- Go `addLogFile` (logs.go 268-332).  The new `logFile` gets the fields named
in the struct literal; `position` is not among them and is zero. -/
def addLogFile {R : Type} (lc : LogCollector R) (disk : Disk) (path : String)
    (pathConfig : LogPathConfig) : LogCollector R :=
  match disk.open_ path with
  | none => lc
  | some f =>
    let lf : logFile :=
      { path := path
        offset := initialOffset (disk.readFile (positionFile path)) f
        position := 0
        parser := pathConfig.Parser
        tags := pathConfig.Tags
        fields := pathConfig.Fields }
    { lc with files := GoMap.set lc.files path lf }

/-- Go `removeLogFile` (logs.go 700-711). -/
def removeLogFile {R : Type} (lc : LogCollector R) (path : String) : LogCollector R :=
  match GoMap.get lc.files path with
  | some _ => { lc with files := GoMap.delete lc.files path }
  | none => lc

/-- Go `fsnotify.Event`; `Op` is the bit mask of the library
(`Create = 1`, `Write = 2`, `Remove = 4`, `Rename = 8`, `Chmod = 16`). -/
structure Event where
  Name : String
  Op : Nat
  deriving DecidableEq, Repr

/-- The loop over `lc.config.Paths` in `handleFileEvent` (logs.go 690-695):
the first path spec whose glob matches the name registers the file. -/
def addFirstMatch {R : Type} (filepathMatch : String → String → Bool) (disk : Disk)
    (name : String) : List LogPathConfig → LogCollector R → LogCollector R
  | [], lc => lc
  | pathConfig :: rest, lc =>
    if filepathMatch pathConfig.Path name then addLogFile lc disk name pathConfig
    else addFirstMatch filepathMatch disk name rest lc

/-- Go `handleFileEvent` (logs.go 679-697).  `filepathMatch` is `filepath.Match`;
`disk` is the file system after the `RotateWait` sleep. -/
def handleFileEvent {R : Type} (filepathMatch : String → String → Bool) (disk : Disk)
    (lc : LogCollector R) (event : Event) : LogCollector R :=
  if event.Op &&& 4 = 4 then removeLogFile lc event.Name
  else if event.Op &&& 8 = 8 then removeLogFile lc event.Name
  else if event.Op &&& 1 = 1 then addFirstMatch filepathMatch disk event.Name lc.config.Paths lc
  else lc

/-- The loop of `applyParser` over `matches[1:]` (logs.go 594-598), `i`
being the index within `matches[1:]`. -/
def storeGroups (names : List String) : Nat → List (List Nat) → GoMap FieldValue →
    GoMap FieldValue
  | _, [], fields => fields
  | i, m :: rest, fields =>
    match names.get? (i + 1) with
    | some name =>
      if name ≠ "" then storeGroups names (i + 1) rest (GoMap.set fields name (FieldValue.text m))
      else storeGroups names (i + 1) rest fields
    | none => storeGroups names (i + 1) rest fields

/-- Go `applyParser` (logs.go 587-606); the `json` and `grok` cases are empty in
the source. -/
def applyParser {R : Type} (re : Regexp R) (logData : LogData) (line : List Nat)
    (parser : ParserConfig) : LogData :=
  if parser.Type_ = "regex" then
    match re.Compile parser.Pattern with
    | some regex =>
      let ms := re.FindStringSubmatch regex line
      if ms.length > 1 then
        { logData with Fields := storeGroups (re.SubexpNames regex) 0 ms.tail logData.Fields }
      else logData
    | none => logData
  else logData

/-- The loop `for k, v := range m { dst[k] = v }`. -/
def copyInto {V W : Type} (f : V → W) : GoMap V → GoMap W → GoMap W
  | [], dst => dst
  | (k, v) :: rest, dst => copyInto f rest (GoMap.set dst k (f v))

/-- Go `parseLogLine` (logs.go 564-584). -/
def parseLogLine {R : Type} (re : Regexp R) (lc : LogCollector R) (now : Clock)
    (line : List Nat) (file : logFile) : LogData :=
  let logData : LogData :=
    { Message := line
      Level := ""
      Fields := copyInto FieldValue.str file.fields []
      Timestamp := now.rfc3339
      Source := file.path
      Tags := file.tags }
  match GoMap.get lc.config.Parsers file.parser with
  | some parser => applyParser re logData line parser
  | none => logData

/-- Which arm of the `select` in `checkForIssues` fires (logs.go 634-644). -/
inductive IssueSend where
  | sent
  | cancelled
  deriving DecidableEq, Repr

/-- How the two-stage `select` that sends the log record ends
(logs.go 528-560): sent at once, cancelled, or after the 100 ms timer and the
500 ms sleep sent, cancelled, or dropped by the `default` arm. -/
inductive LogSend where
  | sent
  | cancelled
  | retrySent
  | retryCancelled
  | dropped
  deriving DecidableEq, Repr

/-- The `IssueData` and its `CollectedData` envelope built in `checkForIssues`
(logs.go 615-641). -/
def issueRecord (now : Clock) (patternConfig : LogPatternConfig) (line : List Nat)
    (file : logFile) (logData : LogData) : CollectedData :=
  let issue : IssueData :=
    { ID := "pattern-" ++ patternConfig.Name ++ "-" ++ toString now.unix
      Severity := patternConfig.Severity
      Category := patternConfig.Category
      Title := "Pattern detected: " ++ patternConfig.Name
      Description := patternConfig.Description
      Pattern := patternConfig.Pattern
      Context := { line := line, file := file.path, log_fields := logData.Fields }
      SuggestedFix := patternConfig.AutoFix
      AutoFixable := patternConfig.AutoFix != ""
      Source := file.path
      Timestamp := now.rfc3339 }
  { Type_ := DataTypeEvent
    Source := file.path
    Data := [("issue", DataValue.issue issue)]
    Tags := file.tags
    Timestamp := now.rfc3339 }

/-- The loop of `checkForIssues` (logs.go 610-653) from index `i` on.  The
result lists the records put on the data channel; `none` is the run-time
panic of `lc.config.Patterns[i]` with `i` out of range. -/
def checkForIssuesFrom {R : Type} (re : Regexp R) (lc : LogCollector R) (now : Clock)
    (send : Nat → IssueSend) (line : List Nat) (file : logFile) (logData : LogData) :
    Nat → List R → Option (List CollectedData)
  | _, [] => some []
  | i, pattern :: rest =>
    if re.MatchString pattern line then
      match lc.config.Patterns.get? i with
      | none => none
      | some patternConfig =>
        match send i with
        | IssueSend.sent =>
          (checkForIssuesFrom re lc now send line file logData (i + 1) rest).map
            (fun out => issueRecord now patternConfig line file logData :: out)
        | IssueSend.cancelled => some []
    else checkForIssuesFrom re lc now send line file logData (i + 1) rest

/-- Go `checkForIssues` (logs.go 609-654). -/
def checkForIssues {R : Type} (re : Regexp R) (lc : LogCollector R) (now : Clock)
    (send : Nat → IssueSend) (line : List Nat) (file : logFile) (logData : LogData) :
    Option (List CollectedData) :=
  checkForIssuesFrom re lc now send line file logData 0 lc.patterns

/-- The conversion of a field value when it is stored in `flattenedData`. -/
def FieldValue.toData : FieldValue → DataValue
  | FieldValue.str s => DataValue.str s
  | FieldValue.text b => DataValue.text b

/-- The `flattenedData` map of `processLogLine` (logs.go 511-526). -/
def flattenedData (logData : LogData) (file : logFile) : GoMap DataValue :=
  let base : GoMap DataValue :=
    [("message", DataValue.text logData.Message), ("timestamp", DataValue.str logData.Timestamp),
      ("source", DataValue.str logData.Source), ("level", DataValue.str "info")]
  copyInto DataValue.str file.tags (copyInto FieldValue.toData logData.Fields base)

/-- Go `processLogLine` (logs.go 500-561): the records put on the data channel
by one call, in order; `none` if the call panics.  `parseLogLine` never
returns `nil`, so the early return of the source is never taken. -/
def processLogLine {R : Type} (re : Regexp R) (lc : LogCollector R) (now : Clock)
    (issueSend : Nat → IssueSend) (logSend : LogSend) (line : List Nat) (file : logFile) :
    Option (List CollectedData) :=
  let logData := parseLogLine re lc now line file
  match checkForIssues re lc now issueSend line file logData with
  | none => none
  | some issues =>
    let record : CollectedData :=
      { Type_ := DataTypeLog
        Source := file.path
        Data := flattenedData logData file
        Tags := file.tags
        Timestamp := logData.Timestamp }
    match logSend with
    | LogSend.sent => some (issues ++ [record])
    | LogSend.cancelled => some issues
    | LogSend.retrySent => some (issues ++ [record])
    | LogSend.retryCancelled => some issues
    | LogSend.dropped => some issues

/-- The bytes of a string literal whose characters are all ASCII. -/
def bytes (s : String) : List Nat :=
  s.toList.map Char.toNat

/-- Remove every `'\r'` byte. -/
def dropCR (l : List Nat) : List Nat :=
  l.filter (fun b => b ≠ 13)

/-- Cut a byte sequence at its `'\n'` bytes: the pieces that end in a
newline (without the newline), in order, and the unterminated rest. -/
def segments : List Nat → List (List Nat) × List Nat
  | [] => ([], [])
  | b :: rest =>
    let r := segments rest
    if b = 10 then ([] :: r.1, r.2)
    else
      match r.1 with
      | [] => ([], b :: r.2)
      | seg :: segs => ((b :: seg) :: segs, r.2)

/-- The non-empty lines of a byte sequence: every newline-terminated piece
with its `'\r'` bytes removed, empty results left out. -/
def completeLines (data : List Nat) : List (List Nat) :=
  ((segments data).1.map dropCR).filter (fun l => l ≠ [])

/-- The unterminated rest of a byte sequence with its `'\r'` bytes removed. -/
def trailingFragment (data : List Nat) : List Nat :=
  dropCR (segments data).2

/-- A text file made of the given lines, each followed by `'\n'`. -/
def joinLines (lines : List (List Nat)) : List Nat :=
  (lines.map (fun l => l ++ [10])).flatten

/-- One pass over `data` as the byte loop of `scanFile` makes it when no limit
and no chunk boundary intervene, starting with line buffer `cur`: the lines
handed over, in order, and the line buffer at the end. -/
def pending (cur : List Nat) : List Nat → List (List Nat) × List Nat
  | [] => ([], cur)
  | b :: rest =>
    if b = 10 then
      if cur ≠ [] then (cur :: (pending [] rest).1, (pending [] rest).2)
      else pending [] rest
    else if b ≠ 13 then pending (cur ++ [b]) rest
    else pending cur rest

/-- An offset reached by reading whole chunks of `buf` bytes from `start`
in a file of `size` bytes: the end of the file, or `start` plus a multiple
of `buf`. -/
def ChunkEnd (off size start buf : Nat) : Prop :=
  off = size ∨ ∃ k, off = start + k * buf

/-- The byte position just past the last `'\n'` of `data` (zero if there is
none). -/
def pastLastNewline (data : List Nat) : Nat :=
  data.length - (segments data).2.length

/-! ### Scenarios used by the concrete evaluations -/

/-- A path spec for `/tmp/a.log` with no parser, tags or fields. -/
def plainPath (path : String) : LogPathConfig :=
  { Path := path, Parser := "", Tags := [], Fields := [], Multiline := "", Recursive := false,
    MaxDepth := 0 }

/-- A collector that watches `path` and tracks no file yet. -/
def idleCollector (path : String) : LogCollector Unit :=
  { config := { Enabled := true, Paths := [plainPath path], Patterns := [], Parsers := [] }
    files := []
    patterns := [] }

/-- A disk holding one log file at `path` and, if `stored` is given, a
position file for it with that offset. -/
def diskWith (path : String) (content : List Nat) (stored : Option Int) : Disk :=
  { open_ := fun p => if p = path then some { statOk := true, content := content } else none
    readFile := fun p =>
      if p = positionFile path then stored.map PosData.number else none }

/-- A `logFile` as `addLogFile` creates it when the handle is at the start. -/
def freshFile (path : String) : logFile :=
  { path := path, offset := 0, position := 0, parser := "", tags := [], fields := [] }

/-- The view of an existing file with the given bytes. -/
def viewOf (content : List Nat) : FileView :=
  { pathExists := true, statOk := true, content := content }

/-- The result of the first scan of `path` after `addLogFile` registered it
on a disk where the file holds `content` and the position file, if any,
holds `stored`. -/
def firstScan (path : String) (content : List Nat) (stored : Option Int) : Option ScanResult :=
  (GoMap.get (addLogFile (idleCollector path) (diskWith path content stored) path
    (plainPath path)).files path).map (fun lf => scanFile lf (viewOf content))

/-- The scenario of a rotation: `path` is tracked with offset `oldOffset`,
which is also what its position file holds; the file is removed and a new
file with bytes `newContent` is created under the same path.  The collector
handles the remove event and then the create event; the result is the
re-registered `logFile` and the outcome of the next scan.  The path spec is
the literal path, so `filepath.Match` is string equality. -/
def rotatedScan (path : String) (newContent : List Nat) (oldOffset : Nat) :
    Option (logFile × ScanResult) :=
  let tracked : logFile := { freshFile path with offset := oldOffset, position := oldOffset }
  let lc0 : LogCollector Unit := { idleCollector path with files := [(path, tracked)] }
  let disk := diskWith path newContent (some (oldOffset : Int))
  let lc1 := handleFileEvent (fun pattern name => pattern == name) disk lc0
    { Name := path, Op := 4 }
  let lc2 := handleFileEvent (fun pattern name => pattern == name) disk lc1
    { Name := path, Op := 1 }
  (GoMap.get lc2.files path).map (fun lf => (lf, scanFile lf (viewOf newContent)))

/-- A stand-in for the `regexp` package in concrete evaluations: an
expression is a literal byte string, it matches the lines that contain it,
and `"("` does not compile. -/
def literalRegexp : Regexp (List Nat) :=
  { Compile := fun pattern => if pattern = "(" then none else some (bytes pattern)
    MatchString := fun r line => decide (r <:+: line)
    FindStringSubmatch := fun r line => if r <:+: line then [r] else []
    SubexpNames := fun _ => [""] }

/-- The rule of the pattern-detection scenario. -/
def oomRule : LogPatternConfig :=
  { Name := "oom", Pattern := "Out of memory", Severity := "critical", Category := "memory",
    Description := "", AutoFix := "" }

/-- A collector built by `NewLogCollector` with the single rule `oomRule`. -/
def oomCollector : LogCollector (List Nat) :=
  { config := { Enabled := true, Paths := [plainPath "/tmp/a.log"], Patterns := [oomRule],
                Parsers := [] }
    files := []
    patterns := compilePatterns literalRegexp [oomRule] }

/-- A record put on the bus by `checkForIssues` for `line` of `file`: it has
type `event`, comes from the file, and its data is a single `issue` entry
whose context quotes the line. -/
def IsIssueFor (line : List Nat) (file : logFile) (r : CollectedData) : Prop :=
  r.Type_ = DataTypeEvent ∧ r.Source = file.path ∧
    ∃ i : IssueData, r.Data = [("issue", DataValue.issue i)] ∧ i.Context.line = line ∧
      i.Source = file.path

end collectors

namespace Pipeline

/-- Whether an arm of the `select` in `flushUnsafe` can proceed, given
whether `p.ctx` is cancelled and whether `outputCh` has room: the send needs
room, the `ctx.Done()` arm needs a cancelled context, and the five second
timer fires only when neither of the others can proceed.  When several arms
can proceed, Go picks one of them at random. -/
def canFire (ctxDone chanFree : Bool) : SendOutcome → Bool
  | SendOutcome.sent => chanFree
  | SendOutcome.cancelled => ctxDone
  | SendOutcome.timedOut => !chanFree && !ctxDone

/-- Go `Stop` (pipeline.go 64-89): `p.cancel()` followed by `p.flush()`; the
wait for the goroutines that follows does not touch the buffer.  The flush
runs with `p.ctx` already cancelled, so the arms of its `select` that can
proceed are those with `canFire true chanFree`. -/
def Stop {α : Type} (p : State α) (o : SendOutcome) : State α × Option (List α) :=
  flush p o

/-- The steps that append the given records one after the other, with no
timer tick in between and every send succeeding. -/
def appends {α : Type} (records : List α) : List (Op α) :=
  records.map (fun r => Op.add r SendOutcome.sent)

/-- A started pipeline with batch size 5 that holds two buffered records and
whose output channel is empty. -/
def twoBuffered : State Nat :=
  { config := { BufferSize := 10, BatchSize := 5 }, buffer := [1, 2], outputCh := [] }

end Pipeline

namespace collectors

open config

/-- A rule whose pattern does not compile with `literalRegexp`. -/
def brokenRule : LogPatternConfig :=
  { Name := "broken", Pattern := "(", Severity := "info", Category := "config",
    Description := "", AutoFix := "" }

/-- The collector that `NewLogCollector` builds from the rule list
`[brokenRule, oomRule]`: the first rule is skipped at start-up. -/
def twoRuleCollector : Option (LogCollector (List Nat)) :=
  NewLogCollector literalRegexp
    { Enabled := true, Paths := [plainPath "/tmp/a.log"], Patterns := [brokenRule, oomRule],
      Parsers := [] }

/-- The issues carried by the records put on the bus. -/
def issuesOf (records : List CollectedData) : List IssueData :=
  records.filterMap (fun r =>
    match r.Data with
    | [(_, DataValue.issue i)] => some i
    | _ => none)

/-- The names of the capture groups that `applyParser` may store for a file:
those of the file's parser when it is configured, of type `regex`, and its
pattern compiles; none otherwise. -/
def captureNames {R : Type} (re : Regexp R) (lc : LogCollector R) (file : logFile) :
    List String :=
  match GoMap.get lc.config.Parsers file.parser with
  | some parser =>
    if parser.Type_ = "regex" then
      match re.Compile parser.Pattern with
      | some regex => re.SubexpNames regex
      | none => []
    else []
  | none => []

/-- The keys of a map. -/
def GoMap.keys {V : Type} (m : GoMap V) : List String :=
  m.map (fun e => e.1)

/-- A file whose static fields redefine the key `message`. -/
def shadowingFile : logFile :=
  { path := "/tmp/a.log", offset := 0, position := 0, parser := "",
    tags := [("env", "prod")], fields := [("message", "fixed")] }

end collectors

namespace collectors

/-- A file with one static tag and one static field, none of which uses a
key of the log record itself. -/
def taggedFile : logFile :=
  { path := "/tmp/a.log", offset := 0, position := 0, parser := "",
    tags := [("env", "prod")], fields := [("app", "web")] }

/-- The records that `processLogLine` puts on the bus for the line `hello`
of `taggedFile`. -/
def taggedOut : List CollectedData :=
  (processLogLine literalRegexp oomCollector (Clock.mk "2024-01-01T00:00:00Z" 1704067200)
    (fun _ => IssueSend.sent) LogSend.sent (bytes "hello") taggedFile).getD []

end collectors

namespace config

/-- Go `config.RetryConfig`.  Durations (`time.Duration`) are whole
nanoseconds.  `BackoffMultiple` is a `float64`; the model takes the function
`d ↦ time.Duration(float64(d) * BackoffMultiple)` as a parameter `scale` of
`sendWithRetry` instead of a field. -/
structure RetryConfig where
  MaxRetries : Int
  InitialBackoff : Int
  MaxBackoff : Int
  deriving DecidableEq, Repr

/-- Go `config.OutputConfig`, the fields read by the fan-out and by the
retry loop of the HTTP output. -/
structure OutputConfig where
  Name : String
  Type_ : String
  Enabled : Bool
  URL : String
  Retry : RetryConfig
  DataTypes : List String
  deriving DecidableEq, Repr

end config

namespace outputs

open config

/-- What one call of `ho.httpClient.Do(req)` yields: a transport error, or a
response with a status code. -/
inductive AttemptResult where
  | transportError
  | status (code : Int)
  deriving DecidableEq, Repr

/-- Which arm of the `select` of the backoff wait fires (http.go 154-158). -/
inductive WaitResult where
  | elapsed
  | ctxDone
  deriving DecidableEq, Repr

/-- The errors that `sendWithRetry` returns: `ctx.Err()`, the wrapped
transport error, and the error for a status that is not 2xx. -/
inductive SendError where
  | ctxErr
  | requestFailed
  | badStatus (code : Int)
  deriving DecidableEq, Repr

/-- What one call of `sendWithRetry` does: how many times it called
`httpClient.Do`, the durations it passed to `time.After`, in order, and the
error it returned (`none` for `nil`). -/
structure RetryRun where
  attempts : Nat
  waits : List Int
  err : Option SendError
  deriving DecidableEq, Repr

/-- The run that results when one more request and the waits `ws` precede
the run `r`. -/
def RetryRun.after (ws : List Int) (r : RetryRun) : RetryRun :=
  { attempts := r.attempts + 1, waits := ws ++ r.waits, err := r.err }

/-- The cap applied to the backoff after it has been multiplied
(http.go 162-164). -/
def capBackoff (retry : RetryConfig) (backoff : Int) : Int :=
  if retry.MaxBackoff > 0 ∧ backoff > retry.MaxBackoff then retry.MaxBackoff else backoff

/-- The loop `for attempt := 0; attempt <= maxRetries; attempt++` of
`sendWithRetry` (http.go 151-193), with `remaining` the number of iterations
that the loop condition still admits.  `doReq attempt` is the result of the
request made in iteration `attempt`, `wait attempt` the outcome of the wait
that precedes it. -/
def retryLoop (retry : RetryConfig) (scale : Int → Int) (doReq : Nat → AttemptResult)
    (wait : Nat → WaitResult) : Nat → Nat → Int → Option SendError → RetryRun
  | 0, _, _, lastErr => { attempts := 0, waits := [], err := lastErr }
  | remaining + 1, attempt, backoff, _ =>
    if attempt > 0 ∧ wait attempt = WaitResult.ctxDone then
      { attempts := 0, waits := [backoff], err := some SendError.ctxErr }
    else
      let ws : List Int := if attempt > 0 then [backoff] else []
      let backoff1 : Int := if attempt > 0 then capBackoff retry (scale backoff) else backoff
      match doReq attempt with
      | AttemptResult.transportError =>
        (retryLoop retry scale doReq wait remaining (attempt + 1) backoff1
          (some SendError.requestFailed)).after ws
      | AttemptResult.status code =>
        if code ≥ 200 ∧ code < 300 then
          { attempts := 1, waits := ws, err := none }
        else if code ≥ 400 ∧ code < 500 then
          { attempts := 1, waits := ws, err := some (SendError.badStatus code) }
        else
          (retryLoop retry scale doReq wait remaining (attempt + 1) backoff1
            (some (SendError.badStatus code))).after ws

/-- The value of `maxRetries` after the default has been applied
(http.go 141-144). -/
def effectiveMaxRetries (retry : RetryConfig) : Int :=
  if retry.MaxRetries = 0 then 3 else retry.MaxRetries

/-- The value of `backoff` after the default of five seconds has been applied
(http.go 146-149). -/
def initialBackoff (retry : RetryConfig) : Int :=
  if retry.InitialBackoff = 0 then 5 * 1000000000 else retry.InitialBackoff

/-- Go `sendWithRetry` (http.go 139-194). -/
def sendWithRetry (retry : RetryConfig) (scale : Int → Int) (doReq : Nat → AttemptResult)
    (wait : Nat → WaitResult) : RetryRun :=
  retryLoop retry scale doReq wait (effectiveMaxRetries retry + 1).toNat 0
    (initialBackoff retry) none

/-- A response with a 4xx status. -/
def AttemptResult.isClientError : AttemptResult → Bool
  | AttemptResult.transportError => false
  | AttemptResult.status code => decide (code ≥ 400 ∧ code < 500)

/-- A response with a 2xx status. -/
def AttemptResult.isSuccess : AttemptResult → Bool
  | AttemptResult.transportError => false
  | AttemptResult.status code => decide (code ≥ 200 ∧ code < 300)

/-- A transport error or a response with a 5xx status. -/
def AttemptResult.isServerFailure : AttemptResult → Bool
  | AttemptResult.transportError => true
  | AttemptResult.status code => decide (code ≥ 500 ∧ code < 600)

/-- The sequence of waits that starts with `first` and in which every later
wait is the previous one multiplied and then capped. -/
def backoffFrom (retry : RetryConfig) (scale : Int → Int) (first : Int) : Nat → Int
  | 0 => first
  | k + 1 => capBackoff retry (scale (backoffFrom retry scale first k))

/-- The wait before retry `k + 1`: the first wait is the initial backoff,
every later one the previous wait multiplied and then capped. -/
def backoffSchedule (retry : RetryConfig) (scale : Int → Int) (k : Nat) : Int :=
  backoffFrom retry scale (initialBackoff retry) k

/-- The wait before the `k`-th retry as the specification words it, for a
whole multiplier `m`: `initial_backoff * m ^ (k - 1)` capped at
`max_backoff`. -/
def claimedBackoff (retry : RetryConfig) (m : Int) (k : Nat) : Int :=
  min (initialBackoff retry * m ^ (k - 1)) retry.MaxBackoff

/-- The exact product of a duration and a whole multiplier `m`.  The source
computes `time.Duration(float64(backoff) * m)` (http.go 161); a `float64`
holds every whole number below `2 ^ 53` in magnitude, so the two agree as
long as the product stays below that bound, which it does in the concrete
evaluations that use this function.  Beyond the bound the source rounds, and
the general statements take the product as a parameter `scale` instead. -/
def scaleBy (m : Int) (d : Int) : Int :=
  d * m

/-- A destination that answers every request with status 500. -/
def alwaysUnavailable : Nat → AttemptResult :=
  fun _ => AttemptResult.status 500

/-- A context that is never cancelled while the sink waits. -/
def neverCancelled : Nat → WaitResult :=
  fun _ => WaitResult.elapsed

end outputs

namespace outputs

open config

/-- A destination that answers the first request with status 503 and every
later one with status 404. -/
def unavailableThenNotFound : Nat → AttemptResult :=
  fun i => if i = 0 then AttemptResult.status 503 else AttemptResult.status 404

/-- A retry configuration with the given `max_retries`, an initial backoff
of ten seconds and a maximal backoff of five seconds. -/
def tenThenFive (maxRetries : Int) : RetryConfig :=
  { MaxRetries := maxRetries, InitialBackoff := 10 * 1000000000, MaxBackoff := 5 * 1000000000 }

/-- A retry configuration with the given `max_retries`, an initial backoff
of one second and a maximal backoff of five seconds. -/
def oneThenFive (maxRetries : Int) : RetryConfig :=
  { MaxRetries := maxRetries, InitialBackoff := 1 * 1000000000, MaxBackoff := 5 * 1000000000 }

end outputs

namespace agent

open config collectors

/-- The calls `out.Send(ctx, batch)` that one iteration of the loop of
`dataDistributionService` makes for a batch taken from the pipeline
(agent.go 685-713): none for an empty batch, otherwise one goroutine per
output, each of which is handed the batch itself. -/
def sendCalls {O α : Type} (outputs : List O) (batch : List α) : List (O × List α) :=
  if batch.length = 0 then []
  else outputs.map (fun out => (out, batch))

/-- The copy of a batch that the specification words for a sink: the records
whose kind is in the sink's `data_types`, in the original order. -/
def acceptedBy (out : OutputConfig) (batch : List CollectedData) : List CollectedData :=
  batch.filter (fun r => decide (r.Type_ ∈ out.DataTypes))

/-- How the `select` that follows the dispatch ends (agent.go 722-729). -/
inductive WaitOutcome where
  | allDone
  | outerTimeout
  | cancelled
  deriving DecidableEq, Repr

/-- The moment, in milliseconds after the dispatch, at which `wg.Wait()`
returns and `done` is closed: when the last `Send` has returned. -/
def allReturned (sendDurations : List Nat) : Nat :=
  sendDurations.foldr max 0

/-- The `select` that follows the dispatch of a batch (agent.go 715-729),
in milliseconds after the dispatch: `sendDurations` tells how long each
`Send` takes, `ctxDoneAt` when `a.ctx` is cancelled, if ever.  The arm whose
event comes first fires; the result is the moment at which the loop goes on
(or returns) and the arm taken.  Only after it does the loop receive the
next batch. -/
def waitForOutputs (sendDurations : List Nat) (ctxDoneAt : Option Nat) : Nat × WaitOutcome :=
  let done := allReturned sendDurations
  let timer := 45 * 1000
  match ctxDoneAt with
  | none => if done ≤ timer then (done, WaitOutcome.allDone) else (timer, WaitOutcome.outerTimeout)
  | some c =>
    if done ≤ timer ∧ done ≤ c then (done, WaitOutcome.allDone)
    else if timer ≤ c then (timer, WaitOutcome.outerTimeout)
    else (c, WaitOutcome.cancelled)

/-- A record of the given kind, for concrete evaluations. -/
def sampleRecord (kind : DataType) : CollectedData :=
  { Type_ := kind, Source := "test", Data := [], Tags := [], Timestamp := "" }

/-- A sink that declares `log` as its only accepted kind. -/
def logOnlySink : OutputConfig :=
  { Name := "logs", Type_ := "http", Enabled := true, URL := "http://example.test/ingest",
    Retry := { MaxRetries := 3, InitialBackoff := 0, MaxBackoff := 0 }, DataTypes := ["log"] }

end agent

namespace collectors

open config

/-- The name of the position file that `scanFile` writes after a batch
(logs.go 487-488), computed from the `path` field of the tracked file. -/
def savedPositionFile (lf : logFile) : String :=
  "/var/lib/pulse-hive" ++ "/" ++ ("." ++ replaceSlashes (Base lf.path) ++ ".pos")

/-- Go `strings.HasSuffix`. -/
def HasSuffix (s suffix : String) : Bool :=
  decide (suffix.toList <:+ s.toList)

/-- An entry of a directory as `os.ReadDir` lists it: a non-directory with its
name, or a directory with its name, whether `os.ReadDir` succeeds on it, and
its own entries. -/
inductive DirEntry where
  | file (name : String)
  | dir (name : String) (readable : Bool) (entries : List DirEntry)

mutual
/-- Go `addRecursivePath` (logs.go 238-265) called on the path `dir`, where
`node` is what the file system holds at that path.  The result is the list of
paths handed to `addLogFile`, in order.  `dir` is a clean path other than the
root, so `filepath.Join(dir, name)` puts one separator between the two. -/
def addRecursivePath (pathConfig : LogPathConfig) (dir : String) (node : DirEntry)
    (depth : Nat) : List String :=
  if pathConfig.MaxDepth > 0 ∧ (depth : Int) ≥ pathConfig.MaxDepth then []
  else
    match node with
    | DirEntry.file _ => []
    | DirEntry.dir _ readable entries =>
      if !readable then [] else walkEntries pathConfig dir entries depth
termination_by structural node
/-- The loop `for _, entry := range entries` of `addRecursivePath`
(logs.go 248-262). -/
def walkEntries (pathConfig : LogPathConfig) (dir : String) (entries : List DirEntry)
    (depth : Nat) : List String :=
  match entries with
  | [] => []
  | entry :: rest =>
    (match entry with
      | DirEntry.dir name _ _ =>
        if pathConfig.Recursive then
          addRecursivePath pathConfig (dir ++ "/" ++ name) entry (depth + 1)
        else []
      | DirEntry.file name =>
        if HasSuffix name ".log" then [dir ++ "/" ++ name] else [])
      ++ walkEntries pathConfig dir rest depth
termination_by structural entries
end

/-- The calls of `addLogFile` made for the paths found by the walk, in order. -/
def registerAll {R : Type} (disk : Disk) (pathConfig : LogPathConfig) :
    List String → LogCollector R → LogCollector R
  | [], lc => lc
  | path :: rest, lc => registerAll disk pathConfig rest (addLogFile lc disk path pathConfig)

/-- A non-directory entry of a directory tree: its full path, its name, and
how many levels its directory is nested below the directory the listing
started at. -/
structure FoundFile where
  path : String
  name : String
  level : Nat
  deriving DecidableEq, Repr

mutual
/-- The non-directory entries at or below one entry of a directory that sits
at nesting level `level`. -/
def entryFiles (dir : String) (level : Nat) (entry : DirEntry) : List FoundFile :=
  match entry with
  | DirEntry.file name => [{ path := dir ++ "/" ++ name, name := name, level := level }]
  | DirEntry.dir name _ sub => allFiles (dir ++ "/" ++ name) (level + 1) sub
termination_by structural entry
/-- All non-directory entries of the tree below a directory that sits at
nesting level `level`, whatever their names and however deep. -/
def allFiles (dir : String) (level : Nat) (entries : List DirEntry) : List FoundFile :=
  match entries with
  | [] => []
  | entry :: rest => entryFiles dir level entry ++ allFiles dir level rest
termination_by structural entries
end

/-- The test that the specification words for a walk with `max_depth = k`: the
name ends in `.log` and the directory is nested fewer than `k` levels below
the start. -/
def withinDepth (k : Nat) (f : FoundFile) : Bool :=
  HasSuffix f.name ".log" && decide (f.level < k)

/-- The files found below the path `dir` when the file system holds `node`
there: none for a non-directory, all files of the tree for a directory. -/
def filesBelow (dir : String) (level : Nat) (node : DirEntry) : List FoundFile :=
  match node with
  | DirEntry.file _ => []
  | DirEntry.dir _ _ sub => allFiles dir level sub

/-- The files that the specification words for a walk with `max_depth = k`
over the listing `entries` of `dir`: the non-directory entries whose name ends
in `.log` and whose directory is nested fewer than `k` levels below `dir`. -/
def logFilesWithin (k : Nat) (dir : String) (entries : List DirEntry) : List String :=
  ((allFiles dir 0 entries).filter (withinDepth k)).map (fun f => f.path)

mutual
/-- The entry is a file, or a directory that can be listed and whose
directories can all be listed. -/
def DirEntry.readableBelow (entry : DirEntry) : Bool :=
  match entry with
  | DirEntry.file _ => true
  | DirEntry.dir _ readable sub => readable && allReadable sub
termination_by structural entry
/-- Every directory of the tree can be listed. -/
def allReadable (entries : List DirEntry) : Bool :=
  match entries with
  | [] => true
  | entry :: rest => entry.readableBelow && allReadable rest
termination_by structural entries
end

/-- A recursive path spec for `/var/log/app` with the given `max_depth`. -/
def recursivePath (maxDepth : Int) : LogPathConfig :=
  { Path := "/var/log/app", Parser := "", Tags := [], Fields := [], Multiline := "",
    Recursive := true, MaxDepth := maxDepth }

/-- A listing of `/var/log/app`: two files, one of them a log, and a directory
`svc` that holds a log and a directory `old` holding another log. -/
def sampleTree : List DirEntry :=
  [DirEntry.file "app.log", DirEntry.file "notes.txt",
   DirEntry.dir "svc" true
     [DirEntry.file "svc.log", DirEntry.dir "old" true [DirEntry.file "svc.1.log"]]]

/-- A stand-in for the regexp package that knows one expression, `pattern`,
of the shape `^([^ ]+) (.*)$` with the group names `names`: it matches a line
with a non-empty first word followed by a space, the first group capturing
the word and the second the rest of the line. -/
def splitRegexp (pattern : String) (names : List String) : Regexp Unit :=
  { Compile := fun p => if p = pattern then some () else none
    MatchString := fun _ line =>
      decide ((line.takeWhile (fun b => b != 32)) ≠ [] ∧ 32 ∈ line)
    FindStringSubmatch := fun _ line =>
      let word := line.takeWhile (fun b => b != 32)
      if word ≠ [] ∧ 32 ∈ line then [line, word, line.drop (word.length + 1)] else []
    SubexpNames := fun _ => names }

/-- The stand-in for `^(?P<level>[^ ]+) (.*)$`, whose first group is named
`level` and whose second group has no name. -/
def levelRegexp : Regexp Unit :=
  splitRegexp "^(?P<level>[^ ]+) (.*)$" ["", "level", ""]

/-- The stand-in for `^(?P<w>[^ ]+) (?P<w>.*)$`, both groups of which are named
`w`; Go's `regexp` accepts a name that is used more than once. -/
def sameNameRegexp : Regexp Unit :=
  splitRegexp "^(?P<w>[^ ]+) (?P<w>.*)$" ["", "w", "w"]

/-- A collector whose parser `lvl` is the regex parser with the given
expression. -/
def parserCollector (pattern : String) : LogCollector Unit :=
  { config :=
      { Enabled := true, Paths := [], Patterns := [],
        Parsers := [("lvl", { Type_ := "regex", Pattern := pattern })] }
    files := []
    patterns := [] }

/-- A tracked file parsed with `lvl` that carries the static field `env`. -/
def levelFile : logFile :=
  { path := "/var/log/app.log", offset := 0, position := 0, parser := "lvl", tags := [],
    fields := [("env", "prod")] }

end collectors

namespace outputs

open config

/-- Go `strings.Contains`. -/
def Contains (s substr : String) : Bool :=
  decide (substr.toList <:+: s.toList)

/-- A value of the envelope `map[string]interface{}` that `Send` builds: the
batch, a reading of the clock in Unix nanoseconds, or a string. -/
inductive EnvelopeValue (α : Type) where
  | items (data : List α)
  | time (now : Int)
  | str (s : String)
  deriving DecidableEq, Repr

/-- The value that `Send` hands to `json.Marshal`: the batch itself, or the
envelope map. -/
inductive Payload (α : Type) where
  | bare (data : List α)
  | envelope (m : GoMap (EnvelopeValue α))
  deriving DecidableEq, Repr

/-- The choice of the payload in `Send` (http.go 86-99).  `now1` and `now2` are
the two readings of the clock, in Unix nanoseconds. -/
def buildPayload {α : Type} (url : String) (now1 now2 : Int) (data : List α) : Payload α :=
  if url ≠ "" ∧ (Contains url "openobserve" = true ∨ Contains url "_json" = true) then
    Payload.bare data
  else
    Payload.envelope
      [("items", EnvelopeValue.items data),
       ("timestamp", EnvelopeValue.time now1),
       ("batch_id", EnvelopeValue.str ("batch-" ++ toString now2)),
       ("source", EnvelopeValue.str "hive-agent")]

/-- The fields of `HTTPOutput` that `Send` reads and writes. -/
structure HTTPOutput where
  config : OutputConfig
  healthy : Bool
  lastError : String
  deriving DecidableEq, Repr

/-- Go `setError` (http.go 239-242). -/
def HTTPOutput.setError (ho : HTTPOutput) (err : String) : HTTPOutput :=
  { ho with lastError := err, healthy := false }

/-- Go `clearError` (http.go 245-248). -/
def HTTPOutput.clearError (ho : HTTPOutput) : HTTPOutput :=
  { ho with lastError := "", healthy := true }

/-- What `Send` meets outside the sink: the two readings of the clock, the
error text of `json.Marshal` and of `http.NewRequestWithContext` if they fail,
the text `err.Error()` of an error of the retry loop, and the parameters of
`sendWithRetry`. -/
structure SendEnv where
  now1 : Int
  now2 : Int
  marshalErr : Option String
  requestErr : Option String
  errorText : SendError → String
  scale : Int → Int
  doReq : Nat → AttemptResult
  wait : Nat → WaitResult

/-- The error that `Send` returns. -/
inductive SendFailure where
  | marshal
  | newRequest
  | retry (e : SendError)
  deriving DecidableEq, Repr

/-- What one call of `Send` does: the sink afterwards, the error returned
(`none` for `nil`), the payload handed to `json.Marshal` if that point was
reached, and the run of `sendWithRetry` if it was called. -/
structure SendResult (α : Type) where
  out : HTTPOutput
  err : Option SendFailure
  payload : Option (Payload α)
  run : Option RetryRun

/-- Go `HTTPOutput.Send` (http.go 81-136). -/
def Send {α : Type} (ho : HTTPOutput) (env : SendEnv) (data : List α) : SendResult α :=
  if !ho.config.Enabled then
    { out := ho, err := none, payload := none, run := none }
  else
    let payload := buildPayload ho.config.URL env.now1 env.now2 data
    match env.marshalErr with
    | some e =>
      { out := ho.setError ("Failed to marshal data: " ++ e), err := some SendFailure.marshal,
        payload := some payload, run := none }
    | none =>
      match env.requestErr with
      | some e =>
        { out := ho.setError ("Failed to create request: " ++ e),
          err := some SendFailure.newRequest, payload := some payload, run := none }
      | none =>
        let r := sendWithRetry ho.config.Retry env.scale env.doReq env.wait
        match r.err with
        | some e =>
          { out := ho.setError (env.errorText e), err := some (SendFailure.retry e),
            payload := some payload, run := some r }
        | none =>
          { out := ho.clearError, err := none, payload := some payload, run := some r }

/-- An enabled sink with the given URL and `max_retries` that is marked
unhealthy by an earlier failure. -/
def failedSink (url : String) (maxRetries : Int) : HTTPOutput :=
  { config :=
      { Name := "sink", Type_ := "http", Enabled := true, URL := url,
        Retry := { MaxRetries := maxRetries, InitialBackoff := 0, MaxBackoff := 0 },
        DataTypes := [] }
    healthy := false
    lastError := "HTTP request failed with status 500" }

/-- An environment in which encoding and request creation succeed, the
destination answers as `doReq` says and the context is never cancelled. -/
def plainEnv (doReq : Nat → AttemptResult) : SendEnv :=
  { now1 := 1704067200000000000
    now2 := 1704067200000000001
    marshalErr := none
    requestErr := none
    errorText := fun e =>
      match e with
      | SendError.ctxErr => "context canceled"
      | SendError.requestFailed => "HTTP request failed: connection refused"
      | SendError.badStatus code => "HTTP request failed with status " ++ toString code
    scale := scaleBy 2
    doReq := doReq
    wait := neverCancelled }

end outputs

namespace config

/-- Go `config.ServerConfig`; durations are whole nanoseconds. -/
structure ServerConfig where
  URL : String
  APIKey : String
  HeartbeatInterval : Int
  ReconnectInterval : Int
  MaxReconnects : Int
  Timeout : Int
  deriving DecidableEq, Repr

/-- Go `config.AgentConfig`, the fields that `setDefaults` and `validate` read. -/
structure AgentConfig where
  Name : String
  Hostname : String
  DataDir : String
  BufferSize : Int
  BatchSize : Int
  FlushInterval : Int
  ProfilingPort : Int
  MetricsPort : Int
  deriving DecidableEq, Repr

/-- Go `config.LoggingConfig`. -/
structure LoggingConfig where
  Level : String
  Format : String
  Output : String
  deriving DecidableEq, Repr

/-- Go `config.HealthcheckConfig`. -/
structure HealthcheckConfig where
  Enabled : Bool
  Port : Int
  Path : String
  Interval : Int
  deriving DecidableEq, Repr

/-- Go `config.Config`, the fields that `setDefaults` and `validate` read; of the
collectors these are the scan frequency and the rotate wait of the log
collector and the interval of the metrics collector. -/
structure Config where
  Server : ServerConfig
  Agent : AgentConfig
  Logging : LoggingConfig
  LogsScanFreq : Int
  LogsRotateWait : Int
  MetricsInterval : Int
  Healthcheck : HealthcheckConfig
  deriving DecidableEq, Repr

/-- One second as a `time.Duration`. -/
def Second : Int := 1000000000

/-- Go `setDefaults` (config.go 293-368).  `hostname` is what `os.Hostname()`
returns, the empty string when it fails. -/
def setDefaults (hostname : String) (c : Config) : Config :=
  let server := c.Server
  let server := if server.HeartbeatInterval = 0 then
    { server with HeartbeatInterval := 30 * Second } else server
  let server := if server.ReconnectInterval = 0 then
    { server with ReconnectInterval := 10 * Second } else server
  let server := if server.MaxReconnects = 0 then { server with MaxReconnects := 3 } else server
  let server := if server.Timeout = 0 then { server with Timeout := 30 * Second } else server
  let agent := c.Agent
  let agent := if agent.Name = "" then { agent with Name := hostname } else agent
  let agent := if agent.Hostname = "" then { agent with Hostname := hostname } else agent
  let agent := if agent.DataDir = "" then
    { agent with DataDir := "/var/lib/pulse-hive" } else agent
  let agent := if agent.BufferSize = 0 then { agent with BufferSize := 10000 } else agent
  let agent := if agent.BatchSize = 0 then { agent with BatchSize := 1000 } else agent
  let agent := if agent.FlushInterval = 0 then
    { agent with FlushInterval := 10 * Second } else agent
  let agent := if agent.ProfilingPort = 0 then { agent with ProfilingPort := 6060 } else agent
  let agent := if agent.MetricsPort = 0 then { agent with MetricsPort := 8080 } else agent
  let logging := c.Logging
  let logging := if logging.Level = "" then { logging with Level := "info" } else logging
  let logging := if logging.Format = "" then { logging with Format := "json" } else logging
  let logging := if logging.Output = "" then { logging with Output := "stdout" } else logging
  let health := c.Healthcheck
  let health := if health.Enabled ∧ health.Port = 0 then
    { health with Port := 8081 } else health
  let health := if health.Path = "" then { health with Path := "/health" } else health
  let health := if health.Interval = 0 then { health with Interval := 30 * Second } else health
  { Server := server
    Agent := agent
    Logging := logging
    LogsScanFreq := if c.LogsScanFreq = 0 then 10 * Second else c.LogsScanFreq
    LogsRotateWait := if c.LogsRotateWait = 0 then 5 * Second else c.LogsRotateWait
    MetricsInterval := if c.MetricsInterval = 0 then 60 * Second else c.MetricsInterval
    Healthcheck := health }

/-- The keys of the map `validLogLevels` (config.go 383-385). -/
def validLogLevels : List String :=
  ["debug", "info", "warn", "error", "fatal"]

/-- Go `validate` (config.go 371-392); `none` is `nil`. -/
def validate (c : Config) : Option String :=
  if c.Server.URL = "" then some "server.url is required"
  else if c.Server.APIKey = "" then some "server.api_key is required"
  else if c.Agent.Name = "" then some "agent.name is required"
  else if ¬ (c.Logging.Level ∈ validLogLevels) then
    some ("invalid logging level: " ++ c.Logging.Level)
  else none

/-- The part of Go `Load` that follows the decoding of the file
(config.go 279-289): `setDefaults`, which never fails, then `validate`. -/
def loadDecoded (hostname : String) (c : Config) : Except String Config :=
  let c1 := setDefaults hostname c
  match validate c1 with
  | some e => Except.error ("invalid configuration: " ++ e)
  | none => Except.ok c1

/-- A decoded configuration file that sets nothing but the three given
fields. -/
def minimalConfig (url apiKey name : String) : Config :=
  { Server := { URL := url, APIKey := apiKey, HeartbeatInterval := 0, ReconnectInterval := 0,
                MaxReconnects := 0, Timeout := 0 }
    Agent := { Name := name, Hostname := "", DataDir := "", BufferSize := 0, BatchSize := 0,
               FlushInterval := 0, ProfilingPort := 0, MetricsPort := 0 }
    Logging := { Level := "", Format := "", Output := "" }
    LogsScanFreq := 0
    LogsRotateWait := 0
    MetricsInterval := 0
    Healthcheck := { Enabled := false, Port := 0, Path := "", Interval := 0 } }

end config

namespace platform

open config

/-- The length of a Go string: the number of bytes of its UTF-8 encoding. -/
def len (s : String) : Nat :=
  s.utf8ByteSize

/-- The Go expression `s[:n] == lit` for an ASCII literal `lit` of `n` bytes:
`none` is the run-time panic of the slice expression when `n` exceeds the
length of `s`; otherwise the first `n` bytes are compared, and they equal
the bytes of the literal exactly when the string starts with its characters. -/
def sliceEquals (s : String) (n : Nat) (lit : String) : Option Bool :=
  if n > len s then none
  else some (decide (s.toList.take n = lit.toList))

/-- The fields of `platform.Client` that `New` sets: the configuration,
whether the transport got a TLS configuration, and `connected`. -/
structure Client where
  config : ServerConfig
  tlsConfigured : Bool
  connected : Bool
  deriving DecidableEq, Repr

/-- Go `platform.New` (client.go 99-126); `none` is a run-time panic.  The
function has no other way to fail: the error it returns is always `nil`. -/
def New (cfg : ServerConfig) : Option Client :=
  match sliceEquals cfg.URL 5 "https" with
  | none => none
  | some isHTTPS => some { config := cfg, tlsConfigured := isHTTPS, connected := false }

/-- The WebSocket URL computed at the start of `ConnectWebSocket`
(client.go 321-326); `none` is a run-time panic. -/
def webSocketURL (c : Client) : Option String :=
  match sliceEquals c.config.URL 4 "http" with
  | none => none
  | some true => some ("ws" ++ String.mk (c.config.URL.toList.drop 4) ++ "/api/hive/ws")
  | some false => some (c.config.URL ++ "/api/hive/ws")

end platform

namespace platform

/-- Go `platform.Command`, the fields read by `executeCommand`. -/
structure Command where
  ID : String
  Type_ : String
  Command : String
  deriving DecidableEq, Repr

/-- Go `platform.CommandResponse`; `ExecutionTime` is in milliseconds and
`Timestamp` in Unix nanoseconds. -/
structure CommandResponse where
  ID : String
  Success : Bool
  Response : String
  Error : String
  ExitCode : Int
  ExecutionTime : Int
  Timestamp : Int
  deriving DecidableEq, Repr

end platform

namespace agent

open platform

/-- The error of `cmd.CombinedOutput()`: an `*exec.ExitError` with the exit
code of the process, or another error; `text` is `err.Error()`. -/
inductive ExecError where
  | exitError (code : Int) (text : String)
  | other (text : String)
  deriving DecidableEq, Repr

/-- Go `err.Error()`. -/
def ExecError.Error : ExecError → String
  | ExecError.exitError _ text => text
  | ExecError.other text => text

/-- What `cmd.CombinedOutput()` returns for `sh -c command`: the captured
combined output and the error, if any. -/
structure ShellRun where
  output : String
  err : Option ExecError
  deriving DecidableEq, Repr

/-- Go `executeSystemCommand` (agent.go 561-580); `sh` runs the shell. -/
def executeSystemCommand (sh : String → ShellRun) (command : String) :
    String × Int × Option ExecError :=
  let r := sh command
  let exitCode : Int :=
    match r.err with
    | none => 0
    | some (ExecError.exitError code _) => code
    | some (ExecError.other _) => 1
  (r.output, exitCode, r.err)

/-- What `executeCommand` meets outside the agent: the shell, the encoded
status map, the reading of the clock and the elapsed milliseconds. -/
structure CommandEnv where
  sh : String → ShellRun
  statusJson : String
  now : Int
  elapsedMs : Int

/-- What one call of `executeCommand` does: the response it returns and the
commands it handed to the shell, in order. -/
structure CommandRun where
  response : CommandResponse
  shellCommands : List String
  deriving DecidableEq, Repr

/-- The first shell command of the `restart` case (agent.go 512). -/
def restartCommand : String :=
  "sudo systemctl restart hive-agent || sudo launchctl restart com.pulse.hive-agent || sudo service hive-agent restart"

/-- The second shell command of the `restart` case (agent.go 515). -/
def altRestartCommand : String :=
  "sudo pkill -f hive-agent && sleep 2 && sudo systemctl start hive-agent || sudo launchctl start com.pulse.hive-agent || sudo service hive-agent start"

/-- Go `executeCommand` (agent.go 482-558).  `reloadConfiguration` always
returns `nil`. -/
def executeCommand (env : CommandEnv) (cmd : Command) : CommandRun :=
  let response : CommandResponse :=
    { ID := cmd.ID, Success := false, Response := "", Error := "", ExitCode := 0,
      ExecutionTime := 0, Timestamp := env.now }
  let r : CommandRun :=
    if cmd.Type_ = "system" ∨ cmd.Type_ = "execute" then
      match executeSystemCommand env.sh cmd.Command with
      | (_, exitCode, some err) =>
        { response := { response with Error := err.Error, ExitCode := exitCode }
          shellCommands := [cmd.Command] }
      | (output, exitCode, none) =>
        { response := { response with Success := true, Response := output, ExitCode := exitCode }
          shellCommands := [cmd.Command] }
    else if cmd.Type_ = "config_reload" then
      { response :=
          { response with Success := true, Response := "Configuration reloaded successfully" }
        shellCommands := [] }
    else if cmd.Type_ = "restart" then
      match executeSystemCommand env.sh restartCommand with
      | (_, exitCode, some err) =>
        match executeSystemCommand env.sh altRestartCommand with
        | (_, _, some altErr) =>
          { response :=
              { response with
                Error := "Restart failed: " ++ err.Error ++ "; Alternative failed: "
                  ++ altErr.Error
                ExitCode := exitCode }
            shellCommands := [restartCommand, altRestartCommand] }
        | (altOutput, altExitCode, none) =>
          { response :=
              { response with
                Success := true
                Response := "Agent restarted via alternative method: " ++ altOutput
                ExitCode := altExitCode }
            shellCommands := [restartCommand, altRestartCommand] }
      | (output, exitCode, none) =>
        { response :=
            { response with
              Success := true
              Response := "Agent restart command executed: " ++ output
              ExitCode := exitCode }
          shellCommands := [restartCommand] }
    else if cmd.Type_ = "status" then
      { response := { response with Success := true, Response := env.statusJson }
        shellCommands := [] }
    else
      { response := { response with Error := "Unknown command type: " ++ cmd.Type_ }
        shellCommands := [] }
  { r with response := { r.response with ExecutionTime := env.elapsedMs } }

/-- A shell in which every command prints `boom` and exits with status 2. -/
def failingShell : String → ShellRun :=
  fun _ => { output := "boom\n", err := some (ExecError.exitError 2 "exit status 2") }

/-- A shell in which every command prints `ok` and exits with status 0. -/
def workingShell : String → ShellRun :=
  fun _ => { output := "ok\n", err := none }

/-- An environment with the given shell. -/
def commandEnv (sh : String → ShellRun) : CommandEnv :=
  { sh := sh, statusJson := "", now := 1704067200000000000, elapsedMs := 3 }

/-- The channels of the running agent: the record bus `a.dataChan`, the error
channel `a.errorChan` and the batch channel `outputCh` of the pipeline. -/
inductive Chan where
  | dataChan
  | errorChan
  | outputCh
  deriving DecidableEq, Repr

/-- A step of `Agent.Stop`: a call of `setStatus`, of `a.cancel`, of the `Stop`
method of a component, a `close` of a channel, or the wait for the background
goroutines. -/
inductive StopStep where
  | setStatus (status : String)
  | cancel
  | stopCollector (name : String)
  | stopPipeline
  | stopOutput (name : String)
  | stopMetrics
  | stopHealth
  | close (c : Chan)
  | waitBackground
  deriving DecidableEq, Repr

/-- The fields of `Agent` that `Stop` reads: the collectors and outputs by
name, and which of the optional fields are set. -/
structure Agent where
  collectors : List String
  outputs : List String
  hasCancel : Bool
  hasPipeline : Bool
  hasMetrics : Bool
  hasHealth : Bool
  deriving DecidableEq, Repr

/-- Go `Agent.Stop` (agent.go 194-257): the steps it executes, in order.  The
errors of the `Stop` methods are logged and change nothing. -/
def Stop (a : Agent) : List StopStep :=
  [StopStep.setStatus "stopping"]
    ++ (if a.hasCancel then [StopStep.cancel] else [])
    ++ a.collectors.map StopStep.stopCollector
    ++ (if a.hasPipeline then [StopStep.stopPipeline] else [])
    ++ a.outputs.map StopStep.stopOutput
    ++ (if a.hasMetrics then [StopStep.stopMetrics] else [])
    ++ (if a.hasHealth then [StopStep.stopHealth] else [])
    ++ [StopStep.close Chan.dataChan, StopStep.close Chan.errorChan,
        StopStep.waitBackground, StopStep.setStatus "stopped"]

/-- The channels of the agent that a step closes.  The `Stop` methods of the
components close none of them: `Pipeline.Stop` cancels, flushes and waits
(pipeline.go 64-89), and no statement of the repository closes `outputCh`. -/
def StopStep.closes : StopStep → List Chan
  | StopStep.close c => [c]
  | _ => []

/-- The place of a step in the order that the specification words:
collectors, then the pipeline, then the sinks, then the auxiliary services,
then the closing of channels, then the join. -/
def StopStep.phase : StopStep → Nat
  | StopStep.setStatus status => if status = "stopped" then 7 else 0
  | StopStep.cancel => 0
  | StopStep.stopCollector _ => 1
  | StopStep.stopPipeline => 2
  | StopStep.stopOutput _ => 3
  | StopStep.stopMetrics => 4
  | StopStep.stopHealth => 4
  | StopStep.close _ => 5
  | StopStep.waitBackground => 6

/-- An agent with two collectors, one sink and every optional component. -/
def sampleAgent : Agent :=
  { collectors := ["logs", "metrics"], outputs := ["http"], hasCancel := true,
    hasPipeline := true, hasMetrics := true, hasHealth := true }

end agent

namespace collectors

open config

/-- What one call of `processLogLine` meets outside the collector: the reading
of the clock and the outcomes of the `select` statements that send the issue
records and the log record. -/
structure LineEnv where
  now : Clock
  issueSend : Nat → IssueSend
  logSend : LogSend

/-- The calls `lc.processLogLine(line, logFile)` that `scanFile` makes for the
lines it hands over (logs.go 439 and 475), the first of them being call number
`i`: the records put on the bus, in order; `none` if a call panics. -/
def processLines {R : Type} (re : Regexp R) (lc : LogCollector R) (env : Nat → LineEnv)
    (file : logFile) : Nat → List (List Nat) → Option (List CollectedData)
  | _, [] => some []
  | i, line :: rest =>
    match processLogLine re lc (env i).now (env i).issueSend (env i).logSend line file with
    | none => none
    | some out => (processLines re lc env file (i + 1) rest).map (fun more => out ++ more)

/-- The records that one call of `scanFile` puts on the bus. -/
def scanEmits {R : Type} (re : Regexp R) (lc : LogCollector R) (env : Nat → LineEnv)
    (lf : logFile) (v : FileView) : Option (List CollectedData) :=
  processLines re lc env lf 0 (scanFile lf v).lines

/-- The records of type `log` among the records put on the bus. -/
def logRecords (records : List CollectedData) : List CollectedData :=
  records.filter (fun r => r.Type_ == DataTypeLog)

/-- What the log records hold under the key `message` of their data. -/
def messagesOf (records : List CollectedData) : List (Option DataValue) :=
  (logRecords records).map (fun r => GoMap.get r.Data "message")

/-- The `logFile` that `addLogFile` creates for `path` when it leaves the
handle at the start of the file. -/
def trackedAtStart (path : String) (pathConfig : LogPathConfig) : logFile :=
  { path := path, offset := 0, position := 0, parser := pathConfig.Parser,
    tags := pathConfig.Tags, fields := pathConfig.Fields }

/-- An environment in which the bus accepts every send at once. -/
def acceptingEnv : Nat → LineEnv :=
  fun _ =>
    { now := Clock.mk "2024-01-01T00:00:00Z" 1704067200
      issueSend := fun _ => IssueSend.sent
      logSend := LogSend.sent }

/-- An environment in which the bus stays full, so that every log record is
dropped by the `default` arm of the second `select`. -/
def droppingEnv : Nat → LineEnv :=
  fun _ =>
    { now := Clock.mk "2024-01-01T00:00:00Z" 1704067200
      issueSend := fun _ => IssueSend.sent
      logSend := LogSend.dropped }

/-- The cold start of the collector `oomCollector` on the file at
`pathConfig.Path` with bytes `content` and no position file: `addLogFile`
registers the file and the first scan runs.  The result is what the log
records put on the bus hold as their type, source and message, and the offset
written to the position file, if any. -/
def coldStart (pathConfig : LogPathConfig) (content : List Nat) (env : Nat → LineEnv) :
    Option (List (DataType × String × Option DataValue) × Option Nat) :=
  let lc := addLogFile oomCollector (diskWith pathConfig.Path content none) pathConfig.Path
    pathConfig
  (GoMap.get lc.files pathConfig.Path).bind (fun lf =>
    (scanEmits literalRegexp lc env lf (viewOf content)).map (fun out =>
      ((logRecords out).map (fun r => (r.Type_, r.Source, GoMap.get r.Data "message")),
        (scanFile lf (viewOf content)).persisted)))

/-- A rule for the pattern `Kill process`. -/
def killRule : LogPatternConfig :=
  { Name := "kill", Pattern := "Kill process", Severity := "warning", Category := "process",
    Description := "", AutoFix := "" }

/-- The collector that `NewLogCollector` builds from the rule list
`[brokenRule, oomRule, killRule]`: the first rule is skipped at start-up. -/
def threeRuleCollector : Option (LogCollector (List Nat)) :=
  NewLogCollector literalRegexp
    { Enabled := true, Paths := [plainPath "/tmp/a.log"],
      Patterns := [brokenRule, oomRule, killRule], Parsers := [] }

/-- The configured rules whose pattern compiles and matches the line, in the
order of the configuration. -/
def matchingRules {R : Type} (re : Regexp R) (rules : List LogPatternConfig)
    (line : List Nat) : List LogPatternConfig :=
  rules.filter (fun p =>
    match re.Compile p.Pattern with
    | some r => re.MatchString r line
    | none => false)

end collectors

/-! ## Theorems: the batching pipeline -/

namespace Pipeline

theorem flushUnsafe_sent_flat {α : Type} (p : State α) :
    (flushUnsafe p SendOutcome.sent).1.outputCh.flatten ++ (flushUnsafe p SendOutcome.sent).1.buffer
      = p.outputCh.flatten ++ p.buffer := by
  unfold flushUnsafe
  by_cases h : p.buffer.length = 0
  · simp [h]
  · simp [h]

theorem flushUnsafe_config {α : Type} (p : State α) (o : SendOutcome) :
    (flushUnsafe p o).1.config = p.config := by
  unfold flushUnsafe
  by_cases h : p.buffer.length = 0
  · simp [h]
  · cases o <;> simp [h]

theorem step_config {α : Type} (p : State α) (op : Op α) :
    (step p op).1.config = p.config := by
  cases op with
  | add d o =>
    simp only [step, addToBuffer]
    split
    · rw [flushUnsafe_config]
    · rfl
  | tick o => simp only [step, flush, flushUnsafe_config]

theorem step_sent_flat {α : Type} (p : State α) (op : Op α)
    (h : op.outcome = SendOutcome.sent) :
    (step p op).1.outputCh.flatten ++ (step p op).1.buffer
      = p.outputCh.flatten ++ p.buffer ++ appended [op] := by
  cases op with
  | add d o =>
    simp only [Op.outcome] at h
    subst h
    simp only [step, addToBuffer, appended]
    split
    · rw [flushUnsafe_sent_flat]; simp
    · simp
  | tick o =>
    simp only [Op.outcome] at h
    subst h
    simp only [step, flush, appended]
    rw [flushUnsafe_sent_flat]; simp

theorem appended_cons {α : Type} (op : Op α) (ops : List (Op α)) :
    appended (op :: ops) = appended [op] ++ appended ops := by
  cases op <;> simp [appended]

theorem run_sent_flat {α : Type} (ops : List (Op α)) :
    ∀ p : State α, (∀ op ∈ ops, op.outcome = SendOutcome.sent) →
      (run p ops).1.outputCh.flatten ++ (run p ops).1.buffer
        = p.outputCh.flatten ++ p.buffer ++ appended ops := by
  induction ops with
  | nil => intro p _; simp [run, appended]
  | cons op ops ih =>
    intro p h
    have h1 : op.outcome = SendOutcome.sent := h op (List.mem_cons_self _ _)
    have h2 : ∀ o ∈ ops, o.outcome = SendOutcome.sent :=
      fun o ho => h o (List.mem_cons_of_mem _ ho)
    simp only [run]
    rw [ih _ h2, step_sent_flat p op h1, appended_cons op ops]
    simp [List.append_assoc]

theorem flushUnsafe_batch {α : Type} (p : State α) (o : SendOutcome) (b : List α)
    (h : (flushUnsafe p o).2 = some b) : b = p.buffer ∧ 1 ≤ b.length := by
  unfold flushUnsafe at h
  by_cases h0 : p.buffer.length = 0
  · simp [h0] at h
  · cases o <;> simp [h0] at h <;> subst h <;> exact ⟨rfl, by omega⟩

theorem flushUnsafe_buffer_le {α : Type} (p : State α) (o : SendOutcome) :
    (flushUnsafe p o).1.buffer.length ≤ p.buffer.length := by
  unfold flushUnsafe
  by_cases h : p.buffer.length = 0
  · simp [h]
  · cases o <;> simp [h]

theorem step_invariant {α : Type} (p : State α) (op : Op α)
    (hB : 1 ≤ p.config.BatchSize) (hI : BufferBelow p) :
    BufferBelow (step p op).1 ∧
      ∀ b, (step p op).2 = some b → 1 ≤ b.length ∧ (b.length : Int) ≤ p.config.BatchSize := by
  unfold BufferBelow at *
  rw [step_config]
  cases op with
  | add d o =>
    simp only [step, addToBuffer]
    split
    · rename_i hge
      constructor
      · have hne : ¬ ((p.buffer ++ [d]).length = 0) := by simp
        unfold flushUnsafe
        cases o <;> simp [hne] <;> omega
      · intro b hb
        obtain ⟨rfl, h1⟩ := flushUnsafe_batch _ _ _ hb
        refine ⟨h1, ?_⟩
        simp only [List.length_append, List.length_singleton] at *
        push_cast at *
        omega
    · rename_i hlt
      constructor
      · simp only [List.length_append, List.length_singleton] at *
        push_cast at *
        omega
      · intro b hb; simp at hb
  | tick o =>
    simp only [step, flush]
    constructor
    · have := flushUnsafe_buffer_le p o
      omega
    · intro b hb
      obtain ⟨rfl, h1⟩ := flushUnsafe_batch _ _ _ hb
      exact ⟨h1, by omega⟩

theorem run_invariant {α : Type} (ops : List (Op α)) :
    ∀ p : State α, 1 ≤ p.config.BatchSize → BufferBelow p →
      ∀ b ∈ (run p ops).2, 1 ≤ b.length ∧ (b.length : Int) ≤ p.config.BatchSize := by
  induction ops with
  | nil => intro p _ _ b hb; simp [run] at hb
  | cons op ops ih =>
    intro p hB hI b hb
    obtain ⟨hI1, hstep⟩ := step_invariant p op hB hI
    simp only [run, List.mem_append] at hb
    rcases hb with hb | hb
    · apply hstep
      cases hs : (step p op).2 with
      | none => rw [hs] at hb; simp at hb
      | some b1 => rw [hs] at hb; simp at hb; rw [hb]
    · have := ih (step p op).1 (by rw [step_config]; exact hB) hI1 b hb
      rw [step_config] at this
      exact this

/-- C1: starting from an empty buffer with `batch_size ≥ 1`, for every
sequence of appends and timer flushes in which every send on the output
channel succeeds, the emitted batches concatenated in emission order,
followed by the records still buffered, are exactly the appended records
in order: nothing is lost, duplicated or reordered. -/
theorem batching_preserves_records {α : Type} (cfg : Config) (ops : List (Op α))
    (hB : 1 ≤ cfg.BatchSize)
    (hsend : ∀ op ∈ ops, op.outcome = SendOutcome.sent) :
    (run (New cfg) ops).1.outputCh.flatten ++ (run (New cfg) ops).1.buffer = appended ops := by
  have h := run_sent_flat ops (New cfg) hsend
  have _ := hB
  simpa [New] using h

/-- Witness for C1: batch size 2, three appends and a timer tick. -/
theorem batching_preserves_records_witness :
    (1 : Int) ≤ (Config.mk 10 2).BatchSize ∧
    (∀ op ∈ [Op.add 7 SendOutcome.sent, Op.add 8 SendOutcome.sent,
        Op.add 9 SendOutcome.sent, Op.tick SendOutcome.sent], op.outcome = SendOutcome.sent) ∧
    (run (New (Config.mk 10 2)) [Op.add 7 SendOutcome.sent, Op.add 8 SendOutcome.sent,
        Op.add 9 SendOutcome.sent, Op.tick SendOutcome.sent]).1.outputCh = [[7, 8], [9]] ∧
    (run (New (Config.mk 10 2)) [Op.add 7 SendOutcome.sent, Op.add 8 SendOutcome.sent,
        Op.add 9 SendOutcome.sent, Op.tick SendOutcome.sent]).1.outputCh.flatten ++
      (run (New (Config.mk 10 2)) [Op.add 7 SendOutcome.sent, Op.add 8 SendOutcome.sent,
        Op.add 9 SendOutcome.sent, Op.tick SendOutcome.sent]).1.buffer
      = appended [Op.add 7 SendOutcome.sent, Op.add 8 SendOutcome.sent,
        Op.add 9 SendOutcome.sent, Op.tick SendOutcome.sent] :=
  ⟨by decide, by simp [Op.outcome], by decide,
    batching_preserves_records (Config.mk 10 2) _ (by decide) (by simp [Op.outcome])⟩

/-- C2: starting from an empty buffer with `batch_size ≥ 1`, for every
interleaving of appends and timer flushes, and whatever happens to each send,
every batch offered to the output channel is non-empty and holds at most
`batch_size` records. -/
theorem batch_size_bounds {α : Type} (cfg : Config) (ops : List (Op α))
    (hB : 1 ≤ cfg.BatchSize) :
    ∀ b ∈ (run (New cfg) ops).2, 1 ≤ b.length ∧ (b.length : Int) ≤ cfg.BatchSize := by
  have hI : BufferBelow (New cfg : State α) := by
    simp only [BufferBelow, New, List.length_nil]
    push_cast
    omega
  exact run_invariant ops (New cfg) hB hI

/-- Witness for C2: batch size 2 with a send that times out. -/
theorem batch_size_bounds_witness :
    (1 : Int) ≤ (Config.mk 10 2).BatchSize ∧
    (run (New (Config.mk 10 2)) [Op.add 7 SendOutcome.sent, Op.add 8 SendOutcome.timedOut,
        Op.add 9 SendOutcome.sent, Op.tick SendOutcome.sent]).2 = [[7, 8], [9]] ∧
    ∀ b ∈ (run (New (Config.mk 10 2)) [Op.add 7 SendOutcome.sent, Op.add 8 SendOutcome.timedOut,
        Op.add 9 SendOutcome.sent, Op.tick SendOutcome.sent]).2,
      1 ≤ b.length ∧ (b.length : Int) ≤ (Config.mk 10 2).BatchSize :=
  ⟨by decide, by decide, batch_size_bounds (Config.mk 10 2) _ (by decide)⟩

end Pipeline

/-! ## Theorems: the log tailer -/

namespace collectors

open config

theorem pending_newline_nil (rest : List Nat) :
    pending [] (10 :: rest) = pending [] rest := by
  simp [pending]

theorem pending_newline_cons (cur rest : List Nat) (hc : cur ≠ []) :
    pending cur (10 :: rest) = (cur :: (pending [] rest).1, (pending [] rest).2) := by
  simp [pending, hc]

theorem pending_cr (cur rest : List Nat) :
    pending cur (13 :: rest) = pending cur rest := by
  simp [pending]

theorem pending_byte (cur rest : List Nat) (b : Nat) (h1 : b ≠ 10) (h2 : b ≠ 13) :
    pending cur (b :: rest) = pending (cur ++ [b]) rest := by
  simp [pending, h1, h2]

theorem chunkLoop_newline_nil (maxL off : Nat) (rest : List Nat) (s : ScanState)
    (hc : s.lineBuffer = []) :
    chunkLoop maxL off (10 :: rest) s = chunkLoop maxL off rest { s with position := off } := by
  simp [chunkLoop, hc]

theorem chunkLoop_newline_stop (maxL off : Nat) (rest : List Nat) (s : ScanState)
    (hc : s.lineBuffer ≠ []) (hl : s.linesRead + 1 ≥ maxL) :
    chunkLoop maxL off (10 :: rest) s =
      { lineBuffer := [], linesRead := s.linesRead + 1, position := s.position,
        lines := s.lines ++ [s.lineBuffer] } := by
  have hlen : s.lineBuffer.length > 0 := List.length_pos.mpr hc
  have hl2 : maxL ≤ s.linesRead + 1 := hl
  simp [chunkLoop, hc, hlen, hl2]

theorem chunkLoop_newline_go (maxL off : Nat) (rest : List Nat) (s : ScanState)
    (hc : s.lineBuffer ≠ []) (hl : s.linesRead + 1 < maxL) :
    chunkLoop maxL off (10 :: rest) s =
      chunkLoop maxL off rest
        { lineBuffer := [], linesRead := s.linesRead + 1, position := off,
          lines := s.lines ++ [s.lineBuffer] } := by
  have hlen : s.lineBuffer.length > 0 := List.length_pos.mpr hc
  have hl2 : ¬ maxL ≤ s.linesRead + 1 := by omega
  simp [chunkLoop, hc, hlen, hl2]

theorem chunkLoop_cr (maxL off : Nat) (rest : List Nat) (s : ScanState) :
    chunkLoop maxL off (13 :: rest) s = chunkLoop maxL off rest s := by
  simp [chunkLoop]

theorem chunkLoop_byte (maxL off : Nat) (rest : List Nat) (s : ScanState) (b : Nat)
    (h1 : b ≠ 10) (h2 : b ≠ 13) :
    chunkLoop maxL off (b :: rest) s =
      chunkLoop maxL off rest { s with lineBuffer := s.lineBuffer ++ [b] } := by
  simp [chunkLoop, h1, h2]

theorem pending_append (a b : List Nat) :
    ∀ cur, pending cur (a ++ b) =
      ((pending cur a).1 ++ (pending (pending cur a).2 b).1, (pending (pending cur a).2 b).2) := by
  induction a with
  | nil => intro cur; simp [pending]
  | cons x a ih =>
    intro cur
    rw [List.cons_append]
    by_cases hx : x = 10
    · subst hx
      by_cases hc : cur = []
      · subst hc
        rw [pending_newline_nil, pending_newline_nil, ih]
      · rw [pending_newline_cons _ _ hc, pending_newline_cons _ _ hc, ih]
        simp
    · by_cases hr : x = 13
      · subst hr
        rw [pending_cr, pending_cr, ih]
      · rw [pending_byte _ _ _ hx hr, pending_byte _ _ _ hx hr, ih]

/-- The byte loop over one chunk, in terms of `pending`. -/
theorem chunkLoop_spec (maxL off : Nat) (data : List Nat) :
    ∀ s : ScanState, s.linesRead < maxL →
      (chunkLoop maxL off data s).lines
          = s.lines ++ (pending s.lineBuffer data).1.take (maxL - s.linesRead) ∧
      (chunkLoop maxL off data s).linesRead
          = min maxL (s.linesRead + (pending s.lineBuffer data).1.length) ∧
      (s.linesRead + (pending s.lineBuffer data).1.length < maxL →
          (chunkLoop maxL off data s).lineBuffer = (pending s.lineBuffer data).2) ∧
      (maxL ≤ s.linesRead + (pending s.lineBuffer data).1.length →
          (chunkLoop maxL off data s).lineBuffer = []) := by
  induction data with
  | nil =>
    intro s hs
    simp only [chunkLoop, pending, List.take_nil, List.append_nil, List.length_nil, Nat.add_zero]
    refine ⟨trivial, ?_, fun _ => trivial, fun h => ?_⟩
    · omega
    · omega
  | cons b data ih =>
    intro s hs
    by_cases hb : b = 10
    · subst hb
      by_cases hc : s.lineBuffer = []
      · rw [chunkLoop_newline_nil _ _ _ _ hc, hc, pending_newline_nil]
        have := ih { s with position := off } hs
        simpa [hc] using this
      · rw [pending_newline_cons _ _ hc]
        by_cases hlim : s.linesRead + 1 ≥ maxL
        · rw [chunkLoop_newline_stop _ _ _ _ hc hlim]
          have h1 : maxL - s.linesRead = 1 := by omega
          simp only [List.length_cons]
          refine ⟨?_, ?_, fun h => ?_, fun _ => trivial⟩
          · rw [h1]; simp
          · omega
          · omega
        · have hs2 : s.linesRead + 1 < maxL := by omega
          rw [chunkLoop_newline_go _ _ _ _ hc hs2]
          obtain ⟨i1, i2, i3, i4⟩ := ih
            { lineBuffer := [], linesRead := s.linesRead + 1, position := off,
              lines := s.lines ++ [s.lineBuffer] } hs2
          simp only at i1 i2 i3 i4
          simp only [List.length_cons]
          refine ⟨?_, ?_, fun h => ?_, fun h => ?_⟩
          · rw [i1]
            have h1 : maxL - s.linesRead = (maxL - (s.linesRead + 1)) + 1 := by omega
            rw [h1, List.take_succ_cons]
            simp
          · rw [i2]; omega
          · exact i3 (by omega)
          · exact i4 (by omega)
    · by_cases hr : b = 13
      · subst hr
        rw [chunkLoop_cr, pending_cr]
        exact ih s hs
      · rw [chunkLoop_byte _ _ _ _ _ hb hr, pending_byte _ _ _ hb hr]
        exact ih { s with lineBuffer := s.lineBuffer ++ [b] } hs

theorem take_split (buf : Nat) (D : List Nat) :
    D = D.take buf ++ D.drop (D.take buf).length := by
  rw [List.length_take]
  by_cases h : buf ≤ D.length
  · rw [Nat.min_eq_left h, List.take_append_drop]
  · have h2 : D.length ≤ buf := by omega
    rw [Nat.min_eq_right h2, List.take_of_length_le h2, List.drop_length, List.append_nil]

theorem readLoop_zero (maxL buf : Nat) (content : List Nat) (off : Nat) (s : ScanState) :
    readLoop maxL buf content 0 off s = (off, s) := rfl

theorem readLoop_done (maxL buf : Nat) (content : List Nat) (fuel off : Nat) (s : ScanState)
    (h : ¬ s.linesRead < maxL) :
    readLoop maxL buf content fuel off s = (off, s) := by
  cases fuel with
  | zero => rfl
  | succ fuel => simp [readLoop, h]

theorem readLoop_eof (maxL buf : Nat) (content : List Nat) (fuel off : Nat) (s : ScanState)
    (h : ((content.drop off).take buf).length = 0) :
    readLoop maxL buf content fuel off s = (off, s) := by
  cases fuel with
  | zero => rfl
  | succ fuel =>
    by_cases hl : s.linesRead < maxL
    · simp [readLoop, hl, h]
    · simp [readLoop, hl]

theorem readLoop_step (maxL buf : Nat) (content : List Nat) (fuel off : Nat) (s : ScanState)
    (hl : s.linesRead < maxL) (h : ((content.drop off).take buf).length ≠ 0) :
    readLoop maxL buf content (fuel + 1) off s =
      readLoop maxL buf content fuel (off + ((content.drop off).take buf).length)
        { chunkLoop maxL (off + ((content.drop off).take buf).length)
            ((content.drop off).take buf) s with
          position := off + ((content.drop off).take buf).length } := by
  rw [readLoop]
  simp only [hl, h, if_true, if_false]

/-- The read loop in terms of `pending`: which lines it hands over and what
is left in the line buffer, given enough fuel. -/
theorem readLoop_spec (maxL buf : Nat) (content : List Nat) (hbuf : 0 < buf) :
    ∀ (fuel off : Nat) (s : ScanState), content.length - off < fuel →
      s.linesRead ≤ maxL → (s.linesRead = maxL → s.lineBuffer = []) →
      (readLoop maxL buf content fuel off s).2.lines
          = s.lines ++ (pending s.lineBuffer (content.drop off)).1.take (maxL - s.linesRead) ∧
      (readLoop maxL buf content fuel off s).2.linesRead
          = min maxL (s.linesRead + (pending s.lineBuffer (content.drop off)).1.length) ∧
      (s.linesRead + (pending s.lineBuffer (content.drop off)).1.length < maxL →
          (readLoop maxL buf content fuel off s).2.lineBuffer
            = (pending s.lineBuffer (content.drop off)).2 ∧
          content.length ≤ (readLoop maxL buf content fuel off s).1) ∧
      (maxL ≤ s.linesRead + (pending s.lineBuffer (content.drop off)).1.length →
          (readLoop maxL buf content fuel off s).2.lineBuffer = []) := by
  intro fuel
  induction fuel with
  | zero => intro off s hf; omega
  | succ fuel ih =>
    intro off s hf hle hfull
    by_cases hl : s.linesRead < maxL
    · by_cases hn : ((content.drop off).take buf).length = 0
      · have hdrop : content.drop off = [] := by
          rw [List.length_take] at hn
          have : (content.drop off).length = 0 := by omega
          exact List.length_eq_zero.mp this
        have hlen : content.length ≤ off := by
          have := congrArg List.length hdrop
          simp only [List.length_drop, List.length_nil] at this
          omega
        rw [readLoop_eof _ _ _ _ _ _ hn, hdrop]
        simp only [pending, List.take_nil, List.append_nil, List.length_nil, Nat.add_zero]
        refine ⟨trivial, by omega, fun _ => ⟨trivial, hlen⟩, fun h => by omega⟩
      · rw [readLoop_step _ _ _ _ _ _ hl hn]
        generalize hchunk : (content.drop off).take buf = chunk at hn ⊢
        have hsplit : content.drop off = chunk ++ content.drop (off + chunk.length) := by
          have h := take_split buf (content.drop off)
          rw [hchunk, List.drop_drop] at h
          exact h
        obtain ⟨c1, c2, c3, c4⟩ := chunkLoop_spec maxL (off + chunk.length) chunk s hl
        have hoff : off < content.length := by
          by_contra hcon
          have h0 : content.drop off = [] := List.drop_eq_nil_of_le (by omega)
          rw [h0, List.take_nil] at hchunk
          rw [← hchunk] at hn
          exact hn rfl
        have hpos : 0 < chunk.length := Nat.pos_of_ne_zero hn
        generalize chunkLoop maxL (off + chunk.length) chunk s = s1 at c1 c2 c3 c4 ⊢
        obtain ⟨lb, lr, ps, ls⟩ := s1
        simp only at c1 c2 c3 c4 ⊢
        obtain ⟨i1, i2, i3, i4⟩ := ih (off + chunk.length)
          { lineBuffer := lb, linesRead := lr, position := off + chunk.length, lines := ls }
          (by omega) (by simp only; rw [c2]; exact Nat.min_le_left _ _)
          (by
            simp only
            intro h
            apply c4
            rw [c2] at h
            omega)
        simp only at i1 i2 i3 i4
        rw [hsplit, pending_append]
        simp only [List.length_append]
        by_cases hA : s.linesRead + (pending s.lineBuffer chunk).1.length < maxL
        · have hb := c3 hA
          have hmin : lr = s.linesRead + (pending s.lineBuffer chunk).1.length := by
            rw [c2]; omega
          subst hb
          refine ⟨?_, ?_, fun h => ?_, fun h => ?_⟩
          · rw [i1, c1, List.take_append_eq_append_take, List.append_assoc]
            have e1 : List.take (maxL - s.linesRead) (pending s.lineBuffer chunk).1
                = (pending s.lineBuffer chunk).1 := List.take_of_length_le (by omega)
            have e2 : maxL - lr = maxL - s.linesRead - (pending s.lineBuffer chunk).1.length := by
              omega
            rw [e1, e2]
          · rw [i2]; omega
          · exact i3 (by omega)
          · exact i4 (by omega)
        · have hfull2 : maxL ≤ s.linesRead + (pending s.lineBuffer chunk).1.length := by omega
          have hmin : lr = maxL := by rw [c2]; omega
          refine ⟨?_, ?_, fun h => ?_, fun _ => ?_⟩
          · rw [i1, c1, List.take_append_eq_append_take]
            have h0 : maxL - s.linesRead - (pending s.lineBuffer chunk).1.length = 0 := by omega
            have h1 : maxL - lr = 0 := by omega
            simp [h0, h1]
          · rw [i2]; omega
          · omega
          · exact i4 (by omega)
    · have heq : s.linesRead = maxL := by omega
      rw [readLoop_done _ _ _ _ _ _ hl]
      simp only [heq, Nat.sub_self, List.take_zero, List.append_nil]
      refine ⟨trivial, by omega, fun h => by omega, fun _ => hfull heq⟩

/-- The read loop and the file offset: it never moves back, never passes the
end of the file, stops at the end of a chunk, and the tracked position
follows it. -/
theorem readLoop_offset (maxL buf : Nat) (content : List Nat) (hbuf : 0 < buf) :
    ∀ (fuel off : Nat) (s : ScanState), off ≤ content.length →
      off ≤ (readLoop maxL buf content fuel off s).1 ∧
      (readLoop maxL buf content fuel off s).1 ≤ content.length ∧
      ((readLoop maxL buf content fuel off s).1 = off →
          (readLoop maxL buf content fuel off s).2 = s) ∧
      (off < (readLoop maxL buf content fuel off s).1 →
          (readLoop maxL buf content fuel off s).2.position
            = (readLoop maxL buf content fuel off s).1) ∧
      (0 < fuel → s.linesRead < maxL → off < content.length →
          off < (readLoop maxL buf content fuel off s).1) ∧
      ((readLoop maxL buf content fuel off s).1 = content.length ∨
          ∃ k, (readLoop maxL buf content fuel off s).1 = off + k * buf) := by
  intro fuel
  induction fuel with
  | zero =>
    intro off s hoff
    rw [readLoop_zero]
    exact ⟨le_refl _, hoff, fun _ => rfl, fun h => absurd h (lt_irrefl _),
      fun h => absurd h (lt_irrefl _), Or.inr ⟨0, by simp⟩⟩
  | succ fuel ih =>
    intro off s hoff
    by_cases hl : s.linesRead < maxL
    · by_cases hn : ((content.drop off).take buf).length = 0
      · rw [readLoop_eof _ _ _ _ _ _ hn]
        have hlen : content.length ≤ off := by
          rw [List.length_take, List.length_drop] at hn
          omega
        exact ⟨le_refl _, hoff, fun _ => rfl, fun h => absurd h (lt_irrefl _),
          fun _ _ h => by omega, Or.inr ⟨0, by simp⟩⟩
      · rw [readLoop_step _ _ _ _ _ _ hl hn]
        have hclen : ((content.drop off).take buf).length = min buf (content.length - off) := by
          rw [List.length_take, List.length_drop]
        generalize hchunk : (content.drop off).take buf = chunk at hn hclen ⊢
        have hpos : 0 < chunk.length := Nat.pos_of_ne_zero hn
        obtain ⟨i1, i2, i3, i4, _, i6⟩ := ih (off + chunk.length)
          { chunkLoop maxL (off + chunk.length) chunk s with position := off + chunk.length }
          (by omega)
        refine ⟨by omega, i2, fun h => by omega, fun _ => ?_, fun _ _ _ => by omega, ?_⟩
        · by_cases he : (readLoop maxL buf content fuel (off + chunk.length)
              { chunkLoop maxL (off + chunk.length) chunk s with
                position := off + chunk.length }).1 = off + chunk.length
          · rw [i3 he, he]
          · exact i4 (by omega)
        · rcases i6 with h | ⟨k, hk⟩
          · exact Or.inl h
          · by_cases hb : buf ≤ content.length - off
            · right
              refine ⟨k + 1, ?_⟩
              rw [hk, hclen, Nat.min_eq_left hb]
              ring
            · left
              have : off + chunk.length = content.length := by omega
              omega
    · rw [readLoop_done _ _ _ _ _ _ hl]
      exact ⟨le_refl _, hoff, fun _ => rfl, fun h => absurd h (lt_irrefl _),
        fun _ h _ => absurd h hl, Or.inr ⟨0, by simp⟩⟩

theorem dropCR_cr (l : List Nat) : dropCR (13 :: l) = dropCR l := by
  simp [dropCR]

theorem dropCR_cons (b : Nat) (l : List Nat) (h : b ≠ 13) : dropCR (b :: l) = b :: dropCR l := by
  simp [dropCR, h]

theorem dropCR_nil : dropCR [] = [] := rfl

theorem segments_newline (rest : List Nat) :
    segments (10 :: rest) = ([] :: (segments rest).1, (segments rest).2) := by
  simp [segments]

theorem segments_byte_nil (b : Nat) (rest : List Nat) (hb : b ≠ 10)
    (h : (segments rest).1 = []) :
    segments (b :: rest) = ([], b :: (segments rest).2) := by
  simp [segments, hb, h]

theorem segments_byte_cons (b : Nat) (rest seg : List Nat) (segs : List (List Nat)) (hb : b ≠ 10)
    (h : (segments rest).1 = seg :: segs) :
    segments (b :: rest) = ((b :: seg) :: segs, (segments rest).2) := by
  simp [segments, hb, h]

/-- The byte loop expressed through the cut at newlines: the line buffer is
prepended to the first piece. -/
theorem pending_segments (data : List Nat) :
    ∀ cur, pending cur data =
      match (segments data).1 with
      | [] => ([], cur ++ dropCR (segments data).2)
      | seg :: segs =>
        (((cur ++ dropCR seg) :: segs.map dropCR).filter (fun l => l ≠ []),
          dropCR (segments data).2) := by
  induction data with
  | nil => intro cur; simp [pending, segments, dropCR]
  | cons b rest ih =>
    intro cur
    by_cases hb : b = 10
    · subst hb
      rw [segments_newline]
      have h0 := ih []
      have hrest : pending [] rest
          = (((segments rest).1.map dropCR).filter (fun l => l ≠ []),
              dropCR (segments rest).2) := by
        rw [h0]
        cases hseg : (segments rest).1 with
        | nil => simp
        | cons seg segs => simp
      by_cases hc : cur = []
      · subst hc
        rw [pending_newline_nil, hrest]
        simp [dropCR_nil]
      · rw [pending_newline_cons _ _ hc, hrest]
        simp [dropCR_nil, hc]
    · by_cases hr : b = 13
      · subst hr
        rw [pending_cr, ih cur]
        cases hseg : (segments rest).1 with
        | nil => rw [segments_byte_nil _ _ hb hseg]; simp [dropCR_cr]
        | cons seg segs => rw [segments_byte_cons _ _ _ _ hb hseg]; simp [dropCR_cr]
      · rw [pending_byte _ _ _ hb hr, ih (cur ++ [b])]
        cases hseg : (segments rest).1 with
        | nil => rw [segments_byte_nil _ _ hb hseg]; simp [dropCR_cons _ _ hr]
        | cons seg segs => rw [segments_byte_cons _ _ _ _ hb hseg]; simp [dropCR_cons _ _ hr]

theorem pending_eq (data : List Nat) :
    pending [] data = (completeLines data, trailingFragment data) := by
  rw [pending_segments data []]
  unfold completeLines trailingFragment
  cases hseg : (segments data).1 with
  | nil => simp
  | cons seg segs => simp

/-- What a scan that finds growth does, for any line limit `maxL ≥ 1` and
any read buffer size `buf ≥ 1`. -/
theorem scanFileWith_reads (maxL buf : Nat) (hmax : 0 < maxL) (hbuf : 0 < buf)
    (lf : logFile) (v : FileView)
    (hp : v.pathExists = true) (hs : v.statOk = true)
    (hg1 : lf.position < v.content.length) (hg2 : lf.offset < v.content.length) :
    (scanFileWith maxL buf lf v).lines
        = (completeLines (v.content.drop lf.position)).take maxL ++
          (if (completeLines (v.content.drop lf.position)).length < maxL ∧
              trailingFragment (v.content.drop lf.position) ≠ []
            then [trailingFragment (v.content.drop lf.position)] else []) ∧
      (scanFileWith maxL buf lf v).removed = false ∧
      (scanFileWith maxL buf lf v).file.position = (scanFileWith maxL buf lf v).file.offset ∧
      lf.position < (scanFileWith maxL buf lf v).file.position ∧
      (scanFileWith maxL buf lf v).file.position ≤ v.content.length ∧
      ((completeLines (v.content.drop lf.position)).length < maxL →
        (scanFileWith maxL buf lf v).file.position = v.content.length) ∧
      ChunkEnd (scanFileWith maxL buf lf v).file.position v.content.length lf.position buf ∧
      (scanFileWith maxL buf lf v).persisted
        = (if (scanFileWith maxL buf lf v).lines = [] then none
            else some (scanFileWith maxL buf lf v).file.position) := by
  have hcur : ¬ ((if lf.position > lf.offset then lf.position else lf.offset)
      ≥ v.content.length) := by
    split <;> omega
  obtain ⟨a1, a2, a3, a4⟩ := readLoop_spec maxL buf v.content hbuf (v.content.length + 1)
    lf.position { lineBuffer := [], linesRead := 0, position := lf.position, lines := [] }
    (by omega) (Nat.zero_le _) (fun _ => rfl)
  obtain ⟨b1, b2, b3, b4, b5, b6⟩ := readLoop_offset maxL buf v.content hbuf
    (v.content.length + 1) lf.position
    { lineBuffer := [], linesRead := 0, position := lf.position, lines := [] } (by omega)
  have b5' := b5 (Nat.succ_pos _) hmax hg1
  have b4' := b4 b5'
  simp only [pending_eq, List.nil_append, Nat.zero_add, Nat.sub_zero] at a1 a2 a3 a4
  unfold scanFileWith
  simp only [hp, hs, Bool.not_true, Bool.false_eq_true, if_false, hcur]
  generalize readLoop maxL buf v.content (v.content.length + 1) lf.position
    { lineBuffer := [], linesRead := 0, position := lf.position, lines := [] } = r
    at a1 a2 a3 a4 b1 b2 b3 b4 b5 b6 b5' b4'
  obtain ⟨off, lb, lr, ps, ls⟩ := r
  simp only at a1 a2 a3 a4 b1 b2 b3 b4 b5 b6 b5' b4' ⊢
  have hchunkEnd : ChunkEnd off v.content.length lf.position buf := b6
  clear b6 b3 b4 b5
  by_cases hlt : (completeLines (v.content.drop lf.position)).length < maxL
  · obtain ⟨hlb, hoff⟩ := a3 hlt
    have hoffeq : off = v.content.length := by omega
    have hlr : lr = (completeLines (v.content.drop lf.position)).length := by omega
    have htake : (completeLines (v.content.drop lf.position)).take maxL
        = completeLines (v.content.drop lf.position) := List.take_of_length_le (by omega)
    by_cases hfrag : trailingFragment (v.content.drop lf.position) = []
    · have hlen : ¬ (lb.length > 0) := by rw [hlb, hfrag]; simp
      simp only [hlen, if_false, hlt, hfrag, ne_eq, not_true_eq_false, and_false, List.append_nil]
      refine ⟨a1, trivial, b4', by omega, by omega, fun _ => by omega, Or.inl (by omega), ?_⟩
      by_cases he : ls = []
      · have h0 : lr = 0 := by
          rw [hlr, ← htake, ← a1, he]; rfl
        simp [he, h0]
      · have h0 : lr > 0 := by
          rw [hlr, ← htake, ← a1]; exact List.length_pos.mpr he
        simp [he, h0]
    · have hlen : lb.length > 0 := by rw [hlb]; exact List.length_pos.mpr hfrag
      have hge : off ≥ v.content.length := by omega
      have hne : lb ≠ [] := by rw [hlb]; exact hfrag
      simp only [hlen, if_true, hge, hne, ne_eq, not_false_eq_true, hlt, hfrag, and_self]
      refine ⟨by rw [a1, hlb], trivial, b4', by omega, by omega, fun _ => by omega,
        Or.inl (by omega), ?_⟩
      simp
  · have hge : maxL ≤ (completeLines (v.content.drop lf.position)).length := by omega
    have hlb := a4 hge
    have hlen : ¬ (lb.length > 0) := by rw [hlb]; simp
    have hlr : lr = maxL := by omega
    have hne : ls ≠ [] := by
      intro h
      have h2 := congrArg List.length a1
      rw [h, List.length_take] at h2
      simp only [List.length_nil] at h2
      omega
    simp only [hlen, if_false, hlt, false_and, List.append_nil]
    refine ⟨a1, trivial, b4', by omega, by omega, fun h => h.elim, ?_, ?_⟩
    · rw [b4']; exact hchunkEnd
    · have h0 : lr > 0 := by omega
      simp [hne, h0]


/-- When the read loop stops before the end of the file, the bytes before
the final offset alone already hold `maxL` lines. -/
theorem readLoop_stops_after_limit (maxL buf : Nat) (content : List Nat) (hbuf : 0 < buf) :
    ∀ (fuel off : Nat) (s : ScanState), content.length - off < fuel → off ≤ content.length →
      s.linesRead ≤ maxL →
      (readLoop maxL buf content fuel off s).1 < content.length →
      maxL ≤ s.linesRead + (pending s.lineBuffer
        ((content.drop off).take ((readLoop maxL buf content fuel off s).1 - off))).1.length := by
  intro fuel
  induction fuel with
  | zero => intro off s hf; omega
  | succ fuel ih =>
    intro off s hf hoffle hle hstop
    by_cases hl : s.linesRead < maxL
    · by_cases hn : ((content.drop off).take buf).length = 0
      · rw [readLoop_eof _ _ _ _ _ _ hn] at hstop
        rw [List.length_take, List.length_drop] at hn
        simp only at hstop
        omega
      · rw [readLoop_step _ _ _ _ _ _ hl hn] at hstop ⊢
        have hclen : ((content.drop off).take buf).length ≤ content.length - off := by
          rw [List.length_take, List.length_drop]; exact Nat.min_le_right _ _
        generalize hchunk : (content.drop off).take buf = chunk at hn hstop hclen ⊢
        have hsplit : content.drop off = chunk ++ content.drop (off + chunk.length) := by
          have h := take_split buf (content.drop off)
          rw [hchunk, List.drop_drop] at h
          exact h
        have hpos : 0 < chunk.length := Nat.pos_of_ne_zero hn
        obtain ⟨_, c2, c3, _⟩ := chunkLoop_spec maxL (off + chunk.length) chunk s hl
        have o1 := (readLoop_offset maxL buf content hbuf fuel
          (off + chunk.length)
          { chunkLoop maxL (off + chunk.length) chunk s with position := off + chunk.length }
          (by omega)).1
        generalize chunkLoop maxL (off + chunk.length) chunk s = s1 at c2 c3 hstop o1 ⊢
        obtain ⟨lb, lr, ps, ls⟩ := s1
        simp only at c2 c3 hstop o1 ⊢
        have i1 := ih (off + chunk.length)
          { lineBuffer := lb, linesRead := lr, position := off + chunk.length, lines := ls }
          (by omega) (by omega) (by simp only; rw [c2]; exact Nat.min_le_left _ _) hstop
        simp only at i1
        generalize (readLoop maxL buf content fuel (off + chunk.length)
          { lineBuffer := lb, linesRead := lr, position := off + chunk.length,
            lines := ls }).1 = fin at i1 o1 hstop ⊢
        have htk : (content.drop off).take (fin - off)
            = chunk ++ (content.drop (off + chunk.length)).take (fin - (off + chunk.length)) := by
          rw [hsplit, List.take_append_eq_append_take,
            List.take_of_length_le (by omega : chunk.length ≤ fin - off)]
          congr 2
          omega
        rw [htk, pending_append]
        simp only [List.length_append]
        by_cases hA : s.linesRead + (pending s.lineBuffer chunk).1.length < maxL
        · have hb := c3 hA
          subst hb
          have : lr = s.linesRead + (pending s.lineBuffer chunk).1.length := by rw [c2]; omega
          omega
        · omega
    · omega

/-- When a scan stops before the end of the file, the bytes between the old
and the new offset already hold `maxL` complete lines. -/
theorem scanFileWith_stops_after_limit (maxL buf : Nat) (hbuf : 0 < buf)
    (lf : logFile) (v : FileView)
    (hp : v.pathExists = true) (hs : v.statOk = true)
    (hg1 : lf.position < v.content.length) (hg2 : lf.offset < v.content.length)
    (hstop : (scanFileWith maxL buf lf v).file.offset < v.content.length) :
    maxL ≤ (completeLines ((v.content.drop lf.position).take
      ((scanFileWith maxL buf lf v).file.offset - lf.position))).length := by
  have hcur : ¬ ((if lf.position > lf.offset then lf.position else lf.offset)
      ≥ v.content.length) := by
    split <;> omega
  have hpre := readLoop_stops_after_limit maxL buf v.content hbuf (v.content.length + 1) lf.position
    { lineBuffer := [], linesRead := 0, position := lf.position, lines := [] }
    (by omega) (by omega) (Nat.zero_le _)
  simp only [pending_eq, Nat.zero_add] at hpre
  unfold scanFileWith at hstop ⊢
  simp only [hp, hs, Bool.not_true, Bool.false_eq_true, if_false, hcur] at hstop ⊢
  exact hpre hstop

theorem segments_line (l rest : List Nat) (h : 10 ∉ l) :
    segments (l ++ 10 :: rest) = (l :: (segments rest).1, (segments rest).2) := by
  induction l with
  | nil => simp [segments_newline]
  | cons b l ih =>
    have hb : b ≠ 10 := fun e => h (by simp [e])
    have hl : 10 ∉ l := fun e => h (List.mem_cons_of_mem _ e)
    rw [List.cons_append, segments_byte_cons b _ l (segments rest).1 hb (by rw [ih hl]), ih hl]

theorem segments_joinLines (lines : List (List Nat)) (h : ∀ l ∈ lines, 10 ∉ l) :
    segments (joinLines lines) = (lines, []) := by
  induction lines with
  | nil => simp [joinLines, segments]
  | cons l lines ih =>
    have h1 : 10 ∉ l := h l (List.mem_cons_self _ _)
    have h2 : ∀ x ∈ lines, 10 ∉ x := fun x hx => h x (List.mem_cons_of_mem _ hx)
    have e : joinLines (l :: lines) = l ++ 10 :: joinLines lines := by
      simp [joinLines]
    rw [e, segments_line _ _ h1, ih h2]

theorem completeLines_joinLines (lines : List (List Nat))
    (h : ∀ l ∈ lines, 10 ∉ l ∧ dropCR l ≠ []) :
    completeLines (joinLines lines) = lines.map dropCR ∧
      trailingFragment (joinLines lines) = [] := by
  unfold completeLines trailingFragment
  rw [segments_joinLines lines (fun l hl => (h l hl).1)]
  refine ⟨?_, rfl⟩
  apply List.filter_eq_self.mpr
  intro x hx
  obtain ⟨l, hl, rfl⟩ := List.mem_map.mp hx
  simpa using (h l hl).2

theorem dropCR_of_not_mem (l : List Nat) (h : 13 ∉ l) : dropCR l = l := by
  unfold dropCR
  apply List.filter_eq_self.mpr
  intro x hx
  have : x ≠ 13 := fun e => h (e ▸ hx)
  simpa using this

theorem segments_length (data : List Nat) : (segments data).1.length = data.count 10 := by
  induction data with
  | nil => simp [segments]
  | cons b rest ih =>
    by_cases hb : b = 10
    · subst hb
      rw [segments_newline]
      simp [ih]
    · have hb2 : ¬ (10 = b) := fun e => hb e.symm
      cases hseg : (segments rest).1 with
      | nil =>
        rw [segments_byte_nil _ _ hb hseg]
        rw [hseg] at ih
        rw [List.count_cons_of_ne hb2]
        exact ih
      | cons seg segs =>
        rw [segments_byte_cons _ _ _ _ hb hseg]
        rw [hseg] at ih
        rw [List.count_cons_of_ne hb2]
        exact ih

theorem completeLines_length_le (data : List Nat) :
    (completeLines data).length ≤ data.count 10 := by
  unfold completeLines
  calc (((segments data).1.map dropCR).filter (fun l => l ≠ [])).length
      ≤ ((segments data).1.map dropCR).length := List.length_filter_le _ _
    _ = data.count 10 := by rw [List.length_map, segments_length]

theorem joinLines_replicate_length (n : Nat) (l : List Nat) :
    (joinLines (List.replicate n l)).length = n * (l.length + 1) := by
  induction n with
  | zero => simp [joinLines]
  | succ n ih =>
    have e : joinLines (List.replicate (n + 1) l) = l ++ 10 :: joinLines (List.replicate n l) := by
      simp [joinLines, List.replicate_succ]
    rw [e, List.length_append, List.length_cons, ih]
    ring

theorem joinLines_length_pos (lines : List (List Nat)) (h : lines ≠ []) :
    0 < (joinLines lines).length := by
  cases lines with
  | nil => exact absurd rfl h
  | cons l lines => simp [joinLines]

/-- A strict prefix of a file of newline-terminated lines holds fewer
newlines than the file has lines. -/
theorem count_take_joinLines (lines : List (List Nat)) (h : ∀ l ∈ lines, 10 ∉ l) (m : Nat)
    (hm : m < (joinLines lines).length) :
    ((joinLines lines).take m).count 10 < lines.length := by
  have hne : lines ≠ [] := by
    intro hc
    rw [hc] at hm
    simp [joinLines] at hm
  have htot : (joinLines lines).count 10 = lines.length := by
    rw [← segments_length, segments_joinLines lines h]
  have hsplit : joinLines lines
      = (joinLines lines.dropLast ++ lines.getLast hne) ++ [10] := by
    conv_lhs => rw [← List.dropLast_append_getLast hne]
    simp [joinLines]
  rw [hsplit] at htot hm
  rw [hsplit]
  have hm2 : m ≤ (joinLines lines.dropLast ++ lines.getLast hne).length := by
    rw [List.length_append] at hm
    simp only [List.length_singleton] at hm
    omega
  rw [List.take_append_of_le_length hm2]
  have hsub : ((joinLines lines.dropLast ++ lines.getLast hne).take m).count 10
      ≤ (joinLines lines.dropLast ++ lines.getLast hne).count 10 :=
    List.Sublist.count_le (List.take_sublist _ _) 10
  rw [List.count_append] at htot
  simp only [List.count_singleton_self] at htot
  omega

theorem GoMap.get_set {V : Type} (m : GoMap V) (k : String) (v : V) :
    GoMap.get (GoMap.set m k v) k = some v := by
  unfold GoMap.get GoMap.set
  rw [List.find?_append]
  have hnone : List.find? (fun e => e.1 == k) (List.filter (fun e => e.1 != k) m) = none := by
    rw [List.find?_eq_none]
    intro x hx
    have := (List.mem_filter.mp hx).2
    simpa using this
  rw [hnone]
  simp

/-- A call of `scanFile` that finds no growth changes nothing. -/
theorem scanFile_idle (lf : logFile) (v : FileView)
    (h : v.pathExists = false ∨ v.statOk = false ∨ v.content.length ≤ lf.position ∨
      v.content.length ≤ lf.offset) :
    (scanFile lf v).file = lf ∧ (scanFile lf v).lines = [] ∧ (scanFile lf v).persisted = none := by
  unfold scanFile scanFileWith
  by_cases hp : v.pathExists = true
  · by_cases hs : v.statOk = true
    · have hcur : (if lf.position > lf.offset then lf.position else lf.offset)
          ≥ v.content.length := by
        rcases h with h | h | h | h
        · rw [hp] at h; cases h
        · rw [hs] at h; cases h
        · split <;> omega
        · split <;> omega
      simp [hp, hs, hcur]
    · simp [hp, hs]
  · simp [hp]

/-- C3 (evaluation of the code): a file registered with stored offset 6 and
content `A\nB\nC\nD\nE\n` has its handle at offset 6 but tracked position 0,
and the first scan seeks to the tracked position: it hands over all five
lines `A` to `E`, not only `D` and `E`, and persists offset 10. -/
theorem resume_first_scan_reads_from_start :
    (GoMap.get (addLogFile (idleCollector "/tmp/a.log")
        (diskWith "/tmp/a.log" (bytes "A\nB\nC\nD\nE\n") (some 6)) "/tmp/a.log"
        (plainPath "/tmp/a.log")).files "/tmp/a.log").map (fun lf => (lf.offset, lf.position))
      = some (6, 0) ∧
    (firstScan "/tmp/a.log" (bytes "A\nB\nC\nD\nE\n") (some 6)).map
        (fun r => (r.lines, r.persisted))
      = some ([bytes "A", bytes "B", bytes "C", bytes "D", bytes "E"], some 10) := by
  constructor <;> decide

/-- C4 (counterexample): after the first scan of `X\nY` both `X` and the
unterminated `Y` have been handed over and the tracked and persisted offset
is 3, the end of the file, not 2, the position just past the last newline:
the offset covers the trailing fragment. -/
theorem offset_covers_fragment :
    (scanFile (freshFile "/tmp/a.log") (viewOf (bytes "X\nY"))).lines = [bytes "X", bytes "Y"] ∧
    (scanFile (freshFile "/tmp/a.log") (viewOf (bytes "X\nY"))).persisted = some 3 ∧
    ¬ ((scanFile (freshFile "/tmp/a.log") (viewOf (bytes "X\nY"))).file.position
        = pastLastNewline (bytes "X\nY")) := by
  refine ⟨by decide, by decide, by decide⟩

/-- C4 (amended): if the tracked offset does not exceed the file size when
`scanFile` is called, then afterwards it still does not and it has not moved
back; the offset written to the position file, written exactly when a line
was handed over, is the tracked offset; and when the offset moved it is the
offset of the file handle, which is the file size whenever fewer than 1,000
lines were handed over, so that it covers a trailing fragment handed over at
the end of the file. -/
theorem scan_offset_bounds (lf : logFile) (v : FileView)
    (h : lf.position ≤ v.content.length) :
    (scanFile lf v).file.position ≤ v.content.length ∧
    lf.position ≤ (scanFile lf v).file.position ∧
    (scanFile lf v).persisted
      = (if (scanFile lf v).lines = [] then none else some (scanFile lf v).file.position) ∧
    ((scanFile lf v).file.position ≠ lf.position →
      (scanFile lf v).file.position = (scanFile lf v).file.offset ∧
      ((scanFile lf v).lines.length < 1000 →
        (scanFile lf v).file.position = v.content.length)) := by
  by_cases hread : v.pathExists = true ∧ v.statOk = true ∧
      lf.position < v.content.length ∧ lf.offset < v.content.length
  · obtain ⟨hp, hs, hg1, hg2⟩ := hread
    obtain ⟨r1, _, r3, r4, r5, r6, _, r8⟩ :=
      scanFileWith_reads 1000 8192 (by decide) (by decide) lf v hp hs hg1 hg2
    refine ⟨r5, Nat.le_of_lt r4, r8, fun _ => ⟨r3, fun hlen => r6 ?_⟩⟩
    by_contra hge
    have hlen2 : (scanFile lf v).lines.length < 1000 := hlen
    unfold scanFile at hlen2
    rw [r1, List.length_append, List.length_take] at hlen2
    omega
  · have hidle : v.pathExists = false ∨ v.statOk = false ∨ v.content.length ≤ lf.position ∨
        v.content.length ≤ lf.offset := by
      by_cases hp : v.pathExists = true
      · by_cases hs : v.statOk = true
        · right; right
          by_contra hcon
          apply hread
          refine ⟨hp, hs, ?_, ?_⟩ <;> omega
        · right; left; simpa using hs
      · left; simpa using hp
    obtain ⟨e1, e2, e3⟩ := scanFile_idle lf v hidle
    rw [e1, e2, e3]
    exact ⟨h, le_refl _, by simp, fun hne => absurd rfl hne⟩

/-- Witness for C4 (amended): the first scan of `X\nY`. -/
theorem scan_offset_bounds_witness :
    (freshFile "/tmp/a.log").position ≤ (viewOf (bytes "X\nY")).content.length ∧
    (scanFile (freshFile "/tmp/a.log") (viewOf (bytes "X\nY"))).file.position = 3 ∧
    (scanFile (freshFile "/tmp/a.log") (viewOf (bytes "X\nY"))).file.position
      ≤ (viewOf (bytes "X\nY")).content.length :=
  ⟨by decide, by decide,
    (scan_offset_bounds (freshFile "/tmp/a.log") (viewOf (bytes "X\nY")) (by decide)).1⟩

/-- C5 (evaluation of the code): a file of 1,001 lines `a\n` (2,002 bytes,
one chunk).  The first scan hands over 1,000 lines and leaves the tracked and
persisted offset at 2,002, the end of the chunk, not at 2,000, just past the
1,000th line; the next scan finds no growth, so line 1,001 is never handed
over. -/
theorem line_limit_skips_rest_of_chunk :
    (scanFile (freshFile "/tmp/a.log")
        (viewOf (joinLines (List.replicate 1001 [97])))).lines = List.replicate 1000 [97] ∧
    (scanFile (freshFile "/tmp/a.log")
        (viewOf (joinLines (List.replicate 1001 [97])))).file.position = 2002 ∧
    (scanFile (freshFile "/tmp/a.log")
        (viewOf (joinLines (List.replicate 1001 [97])))).persisted = some 2002 ∧
    (scanFile (scanFile (freshFile "/tmp/a.log")
        (viewOf (joinLines (List.replicate 1001 [97])))).file
        (viewOf (joinLines (List.replicate 1001 [97])))).lines = [] := by
  have hlen : (joinLines (List.replicate 1001 [97])).length = 2002 := by
    rw [joinLines_replicate_length]; rfl
  have hlines : ∀ l ∈ List.replicate 1001 [97], 10 ∉ l ∧ dropCR l ≠ [] := by
    intro l hl
    rw [List.eq_of_mem_replicate hl]
    decide
  obtain ⟨c1, c2⟩ := completeLines_joinLines _ hlines
  have hmap : (List.replicate 1001 [97]).map dropCR = List.replicate 1001 [97] := by
    rw [List.map_replicate]; rfl
  rw [hmap] at c1
  obtain ⟨r1, _, _, r4, r5, _, r7, r8⟩ :=
    scanFileWith_reads 1000 8192 (by decide) (by decide) (freshFile "/tmp/a.log")
      (viewOf (joinLines (List.replicate 1001 [97]))) rfl rfl
      (by show 0 < (joinLines (List.replicate 1001 [97])).length; omega)
      (by show 0 < (joinLines (List.replicate 1001 [97])).length; omega)
  have hv : (viewOf (joinLines (List.replicate 1001 [97]))).content
      = joinLines (List.replicate 1001 [97]) := rfl
  have hp0 : (freshFile "/tmp/a.log").position = 0 := rfl
  rw [hv, hp0, List.drop_zero] at r1
  rw [hv, hlen] at r5 r7
  rw [hp0] at r4 r7
  rw [c1, c2] at r1
  simp only [scanFile]
  have hl : (scanFileWith 1000 8192 (freshFile "/tmp/a.log")
      (viewOf (joinLines (List.replicate 1001 [97])))).lines = List.replicate 1000 [97] := by
    have hmin : min 1000 1001 = 1000 := by decide
    rw [r1, List.take_replicate, List.length_replicate, hmin,
      if_neg (fun hc => absurd hc.1 (by decide)), List.append_nil]
  have hpos : (scanFileWith 1000 8192 (freshFile "/tmp/a.log")
      (viewOf (joinLines (List.replicate 1001 [97])))).file.position = 2002 := by
    rcases r7 with h | ⟨k, hk⟩
    · exact h
    · cases k with
      | zero => omega
      | succ k => omega
  refine ⟨hl, hpos, ?_, ?_⟩
  · have hne : List.replicate 1000 [97] ≠ ([] : List (List Nat)) := by
      intro hc
      have hc2 := congrArg List.length hc
      rw [List.length_replicate] at hc2
      exact absurd hc2 (by decide)
    rw [r8, hl, hpos, if_neg hne]
  · have hidle := (scanFile_idle (scanFileWith 1000 8192 (freshFile "/tmp/a.log")
        (viewOf (joinLines (List.replicate 1001 [97])))).file
        (viewOf (joinLines (List.replicate 1001 [97])))
        (by right; right; left; rw [hpos, hv, hlen])).2.1
    simp only [scanFile] at hidle
    exact hidle

/-- C6 (counterexample): the new bytes `A\n\nB\n` hold three newlines but
only two lines are handed over; the empty piece between the first two
newlines yields no line. -/
theorem empty_line_yields_nothing :
    (segments (bytes "A\n\nB\n")).1.map dropCR = [bytes "A", [], bytes "B"] ∧
    (scanFile (freshFile "/tmp/a.log") (viewOf (bytes "A\n\nB\n"))).lines
      = [bytes "A", bytes "B"] ∧
    ¬ ((scanFile (freshFile "/tmp/a.log") (viewOf (bytes "A\n\nB\n"))).lines
      = (segments (bytes "A\n\nB\n")).1.map dropCR) := by
  refine ⟨by decide, by decide, by decide⟩

/-- C6 (amended): for a scan that reads new bytes holding at most 1,000
newlines, the lines handed over are, in file order, the pieces ending at a
newline with every `'\r'` removed, except that a piece that is empty after
the removal yields no line; they are followed by the unterminated rest (with
`'\r'` removed) when that is non-empty and fewer than 1,000 lines were
handed over. -/
theorem scan_splits_lines (lf : logFile) (v : FileView)
    (hp : v.pathExists = true) (hs : v.statOk = true)
    (hg1 : lf.position < v.content.length) (hg2 : lf.offset < v.content.length)
    (hn : (v.content.drop lf.position).count 10 ≤ 1000) :
    (scanFile lf v).lines
      = ((segments (v.content.drop lf.position)).1.map dropCR).filter (fun l => l ≠ []) ++
        (if (completeLines (v.content.drop lf.position)).length < 1000 ∧
            dropCR (segments (v.content.drop lf.position)).2 ≠ []
          then [dropCR (segments (v.content.drop lf.position)).2] else []) := by
  have r1 := (scanFileWith_reads 1000 8192 (by decide) (by decide) lf v hp hs hg1 hg2).1
  have hle := completeLines_length_le (v.content.drop lf.position)
  have htake : (completeLines (v.content.drop lf.position)).take 1000
      = completeLines (v.content.drop lf.position) := List.take_of_length_le (by omega)
  rw [htake] at r1
  exact r1

/-- Witness for C6 (amended): `A\r\n\nB\n` read from the start. -/
theorem scan_splits_lines_witness :
    (viewOf (bytes "A\r\n\nB\n")).pathExists = true ∧
    (viewOf (bytes "A\r\n\nB\n")).statOk = true ∧
    (freshFile "/tmp/a.log").position < (viewOf (bytes "A\r\n\nB\n")).content.length ∧
    (freshFile "/tmp/a.log").offset < (viewOf (bytes "A\r\n\nB\n")).content.length ∧
    ((viewOf (bytes "A\r\n\nB\n")).content.drop (freshFile "/tmp/a.log").position).count 10
      ≤ 1000 ∧
    (scanFile (freshFile "/tmp/a.log") (viewOf (bytes "A\r\n\nB\n"))).lines
      = [bytes "A", bytes "B"] :=
  ⟨rfl, rfl, by decide, by decide, by decide,
    (scan_splits_lines (freshFile "/tmp/a.log") (viewOf (bytes "A\r\n\nB\n")) rfl rfl
      (by decide) (by decide) (by decide)).trans (by decide)⟩

/-- The scan of a file of newline-terminated lines by a `logFile` whose
handle offset and tracked position are both zero. -/
theorem scan_from_start (lf : logFile) (lines : List (List Nat))
    (hp0 : lf.position = 0) (ho0 : lf.offset = 0)
    (hk : lines.length ≤ 1000)
    (hline : ∀ l ∈ lines, 10 ∉ l ∧ dropCR l ≠ []) :
    (scanFile lf (viewOf (joinLines lines))).lines = lines.map dropCR ∧
      ((∀ l ∈ lines, 13 ∉ l) → (scanFile lf (viewOf (joinLines lines))).lines = lines) ∧
      (scanFile lf (viewOf (joinLines lines))).lines.length = lines.length ∧
      (scanFile lf (viewOf (joinLines lines))).file.position = (joinLines lines).length ∧
      (scanFile lf (viewOf (joinLines lines))).persisted
        = (if lines = [] then none else some (joinLines lines).length) := by
  have hcr : (∀ l ∈ lines, 13 ∉ l) → lines.map dropCR = lines := by
    intro h13
    conv_rhs => rw [← List.map_id lines]
    apply List.map_congr_left
    intro l hl
    exact dropCR_of_not_mem l (h13 l hl)
  by_cases hempty : lines = []
  · subst hempty
    obtain ⟨e1, e2, e3⟩ := scanFile_idle lf (viewOf (joinLines []))
      (by right; right; left; simp [viewOf, joinLines])
    rw [e1, e2, e3, hp0]
    simp [joinLines]
  · have hlenpos := joinLines_length_pos lines hempty
    obtain ⟨c1, c2⟩ := completeLines_joinLines lines hline
    obtain ⟨r1, _, r3, _, r5, r6, _, r8⟩ :=
      scanFileWith_reads 1000 8192 (by decide) (by decide) lf (viewOf (joinLines lines))
        rfl rfl (by rw [hp0]; exact hlenpos) (by rw [ho0]; exact hlenpos)
    have hv : (viewOf (joinLines lines)).content = joinLines lines := rfl
    rw [hv, hp0, List.drop_zero, c1, c2] at r1
    rw [hv, hp0, List.drop_zero, c1] at r6
    have htake : (lines.map dropCR).take 1000 = lines.map dropCR :=
      List.take_of_length_le (by rw [List.length_map]; exact hk)
    have hl : (scanFile lf (viewOf (joinLines lines))).lines = lines.map dropCR := by
      unfold scanFile
      rw [r1, htake]
      simp
    have hpos2 : (scanFile lf (viewOf (joinLines lines))).file.position
        = (joinLines lines).length := by
      by_cases hk2 : lines.length < 1000
      · exact r6 (by rw [List.length_map]; exact hk2)
      · by_contra hstop
        have hstop2 : (scanFileWith 1000 8192 lf (viewOf (joinLines lines))).file.offset
            < (joinLines lines).length := by
          rw [← r3]
          have := r5
          rw [hv] at this
          exact lt_of_le_of_ne this hstop
        have hpre := scanFileWith_stops_after_limit 1000 8192 (by decide) lf (viewOf (joinLines lines))
          rfl rfl (by rw [hp0]; exact hlenpos) (by rw [ho0]; exact hlenpos) hstop2
        rw [hv, hp0, List.drop_zero, Nat.sub_zero] at hpre
        have h1 := completeLines_length_le ((joinLines lines).take
          (scanFileWith 1000 8192 lf (viewOf (joinLines lines))).file.offset)
        have h2 := count_take_joinLines lines (fun l hl => (hline l hl).1) _ hstop2
        omega
    have hne : lines.map dropCR ≠ [] := by
      intro hc
      exact hempty (List.map_eq_nil_iff.mp hc)
    refine ⟨hl, fun h13 => by rw [hl, hcr h13], by rw [hl, List.length_map], hpos2, ?_⟩
    have h8 : (scanFile lf (viewOf (joinLines lines))).persisted
        = (if (scanFile lf (viewOf (joinLines lines))).lines = [] then none
            else some (scanFile lf (viewOf (joinLines lines))).file.position) := r8
    rw [h8, hl, hpos2, if_neg hne, if_neg hempty]

/-- The lines handed over at a cold start on a small file.  If no position file exists and the
file, of at most 100 MiB, consists of `k ≤ 1000` lines each ended by a
newline (no line holds a newline byte and none is empty once `'\r'` is
removed), then `addLogFile` registers it at offset 0 and the first scan hands
over exactly those `k` lines in order, with `'\r'` bytes removed (so the
lines themselves when they hold no `'\r'`); the tracked offset is then the
file size and it is the offset written to the position file (nothing is
written for `k = 0`). -/
theorem cold_start_small_file {R : Type} (lc : LogCollector R) (disk : Disk) (path : String)
    (pathConfig : LogPathConfig) (lines : List (List Nat))
    (hopen : disk.open_ path = some { statOk := true, content := joinLines lines })
    (hpos : disk.readFile (positionFile path) = none)
    (hsize : (joinLines lines).length ≤ 100 * 1024 * 1024)
    (hk : lines.length ≤ 1000)
    (hline : ∀ l ∈ lines, 10 ∉ l ∧ dropCR l ≠ []) :
    ∃ lf, GoMap.get (addLogFile lc disk path pathConfig).files path = some lf ∧
      lf.offset = 0 ∧ lf.position = 0 ∧
      (scanFile lf (viewOf (joinLines lines))).lines = lines.map dropCR ∧
      ((∀ l ∈ lines, 13 ∉ l) → (scanFile lf (viewOf (joinLines lines))).lines = lines) ∧
      (scanFile lf (viewOf (joinLines lines))).lines.length = lines.length ∧
      (scanFile lf (viewOf (joinLines lines))).file.position = (joinLines lines).length ∧
      (scanFile lf (viewOf (joinLines lines))).persisted
        = (if lines = [] then none else some (joinLines lines).length) := by
  have hoff : initialOffset (none : Option PosData)
      { statOk := true, content := joinLines lines } = 0 := by
    have hns : ¬ ((joinLines lines).length > 100 * 1024 * 1024) := by omega
    simp only [initialOffset, if_true, hns, if_false]
  refine ⟨{ path := path, offset := 0, position := 0, parser := pathConfig.Parser,
            tags := pathConfig.Tags, fields := pathConfig.Fields }, ?_, rfl, rfl, ?_⟩
  · unfold addLogFile
    rw [hopen]
    simp only [hpos, hoff]
    exact GoMap.get_set _ _ _
  · exact scan_from_start _ lines rfl rfl hk hline

/-- An evaluation of the cold start: the file `A\nB\nC\n` with no position file gives the
lines `A`, `B`, `C` and persisted offset 6. -/
theorem cold_start_small_file_witness :
    (firstScan "/tmp/a.log" (bytes "A\nB\nC\n") none).map (fun r => (r.lines, r.persisted))
      = some ([bytes "A", bytes "B", bytes "C"], some 6) ∧
    ∃ lf, GoMap.get (addLogFile (idleCollector "/tmp/a.log")
        (diskWith "/tmp/a.log" (joinLines [bytes "A", bytes "B", bytes "C"]) none) "/tmp/a.log"
        (plainPath "/tmp/a.log")).files "/tmp/a.log" = some lf ∧
      lf.offset = 0 ∧ lf.position = 0 ∧
      (scanFile lf (viewOf (joinLines [bytes "A", bytes "B", bytes "C"]))).lines
        = [bytes "A", bytes "B", bytes "C"].map dropCR ∧
      ((∀ l ∈ [bytes "A", bytes "B", bytes "C"], 13 ∉ l) →
        (scanFile lf (viewOf (joinLines [bytes "A", bytes "B", bytes "C"]))).lines
          = [bytes "A", bytes "B", bytes "C"]) ∧
      (scanFile lf (viewOf (joinLines [bytes "A", bytes "B", bytes "C"]))).lines.length
        = [bytes "A", bytes "B", bytes "C"].length ∧
      (scanFile lf (viewOf (joinLines [bytes "A", bytes "B", bytes "C"]))).file.position
        = (joinLines [bytes "A", bytes "B", bytes "C"]).length ∧
      (scanFile lf (viewOf (joinLines [bytes "A", bytes "B", bytes "C"]))).persisted
        = (if [bytes "A", bytes "B", bytes "C"] = [] then none
            else some (joinLines [bytes "A", bytes "B", bytes "C"]).length) :=
  ⟨by decide,
    cold_start_small_file (idleCollector "/tmp/a.log")
      (diskWith "/tmp/a.log" (joinLines [bytes "A", bytes "B", bytes "C"]) none) "/tmp/a.log"
      (plainPath "/tmp/a.log") [bytes "A", bytes "B", bytes "C"]
      (by decide) (by decide) (by decide) (by decide) (by decide)⟩

/-- C8 (counterexample): the first scan of `X\nY` hands over `X` and also
the unterminated `Y`; after `Z\n` is appended the next scan hands over `Z`,
so `YZ` is never handed over as one line.  The persisted offset is then 5. -/
theorem fragment_not_held_back :
    (scanFile (freshFile "/tmp/a.log") (viewOf (bytes "X\nY"))).lines = [bytes "X", bytes "Y"] ∧
    (scanFile (freshFile "/tmp/a.log") (viewOf (bytes "X\nY"))).lines ≠ [bytes "X"] ∧
    (scanFile (scanFile (freshFile "/tmp/a.log") (viewOf (bytes "X\nY"))).file
      (viewOf (bytes "X\nYZ\n"))).lines = [bytes "Z"] ∧
    (scanFile (scanFile (freshFile "/tmp/a.log") (viewOf (bytes "X\nY"))).file
      (viewOf (bytes "X\nYZ\n"))).lines ≠ [bytes "YZ"] ∧
    (scanFile (scanFile (freshFile "/tmp/a.log") (viewOf (bytes "X\nY"))).file
      (viewOf (bytes "X\nYZ\n"))).persisted = some 5 := by
  refine ⟨by decide, by decide, by decide, by decide, by decide⟩

/-- C8 (amended): a trailing fragment without a newline is handed over as a
line of its own by the scan that reaches the end of the file.  For a file
read from the start whose content `c₁` is later extended by `c₂` (each part
holding fewer than 1,000 complete lines), the first scan hands over the
complete lines of `c₁` followed by its non-empty unterminated rest and moves
the offset to the end of `c₁`; the second scan hands over the complete lines
of `c₂` followed by its non-empty unterminated rest and moves the offset to
the end of the file. -/
theorem fragment_emitted_at_eof (lf : logFile) (c₁ c₂ : List Nat)
    (hp0 : lf.position = 0) (ho0 : lf.offset = 0)
    (h1 : c₁ ≠ []) (h2 : c₂ ≠ [])
    (hn1 : (completeLines c₁).length < 1000) (hn2 : (completeLines c₂).length < 1000) :
    (scanFile lf (viewOf c₁)).lines
      = completeLines c₁ ++ (if trailingFragment c₁ ≠ [] then [trailingFragment c₁] else []) ∧
    (scanFile lf (viewOf c₁)).file.position = c₁.length ∧
    (scanFile (scanFile lf (viewOf c₁)).file (viewOf (c₁ ++ c₂))).lines
      = completeLines c₂ ++ (if trailingFragment c₂ ≠ [] then [trailingFragment c₂] else []) ∧
    (scanFile (scanFile lf (viewOf c₁)).file (viewOf (c₁ ++ c₂))).file.position
      = (c₁ ++ c₂).length := by
  have hl1 : 0 < c₁.length := List.length_pos.mpr h1
  have hl2 : 0 < c₂.length := List.length_pos.mpr h2
  obtain ⟨r1, _, r3, _, _, r6, _, _⟩ :=
    scanFileWith_reads 1000 8192 (by decide) (by decide) lf (viewOf c₁) rfl rfl
      (by rw [hp0]; exact hl1) (by rw [ho0]; exact hl1)
  have hv1 : (viewOf c₁).content = c₁ := rfl
  rw [hv1, hp0, List.drop_zero] at r1 r6
  have hpos1 : (scanFile lf (viewOf c₁)).file.position = c₁.length := r6 hn1
  have hoff1 : (scanFile lf (viewOf c₁)).file.offset = c₁.length := by
    rw [← hpos1]; exact r3.symm
  have hv2 : (viewOf (c₁ ++ c₂)).content = c₁ ++ c₂ := rfl
  have hlen2 : c₁.length < (c₁ ++ c₂).length := by
    rw [List.length_append]; omega
  obtain ⟨q1, _, _, _, _, q6, _, _⟩ :=
    scanFileWith_reads 1000 8192 (by decide) (by decide) (scanFile lf (viewOf c₁)).file
      (viewOf (c₁ ++ c₂)) rfl rfl
      (by rw [hpos1, hv2]; exact hlen2) (by rw [hoff1, hv2]; exact hlen2)
  rw [hv2, hpos1, List.drop_left] at q1 q6
  refine ⟨?_, hpos1, ?_, q6 hn2⟩
  · unfold scanFile
    rw [r1, List.take_of_length_le (Nat.le_of_lt hn1)]
    simp [hn1]
  · have q1' : (scanFile (scanFile lf (viewOf c₁)).file (viewOf (c₁ ++ c₂))).lines = _ := q1
    rw [q1', List.take_of_length_le (Nat.le_of_lt hn2)]
    simp [hn2]

/-- Witness for C8 (amended): `X\nY` extended by `Z\n`. -/
theorem fragment_emitted_at_eof_witness :
    (scanFile (freshFile "/tmp/a.log") (viewOf (bytes "X\nY"))).lines
      = completeLines (bytes "X\nY") ++
        (if trailingFragment (bytes "X\nY") ≠ [] then [trailingFragment (bytes "X\nY")] else []) ∧
    (scanFile (freshFile "/tmp/a.log") (viewOf (bytes "X\nY"))).file.position
      = (bytes "X\nY").length ∧
    (scanFile (scanFile (freshFile "/tmp/a.log") (viewOf (bytes "X\nY"))).file
        (viewOf (bytes "X\nY" ++ bytes "Z\n"))).lines
      = completeLines (bytes "Z\n") ++
        (if trailingFragment (bytes "Z\n") ≠ [] then [trailingFragment (bytes "Z\n")] else []) ∧
    (scanFile (scanFile (freshFile "/tmp/a.log") (viewOf (bytes "X\nY"))).file
        (viewOf (bytes "X\nY" ++ bytes "Z\n"))).file.position
      = (bytes "X\nY" ++ bytes "Z\n").length :=
  fragment_emitted_at_eof (freshFile "/tmp/a.log") (bytes "X\nY") (bytes "Z\n") rfl rfl
    (by decide) (by decide) (by decide) (by decide)

/-- C9 (evaluation of the code): `/tmp/b.log` was tracked at offset 100 and
its position file holds 100.  After the remove event the path is no longer
tracked; after the create event for a new file of 50 bytes the path is
registered again with tracked position 0 but with the handle seeked to the
stored offset 100, beyond the end of the new file, and the next scan finds
"no growth": it hands over no line and persists nothing. -/
theorem rotation_next_scan_emits_nothing :
    (rotatedScan "/tmp/b.log" (joinLines (List.replicate 25 [97])) 100).map
        (fun r => (r.1.position, r.1.offset, r.2.lines, r.2.persisted))
      = some (0, 100, [], none) ∧
    (joinLines (List.replicate 25 [97])).length = 50 := by
  constructor <;> decide

theorem compilePatterns_length_le {R : Type} (re : Regexp R) (ps : List LogPatternConfig) :
    (compilePatterns re ps).length ≤ ps.length := by
  induction ps with
  | nil => simp [compilePatterns]
  | cons p ps ih =>
    simp only [compilePatterns]
    cases re.Compile p.Pattern with
    | none => simp only [List.length_cons]; omega
    | some r => simp only [List.length_cons]; omega

/-- With every send accepted and every index in range, the loop of
`checkForIssues` puts one issue record on the bus per matching pattern. -/
theorem checkForIssuesFrom_sent {R : Type} (re : Regexp R) (lc : LogCollector R) (now : Clock)
    (line : List Nat) (file : logFile) (logData : LogData) (patterns : List R) :
    ∀ i, i + patterns.length ≤ lc.config.Patterns.length →
      ∃ issues, checkForIssuesFrom re lc now (fun _ => IssueSend.sent) line file logData i
          patterns = some issues ∧
        issues.length = patterns.countP (fun r => re.MatchString r line) ∧
        ∀ r ∈ issues, IsIssueFor line file r := by
  induction patterns with
  | nil =>
    intro i _
    exact ⟨[], rfl, rfl, fun r hr => absurd hr (List.not_mem_nil r)⟩
  | cons pattern rest ih =>
    intro i hi
    rw [List.length_cons] at hi
    obtain ⟨issues, e1, e2, e3⟩ := ih (i + 1) (by omega)
    by_cases hm : re.MatchString pattern line = true
    · have hlt : i < lc.config.Patterns.length := by omega
      obtain ⟨patternConfig, hget⟩ : ∃ pc, lc.config.Patterns.get? i = some pc :=
        ⟨_, List.get?_eq_get hlt⟩
      refine ⟨issueRecord now patternConfig line file logData :: issues, ?_, ?_, ?_⟩
      · simp only [checkForIssuesFrom, hm, if_true, hget, e1, Option.map_some']
      · rw [List.length_cons, e2, List.countP_cons]
        simp [hm]
      · intro r hr
        rcases List.mem_cons.mp hr with h | h
        · rw [h]
          exact ⟨rfl, rfl, _, rfl, rfl, rfl⟩
        · exact e3 r h
    · refine ⟨issues, ?_, ?_, e3⟩
      · simp only [checkForIssuesFrom, hm, if_false, e1, Bool.false_eq_true]
      · rw [e2, List.countP_cons]
        simp [hm]

/-- The number of issue records: for a collector whose compiled patterns are those `NewLogCollector`
compiles from its configuration, and a bus that accepts every send,
`processLogLine` returns normally and puts on the bus exactly one issue
record per compiled pattern that matches the line, followed by the log
record of the line: there are as many issue records as matching patterns,
and the log record is always present, whatever matches. -/
theorem issues_and_log_record {R : Type} (re : Regexp R) (lc : LogCollector R) (now : Clock)
    (logSend : LogSend) (line : List Nat) (file : logFile)
    (hlc : lc.patterns = compilePatterns re lc.config.Patterns)
    (hsend : logSend = LogSend.sent ∨ logSend = LogSend.retrySent) :
    ∃ issues logRecord,
      processLogLine re lc now (fun _ => IssueSend.sent) logSend line file
        = some (issues ++ [logRecord]) ∧
      issues.length = lc.patterns.countP (fun r => re.MatchString r line) ∧
      (∀ r ∈ issues, IsIssueFor line file r) ∧
      logRecord.Type_ = DataTypeLog ∧ logRecord.Source = file.path ∧
      ((issues ++ [logRecord]).filter (fun r => r.Type_ == DataTypeLog)) = [logRecord] := by
  have hlen : 0 + lc.patterns.length ≤ lc.config.Patterns.length := by
    rw [hlc, Nat.zero_add]
    exact compilePatterns_length_le re _
  obtain ⟨issues, e1, e2, e3⟩ := checkForIssuesFrom_sent re lc now line file
    (parseLogLine re lc now line file) lc.patterns 0 hlen
  refine ⟨issues,
    { Type_ := DataTypeLog
      Source := file.path
      Data := flattenedData (parseLogLine re lc now line file) file
      Tags := file.tags
      Timestamp := (parseLogLine re lc now line file).Timestamp }, ?_, e2, e3, rfl, rfl, ?_⟩
  · unfold processLogLine checkForIssues
    simp only [e1]
    rcases hsend with h | h <;> rw [h]
  · rw [List.filter_append]
    have hnone : issues.filter (fun r => r.Type_ == DataTypeLog) = [] := by
      rw [List.filter_eq_nil_iff]
      intro r hr
      have := (e3 r hr).1
      rw [this]
      decide
    rw [hnone]
    simp [DataTypeLog]

/-- An evaluation of the number of issue records: the rule `oom` and a line that contains
`Out of memory`. -/
theorem issues_and_log_record_witness :
    oomCollector.patterns = compilePatterns literalRegexp oomCollector.config.Patterns ∧
    (oomCollector.patterns.countP
      (fun r => literalRegexp.MatchString r (bytes "Out of memory: Kill process 1234"))) = 1 ∧
    ∃ issues logRecord,
      processLogLine literalRegexp oomCollector (Clock.mk "2024-01-01T00:00:00Z" 1704067200)
          (fun _ => IssueSend.sent) LogSend.sent (bytes "Out of memory: Kill process 1234")
          (freshFile "/tmp/a.log")
        = some (issues ++ [logRecord]) ∧
      issues.length = oomCollector.patterns.countP
        (fun r => literalRegexp.MatchString r (bytes "Out of memory: Kill process 1234")) ∧
      (∀ r ∈ issues, IsIssueFor (bytes "Out of memory: Kill process 1234")
        (freshFile "/tmp/a.log") r) ∧
      logRecord.Type_ = DataTypeLog ∧ logRecord.Source = (freshFile "/tmp/a.log").path ∧
      ((issues ++ [logRecord]).filter (fun r => r.Type_ == DataTypeLog)) = [logRecord] :=
  ⟨rfl, by decide,
    issues_and_log_record literalRegexp oomCollector (Clock.mk "2024-01-01T00:00:00Z" 1704067200)
      LogSend.sent (bytes "Out of memory: Kill process 1234") (freshFile "/tmp/a.log") rfl
      (Or.inl rfl)⟩

end collectors

/-! ## Theorems: shutdown, dropped batches and size flush of the pipeline -/

namespace Pipeline

/-- C13 (evaluation of the code): `Stop` cancels the context before it
flushes.  With two records buffered and an empty output channel, both the
send and the `ctx.Done()` arm of the `select` can proceed; when the
`ctx.Done()` arm is taken the buffer has already been cleared and nothing
reaches the output channel, so the two records are lost. -/
theorem stop_can_drop_final_batch :
    canFire true true SendOutcome.sent = true ∧
    canFire true true SendOutcome.cancelled = true ∧
    (Stop twoBuffered SendOutcome.cancelled).1.buffer = [] ∧
    (Stop twoBuffered SendOutcome.cancelled).1.outputCh = [] ∧
    (Stop twoBuffered SendOutcome.cancelled).2 = some [1, 2] := by
  refine ⟨by decide, by decide, by decide, by decide, by decide⟩

theorem flushUnsafe_offered_flat {α : Type} (p : State α) (o : SendOutcome) :
    (flushUnsafe p o).2.toList.flatten ++ (flushUnsafe p o).1.buffer = p.buffer := by
  unfold flushUnsafe
  by_cases h : p.buffer.length = 0
  · simp [h]
  · cases o <;> simp [h]

theorem flushUnsafe_buffer_nil {α : Type} (p : State α) (o : SendOutcome) :
    (flushUnsafe p o).1.buffer = [] := by
  unfold flushUnsafe
  by_cases h : p.buffer.length = 0
  · simp only [h, if_true]
    exact List.length_eq_zero.mp h
  · cases o <;> simp [h]

theorem flushUnsafe_outputCh {α : Type} (p : State α) (o : SendOutcome) :
    ∃ later, (flushUnsafe p o).1.outputCh = p.outputCh ++ later ∧
      later.Sublist (flushUnsafe p o).2.toList := by
  unfold flushUnsafe
  by_cases h : p.buffer.length = 0
  · exact ⟨[], by simp [h]⟩
  · cases o
    · exact ⟨[p.buffer], by simp [h]⟩
    · exact ⟨[], by simp [h]⟩
    · exact ⟨[], by simp [h]⟩

theorem step_offered_flat {α : Type} (p : State α) (op : Op α) :
    (step p op).2.toList.flatten ++ (step p op).1.buffer = p.buffer ++ appended [op] := by
  cases op with
  | add d o =>
    simp only [step, addToBuffer, appended]
    split
    · rw [flushUnsafe_offered_flat]
    · simp
  | tick o =>
    simp only [step, flush, appended]
    rw [flushUnsafe_offered_flat]; simp

theorem step_outputCh {α : Type} (p : State α) (op : Op α) :
    ∃ later, (step p op).1.outputCh = p.outputCh ++ later ∧
      later.Sublist (step p op).2.toList := by
  cases op with
  | add d o =>
    simp only [step, addToBuffer]
    split
    · exact flushUnsafe_outputCh _ o
    · exact ⟨[], by simp⟩
  | tick o => exact flushUnsafe_outputCh p o

/-- Whatever happens to the sends, the batches offered during a run,
concatenated, followed by the final buffer, are the initial buffer followed
by the appended records. -/
theorem run_offered_flat {α : Type} (ops : List (Op α)) :
    ∀ p : State α,
      (run p ops).2.flatten ++ (run p ops).1.buffer = p.buffer ++ appended ops := by
  induction ops with
  | nil => intro p; simp [run, appended]
  | cons op ops ih =>
    intro p
    simp only [run, List.flatten_append, List.append_assoc]
    rw [ih, ← List.append_assoc, step_offered_flat, appended_cons op ops, List.append_assoc]

theorem run_outputCh {α : Type} (ops : List (Op α)) :
    ∀ p : State α, ∃ later, (run p ops).1.outputCh = p.outputCh ++ later ∧
      later.Sublist (run p ops).2 := by
  induction ops with
  | nil => intro p; exact ⟨[], by simp [run]⟩
  | cons op ops ih =>
    intro p
    obtain ⟨l1, e1, s1⟩ := step_outputCh p op
    obtain ⟨l2, e2, s2⟩ := ih (step p op).1
    refine ⟨l1 ++ l2, ?_, ?_⟩
    · simp only [run]
      rw [e2, e1, List.append_assoc]
    · simp only [run]
      exact List.Sublist.append s1 s2

/-- C14: whatever arm of the `select` fires, `flushUnsafe` leaves the buffer
empty; when the send times out the output channel is unchanged, and in every
later run the batches offered to the channel consist, in order, of exactly
the records appended afterwards (those not still buffered), while the channel
holds its previous batches followed by some of these later batches: no
record of the dropped batch appears again. -/
theorem timed_out_batch_is_dropped {α : Type} (p : State α) (o : SendOutcome) :
    (flushUnsafe p o).1.buffer = [] ∧
    (flushUnsafe p SendOutcome.timedOut).1.outputCh = p.outputCh ∧
    ∀ ops : List (Op α),
      (run (flushUnsafe p SendOutcome.timedOut).1 ops).2.flatten ++
        (run (flushUnsafe p SendOutcome.timedOut).1 ops).1.buffer = appended ops ∧
      ∃ later, (run (flushUnsafe p SendOutcome.timedOut).1 ops).1.outputCh
          = p.outputCh ++ later ∧
        later.Sublist (run (flushUnsafe p SendOutcome.timedOut).1 ops).2 := by
  have hch : (flushUnsafe p SendOutcome.timedOut).1.outputCh = p.outputCh := by
    unfold flushUnsafe
    by_cases h : p.buffer.length = 0
    · simp [h]
    · simp [h]
  refine ⟨flushUnsafe_buffer_nil p o, hch, fun ops => ⟨?_, ?_⟩⟩
  · rw [run_offered_flat, flushUnsafe_buffer_nil, List.nil_append]
  · obtain ⟨later, e, hs⟩ := run_outputCh ops (flushUnsafe p SendOutcome.timedOut).1
    exact ⟨later, by rw [e, hch], hs⟩

/-- The state reached after `m` appends with batch size `B`: the buffer
holds `m % B` records and the channel `m / B` batches of `B` records. -/
theorem appends_invariant {α : Type} (B : Nat) (hB : 0 < B) (records : List α) :
    ∀ (p : State α) (m : Nat), p.config.BatchSize = (B : Int) →
      p.buffer.length = m % B → p.outputCh.length = m / B →
      (∀ b ∈ p.outputCh, b.length = B) →
      (run p (appends records)).1.config = p.config ∧
      (run p (appends records)).1.buffer.length = (m + records.length) % B ∧
      (run p (appends records)).1.outputCh.length = (m + records.length) / B ∧
      (∀ b ∈ (run p (appends records)).1.outputCh, b.length = B) := by
  induction records with
  | nil =>
    intro p m _ h2 h3 h4
    simp only [appends, List.map_nil, run, List.length_nil, Nat.add_zero]
    exact ⟨trivial, h2, h3, h4⟩
  | cons x records ih =>
    intro p m h1 h2 h3 h4
    have hmod := Nat.mod_lt m hB
    have hdm := Nat.div_add_mod m B
    have hrun : (run p (appends (x :: records))).1
        = (run (step p (Op.add x SendOutcome.sent)).1 (appends records)).1 := by
      simp only [appends, List.map_cons, run]
    rw [hrun]
    have hlen : m + (x :: records).length = (m + 1) + records.length := by
      simp only [List.length_cons]; omega
    rw [hlen]
    have hcfg : (step p (Op.add x SendOutcome.sent)).1.config = p.config := step_config _ _
    by_cases hfull : m % B + 1 = B
    · have hdiv : (m + 1) / B = m / B + 1 ∧ (m + 1) % B = 0 := by
        rw [Nat.div_mod_unique hB]
        constructor
        · rw [Nat.mul_add]; omega
        · exact hB
      have hge : ((p.buffer ++ [x]).length : Int) ≥ p.config.BatchSize := by
        rw [h1, List.length_append, List.length_singleton, h2]
        push_cast
        omega
      have hne : ¬ ((p.buffer ++ [x]).length = 0) := by simp
      have hstep : (step p (Op.add x SendOutcome.sent)).1
          = { config := p.config, buffer := [], outputCh := p.outputCh ++ [p.buffer ++ [x]] } := by
        simp only [step, addToBuffer, hge, if_true, flushUnsafe, hne, if_false]
      obtain ⟨i1, i2, i3, i4⟩ := ih (step p (Op.add x SendOutcome.sent)).1 (m + 1)
        (by rw [hcfg]; exact h1)
        (by rw [hstep, hdiv.2]; rfl)
        (by rw [hstep, hdiv.1]; simp [h3])
        (by
          rw [hstep]
          intro b hb
          rcases List.mem_append.mp hb with hb | hb
          · exact h4 b hb
          · rw [List.mem_singleton.mp hb, List.length_append, List.length_singleton, h2]
            exact hfull)
      exact ⟨by rw [i1, hcfg], i2, i3, i4⟩
    · have hlt : m % B + 1 < B := by omega
      have hdiv : (m + 1) / B = m / B ∧ (m + 1) % B = m % B + 1 := by
        rw [Nat.div_mod_unique hB]
        constructor
        · omega
        · exact hlt
      have hge : ¬ (((p.buffer ++ [x]).length : Int) ≥ p.config.BatchSize) := by
        rw [h1, List.length_append, List.length_singleton, h2]
        push_cast
        omega
      have hstep : (step p (Op.add x SendOutcome.sent)).1
          = { config := p.config, buffer := p.buffer ++ [x], outputCh := p.outputCh } := by
        simp only [step, addToBuffer, hge, if_false]
      obtain ⟨i1, i2, i3, i4⟩ := ih (step p (Op.add x SendOutcome.sent)).1 (m + 1)
        (by rw [hcfg]; exact h1)
        (by rw [hstep, hdiv.2]; simp [h2])
        (by rw [hstep, hdiv.1]; exact h3)
        (by rw [hstep]; exact h4)
      exact ⟨by rw [i1, hcfg], i2, i3, i4⟩

theorem appends_outcome {α : Type} (records : List α) :
    ∀ op ∈ appends records, op.outcome = SendOutcome.sent := by
  intro op hop
  obtain ⟨r, _, rfl⟩ := List.mem_map.mp hop
  rfl

theorem appended_appends {α : Type} (records : List α) : appended (appends records) = records := by
  induction records with
  | nil => rfl
  | cons x records ih =>
    simp only [appends, List.map_cons, appended] at ih ⊢
    rw [ih]

/-- C15: starting from an empty buffer with batch size `B ≥ 1`, after `n`
records have been appended with no timer flush in between and every send
succeeding, the channel holds exactly `n / B` batches, each of exactly `B`
records and all of them delivered, `n % B` records remain buffered, and the
batches followed by the buffer are the records in order.  A further append
emits a batch exactly when it makes the buffer reach `B`. -/
theorem size_flush {α : Type} (cfg : Config) (records : List α) (hB : 1 ≤ cfg.BatchSize) :
    (run (New cfg) (appends records)).1.outputCh.length
      = records.length / cfg.BatchSize.toNat ∧
    (∀ b ∈ (run (New cfg) (appends records)).1.outputCh, (b.length : Int) = cfg.BatchSize) ∧
    (run (New cfg) (appends records)).1.buffer.length
      = records.length % cfg.BatchSize.toNat ∧
    (run (New cfg) (appends records)).1.outputCh.flatten ++
      (run (New cfg) (appends records)).1.buffer = records ∧
    (∀ x : α, ((addToBuffer (run (New cfg) (appends records)).1 x SendOutcome.sent).2.isSome
      ↔ ((run (New cfg) (appends records)).1.buffer.length + 1 : Int) = cfg.BatchSize)) := by
  have hBnat : 0 < cfg.BatchSize.toNat := by omega
  have hcast : cfg.BatchSize = (cfg.BatchSize.toNat : Int) := by omega
  obtain ⟨i1, i2, i3, i4⟩ := appends_invariant cfg.BatchSize.toNat hBnat records
    (New cfg : State α) 0 hcast (by simp [New]) (by simp [New])
    (by intro b hb; simp [New] at hb)
  rw [Nat.zero_add] at i2 i3
  have hflat := run_sent_flat (appends records) (New cfg : State α) (appends_outcome records)
  rw [appended_appends] at hflat
  refine ⟨i3, ?_, i2, by simpa [New] using hflat, ?_⟩
  · intro b hb
    rw [i4 b hb]
    exact hcast.symm
  · intro x
    have hlt := Nat.mod_lt records.length hBnat
    have hcfg : (run (New cfg) (appends records)).1.config.BatchSize = cfg.BatchSize := by
      rw [i1]; rfl
    have hne : ¬ (((run (New cfg) (appends records)).1.buffer ++ [x]).length = 0) := by simp
    by_cases hfull : (run (New cfg) (appends records)).1.buffer.length + 1
        = cfg.BatchSize.toNat
    · have hge : ((((run (New cfg) (appends records)).1.buffer ++ [x]).length : Nat) : Int)
          ≥ (run (New cfg) (appends records)).1.config.BatchSize := by
        rw [hcfg, List.length_append, List.length_singleton]
        omega
      have hint : ((run (New cfg) (appends records)).1.buffer.length + 1 : Int)
          = cfg.BatchSize := by omega
      simp only [addToBuffer, hge, if_true, flushUnsafe, hne, if_false, Option.isSome_some,
        hint]
    · have hge : ¬ (((((run (New cfg) (appends records)).1.buffer ++ [x]).length : Nat) : Int)
          ≥ (run (New cfg) (appends records)).1.config.BatchSize) := by
        rw [hcfg, List.length_append, List.length_singleton]
        omega
      have hint : ¬ (((run (New cfg) (appends records)).1.buffer.length + 1 : Int)
          = cfg.BatchSize) := by omega
      simp only [addToBuffer, hge, if_false, Option.isSome_none, hint]
      simp

/-- Witness for C15: seven records with batch size 3 give two batches of
three and one buffered record. -/
theorem size_flush_witness :
    (1 : Int) ≤ (Config.mk 10 3).BatchSize ∧
    (run (New (Config.mk 10 3)) (appends [1, 2, 3, 4, 5, 6, 7])).1.outputCh
      = [[1, 2, 3], [4, 5, 6]] ∧
    (run (New (Config.mk 10 3)) (appends [1, 2, 3, 4, 5, 6, 7])).1.buffer = [7] ∧
    (run (New (Config.mk 10 3)) (appends [1, 2, 3, 4, 5, 6, 7])).1.outputCh.length
      = [1, 2, 3, 4, 5, 6, 7].length / (Config.mk 10 3).BatchSize.toNat :=
  ⟨by decide, by decide, by decide,
    (size_flush (Config.mk 10 3) [1, 2, 3, 4, 5, 6, 7] (by decide)).1⟩

end Pipeline

/-! ## Theorems: issue and log records -/

namespace collectors

open config

/-- C11 (evaluation of the code): with the rule list `[broken, oom]`, where
`broken` does not compile and is skipped, the line
`Out of memory: Kill process 1234` is matched by the compiled `oom` pattern
(index 0 of the compiled list), but the issue is filled from
`config.Patterns[0]`, the skipped rule: it carries severity `info`, category
`config` and the name `broken` instead of `critical`, `memory` and `oom`. -/
theorem issue_carries_skipped_rule :
    (twoRuleCollector.bind (fun lc =>
      processLogLine literalRegexp lc (Clock.mk "2024-01-01T00:00:00Z" 1704067200)
        (fun _ => IssueSend.sent) LogSend.sent (bytes "Out of memory: Kill process 1234")
        (freshFile "/tmp/a.log"))).map
      (fun out => (issuesOf out).map (fun i => (i.Severity, i.Category, i.Title, i.Pattern)))
      = some [("info", "config", "Pattern detected: broken", "(")] ∧
    twoRuleCollector.map (fun lc => lc.patterns) = some [bytes "Out of memory"] := by
  constructor <;> decide

theorem GoMap.get_set_ne {V : Type} (m : GoMap V) (k k' : String) (v : V) (h : k' ≠ k) :
    GoMap.get (GoMap.set m k v) k' = GoMap.get m k' := by
  unfold GoMap.get GoMap.set
  congr 1
  induction m with
  | nil =>
    have hk : ¬ ((k == k') = true) := by simpa using fun e => h e.symm
    simp [List.find?, hk]
  | cons e m ih =>
    by_cases he : (e.1 == k') = true
    · have hne : (e.1 != k) = true := by
        have e1 : e.1 = k' := by simpa using he
        simpa [e1] using h
      rw [@List.filter_cons_of_pos _ (fun e => e.1 != k) e m hne, List.cons_append,
        @List.find?_cons_of_pos _ (fun e => e.1 == k') e _ he,
        @List.find?_cons_of_pos _ (fun e => e.1 == k') e _ he]
    · rw [@List.find?_cons_of_neg _ (fun e => e.1 == k') e m he]
      by_cases hne : (e.1 != k) = true
      · rw [@List.filter_cons_of_pos _ (fun e => e.1 != k) e m hne, List.cons_append,
          @List.find?_cons_of_neg _ (fun e => e.1 == k') e _ he]
        exact ih
      · rw [@List.filter_cons_of_neg _ (fun e => e.1 != k) e m hne]
        exact ih

theorem GoMap.get_eq_none {V : Type} (m : GoMap V) (k : String)
    (h : k ∉ GoMap.keys m) : GoMap.get m k = none := by
  unfold GoMap.get
  have hf : m.find? (fun e => e.1 == k) = none := by
    rw [List.find?_eq_none]
    intro x hx hk
    apply h
    have e1 : x.1 = k := by simpa using hk
    rw [← e1]
    exact List.mem_map_of_mem _ hx
  rw [hf]; rfl

theorem GoMap.not_mem_keys_of_get {V : Type} (m : GoMap V) (k : String)
    (h : GoMap.get m k = none) : k ∉ GoMap.keys m := by
  unfold GoMap.get at h
  have hf : m.find? (fun e => e.1 == k) = none := by
    cases hfind : m.find? (fun e => e.1 == k) with
    | none => rfl
    | some x => rw [hfind] at h; simp at h
  rw [List.find?_eq_none] at hf
  intro hk
  obtain ⟨e, he, rfl⟩ := List.mem_map.mp hk
  exact hf e he (by simp)

theorem GoMap.mem_of_get {V : Type} (m : GoMap V) (k : String) (v : V)
    (h : GoMap.get m k = some v) : (k, v) ∈ m := by
  unfold GoMap.get at h
  cases hfind : m.find? (fun e => e.1 == k) with
  | none => rw [hfind] at h; simp at h
  | some x =>
    rw [hfind] at h
    have hv : x.2 = v := by simpa using h
    have hk : x.1 = k := by simpa using List.find?_some hfind
    have hx := List.mem_of_find?_eq_some hfind
    rw [← hv, ← hk]
    exact hx

theorem GoMap.set_keys_nodup {V : Type} (m : GoMap V) (k : String) (v : V)
    (h : (GoMap.keys m).Nodup) : (GoMap.keys (GoMap.set m k v)).Nodup := by
  unfold GoMap.keys GoMap.set at *
  rw [List.map_append, List.nodup_append]
  refine ⟨List.Nodup.sublist (List.Sublist.map _ (List.filter_sublist m)) h, by simp, ?_⟩
  intro x hx hx2
  obtain ⟨e, he, rfl⟩ := List.mem_map.mp hx
  have hne := (List.mem_filter.mp he).2
  have hk : e.1 = k := by simpa using hx2
  simp [hk] at hne

theorem copyInto_get_of_not_mem {V W : Type} (f : V → W) (src : GoMap V) (k : String) :
    ∀ dst : GoMap W, k ∉ GoMap.keys src →
      GoMap.get (copyInto f src dst) k = GoMap.get dst k := by
  induction src with
  | nil => intro dst _; rfl
  | cons e src ih =>
    intro dst h
    obtain ⟨k0, v0⟩ := e
    have h0 : k ≠ k0 := fun e => h (by simp [GoMap.keys, e])
    have h1 : k ∉ GoMap.keys src := fun e => h (by
      simp only [GoMap.keys, List.map_cons, List.mem_cons]
      exact Or.inr e)
    simp only [copyInto]
    rw [ih _ h1, GoMap.get_set_ne _ _ _ _ h0]

theorem copyInto_get_of_mem {V W : Type} (f : V → W) (src : GoMap V) (k : String) (v : V) :
    ∀ dst : GoMap W, (GoMap.keys src).Nodup → (k, v) ∈ src →
      GoMap.get (copyInto f src dst) k = some (f v) := by
  induction src with
  | nil => intro dst _ h; exact absurd h (List.not_mem_nil _)
  | cons e src ih =>
    intro dst hnd hmem
    obtain ⟨k0, v0⟩ := e
    have hnd2 : k0 ∉ GoMap.keys src ∧ (GoMap.keys src).Nodup := by
      simpa [GoMap.keys] using hnd
    simp only [copyInto]
    rcases List.mem_cons.mp hmem with h | h
    · have hk : k = k0 := congrArg Prod.fst h
      have hv : v = v0 := congrArg Prod.snd h
      subst hk hv
      rw [copyInto_get_of_not_mem f src k _ hnd2.1, GoMap.get_set]
    · exact ih _ hnd2.2 h

theorem copyInto_keys_nodup {V W : Type} (f : V → W) (src : GoMap V) :
    ∀ dst : GoMap W, (GoMap.keys dst).Nodup → (GoMap.keys (copyInto f src dst)).Nodup := by
  induction src with
  | nil => intro dst h; exact h
  | cons e src ih =>
    intro dst h
    obtain ⟨k0, v0⟩ := e
    simp only [copyInto]
    exact ih _ (GoMap.set_keys_nodup _ _ _ h)

theorem storeGroups_get {k : String} (names : List String) (hk : k ∉ names)
    (ms : List (List Nat)) :
    ∀ (i : Nat) (fields : GoMap FieldValue),
      GoMap.get (storeGroups names i ms fields) k = GoMap.get fields k := by
  induction ms with
  | nil => intro i fields; rfl
  | cons m ms ih =>
    intro i fields
    simp only [storeGroups]
    cases hget : names.get? (i + 1) with
    | none => exact ih _ _
    | some name =>
      have hmem : name ∈ names := List.get?_mem hget
      have hne : k ≠ name := fun e => hk (e ▸ hmem)
      by_cases hn : name ≠ ""
      · simp only [hn, ne_eq, not_false_eq_true, if_true]
        rw [ih, GoMap.get_set_ne _ _ _ _ hne]
      · simp only [hn, if_false]
        exact ih _ _

theorem storeGroups_keys_nodup (names : List String) (ms : List (List Nat)) :
    ∀ (i : Nat) (fields : GoMap FieldValue), (GoMap.keys fields).Nodup →
      (GoMap.keys (storeGroups names i ms fields)).Nodup := by
  induction ms with
  | nil => intro i fields h; exact h
  | cons m ms ih =>
    intro i fields h
    simp only [storeGroups]
    cases names.get? (i + 1) with
    | none => exact ih _ _ h
    | some name =>
      by_cases hn : name ≠ ""
      · simp only [hn, ne_eq, not_false_eq_true, if_true]
        exact ih _ _ (GoMap.set_keys_nodup _ _ _ h)
      · simp only [hn, if_false]
        exact ih _ _ h

theorem applyParser_message {R : Type} (re : Regexp R) (logData : LogData) (line : List Nat)
    (parser : ParserConfig) :
    (applyParser re logData line parser).Message = logData.Message ∧
    (applyParser re logData line parser).Timestamp = logData.Timestamp ∧
    (applyParser re logData line parser).Source = logData.Source := by
  unfold applyParser
  by_cases ht : parser.Type_ = "regex"
  · simp only [ht, if_true]
    cases re.Compile parser.Pattern with
    | none => exact ⟨rfl, rfl, rfl⟩
    | some regex =>
      simp only
      by_cases hl : (re.FindStringSubmatch regex line).length > 1
      · simp only [hl, if_true, and_self]
      · simp only [hl, if_false, and_self]
  · simp only [ht, if_false, and_self]

theorem parseLogLine_message {R : Type} (re : Regexp R) (lc : LogCollector R) (now : Clock)
    (line : List Nat) (file : logFile) :
    (parseLogLine re lc now line file).Message = line ∧
    (parseLogLine re lc now line file).Timestamp = now.rfc3339 ∧
    (parseLogLine re lc now line file).Source = file.path := by
  unfold parseLogLine
  split
  · rename_i parser _
    exact applyParser_message re _ line parser
  · exact ⟨rfl, rfl, rfl⟩

/-- The parsed fields agree with the static fields on every key that is not
the name of a capture group, and no key occurs twice. -/
theorem parseLogLine_fields {R : Type} (re : Regexp R) (lc : LogCollector R) (now : Clock)
    (line : List Nat) (file : logFile) :
    (∀ k, k ∉ captureNames re lc file →
      GoMap.get (parseLogLine re lc now line file).Fields k
        = GoMap.get (copyInto FieldValue.str file.fields ([] : GoMap FieldValue)) k) ∧
    (GoMap.keys (parseLogLine re lc now line file).Fields).Nodup := by
  have hnd0 : (GoMap.keys (copyInto FieldValue.str file.fields ([] : GoMap FieldValue))).Nodup :=
    copyInto_keys_nodup _ _ _ (by simp [GoMap.keys])
  unfold parseLogLine captureNames
  cases hp : GoMap.get lc.config.Parsers file.parser with
  | none => exact ⟨fun k _ => rfl, hnd0⟩
  | some parser =>
    simp only
    unfold applyParser
    by_cases ht : parser.Type_ = "regex"
    · simp only [ht, if_true]
      cases hc : re.Compile parser.Pattern with
      | none => exact ⟨fun k _ => rfl, hnd0⟩
      | some regex =>
        simp only
        by_cases hl : (re.FindStringSubmatch regex line).length > 1
        · simp only [hl, if_true]
          exact ⟨fun k hk => storeGroups_get _ hk _ _ _,
            storeGroups_keys_nodup _ _ _ _ hnd0⟩
        · simp only [hl, if_false]
          exact ⟨fun k _ => trivial, hnd0⟩
    · simp only [ht, if_false]
      exact ⟨fun k _ => trivial, hnd0⟩

theorem checkForIssuesFrom_types {R : Type} (re : Regexp R) (lc : LogCollector R) (now : Clock)
    (send : Nat → IssueSend) (line : List Nat) (file : logFile) (logData : LogData)
    (patterns : List R) :
    ∀ (i : Nat) (issues : List CollectedData),
      checkForIssuesFrom re lc now send line file logData i patterns = some issues →
      ∀ r ∈ issues, r.Type_ = DataTypeEvent := by
  induction patterns with
  | nil =>
    intro i issues h r hr
    simp only [checkForIssuesFrom, Option.some.injEq] at h
    rw [← h] at hr
    exact absurd hr (List.not_mem_nil r)
  | cons pattern rest ih =>
    intro i issues h r hr
    simp only [checkForIssuesFrom] at h
    by_cases hm : re.MatchString pattern line = true
    · simp only [hm, if_true] at h
      cases hget : lc.config.Patterns.get? i with
      | none => rw [hget] at h; simp at h
      | some patternConfig =>
        rw [hget] at h
        simp only at h
        cases hs : send i with
        | cancelled =>
          rw [hs] at h
          simp only [Option.some.injEq] at h
          rw [← h] at hr
          exact absurd hr (List.not_mem_nil r)
        | sent =>
          rw [hs] at h
          simp only at h
          cases hrest : checkForIssuesFrom re lc now send line file logData (i + 1) rest with
          | none => rw [hrest] at h; simp at h
          | some out =>
            rw [hrest] at h
            simp only [Option.map_some', Option.some.injEq] at h
            rw [← h] at hr
            rcases List.mem_cons.mp hr with e | e
            · rw [e]; rfl
            · exact ih _ _ hrest r e
    · simp only [hm, if_false, Bool.false_eq_true] at h
      exact ih _ _ h r hr

/-- The data map of the log record on the keys of the record itself and on
the merged tags and fields. -/
theorem flattenedData_get {R : Type} (re : Regexp R) (lc : LogCollector R) (now : Clock)
    (line : List Nat) (file : logFile)
    (hmsg : "message" ∉ GoMap.keys file.fields ∧ "message" ∉ GoMap.keys file.tags ∧
      "message" ∉ captureNames re lc file)
    (hsrc : "source" ∉ GoMap.keys file.fields ∧ "source" ∉ GoMap.keys file.tags ∧
      "source" ∉ captureNames re lc file) :
    GoMap.get (flattenedData (parseLogLine re lc now line file) file) "message"
      = some (DataValue.text line) ∧
    GoMap.get (flattenedData (parseLogLine re lc now line file) file) "source"
      = some (DataValue.str file.path) ∧
    (∀ k v, (GoMap.keys file.tags).Nodup → (k, v) ∈ file.tags →
      GoMap.get (flattenedData (parseLogLine re lc now line file) file) k
        = some (DataValue.str v)) ∧
    (∀ k v, (GoMap.keys file.fields).Nodup → (k, v) ∈ file.fields →
      k ∉ GoMap.keys file.tags → k ∉ captureNames re lc file →
      GoMap.get (flattenedData (parseLogLine re lc now line file) file) k
        = some (DataValue.str v)) := by
  obtain ⟨hget, hnd⟩ := parseLogLine_fields re lc now line file
  obtain ⟨pm, _, ps⟩ := parseLogLine_message re lc now line file
  have hnone : ∀ k, k ∉ GoMap.keys file.fields → k ∉ captureNames re lc file →
      k ∉ GoMap.keys (parseLogLine re lc now line file).Fields := by
    intro k h1 h2
    apply GoMap.not_mem_keys_of_get
    rw [hget k h2, copyInto_get_of_not_mem _ _ _ _ h1]
    rfl
  unfold flattenedData
  refine ⟨?_, ?_, ?_, ?_⟩
  · rw [copyInto_get_of_not_mem _ _ _ _ hmsg.2.1,
      copyInto_get_of_not_mem _ _ _ _ (hnone _ hmsg.1 hmsg.2.2), pm]
    rfl
  · rw [copyInto_get_of_not_mem _ _ _ _ hsrc.2.1,
      copyInto_get_of_not_mem _ _ _ _ (hnone _ hsrc.1 hsrc.2.2), ps]
    rfl
  · intro k v hnd2 hmem
    exact copyInto_get_of_mem _ _ _ _ _ hnd2 hmem
  · intro k v hnd2 hmem hk1 hk2
    rw [copyInto_get_of_not_mem _ _ _ _ hk1]
    have hf : GoMap.get (parseLogLine re lc now line file).Fields k
        = some (FieldValue.str v) := by
      rw [hget k hk2]
      exact copyInto_get_of_mem _ _ _ _ _ hnd2 hmem
    exact copyInto_get_of_mem FieldValue.toData _ _ _ _ hnd (GoMap.mem_of_get _ _ _ hf)

/-- C12 (counterexample): for a file whose static fields contain the key
`message`, the log record of the line `hello` has the configured value
`fixed` under `message`, not the raw line. -/
theorem static_field_shadows_message :
    (processLogLine literalRegexp oomCollector (Clock.mk "2024-01-01T00:00:00Z" 1704067200)
        (fun _ => IssueSend.sent) LogSend.sent (bytes "hello") shadowingFile).map
      (fun out => out.map (fun r => (r.Type_, GoMap.get r.Data "message")))
      = some [("log", some (DataValue.str "fixed"))] ∧
    ¬ ((processLogLine literalRegexp oomCollector (Clock.mk "2024-01-01T00:00:00Z" 1704067200)
        (fun _ => IssueSend.sent) LogSend.sent (bytes "hello") shadowingFile).map
      (fun out => out.map (fun r => (r.Type_, GoMap.get r.Data "message")))
      = some [("log", some (DataValue.text (bytes "hello")))]) := by
  constructor <;> decide

/-- C12 (amended): for every line and every file configuration in which
neither a static field, nor a static tag, nor a capture group of the file's
parser is named `message` or `source`, every log record that
`processLogLine` puts on the bus comes from the file's path, has the raw line
under `message` and the file's path under `source`, and has the static tags
and fields merged in: every tag under its key, and every static field under
its key unless a tag or a capture group of the same name replaces it. -/
theorem log_record_content {R : Type} (re : Regexp R) (lc : LogCollector R) (now : Clock)
    (issueSend : Nat → IssueSend) (logSend : LogSend) (line : List Nat) (file : logFile)
    (out : List CollectedData)
    (hout : processLogLine re lc now issueSend logSend line file = some out)
    (hmsg : "message" ∉ GoMap.keys file.fields ∧ "message" ∉ GoMap.keys file.tags ∧
      "message" ∉ captureNames re lc file)
    (hsrc : "source" ∉ GoMap.keys file.fields ∧ "source" ∉ GoMap.keys file.tags ∧
      "source" ∉ captureNames re lc file) :
    ∀ r ∈ out, r.Type_ = DataTypeLog →
      r.Source = file.path ∧ r.Tags = file.tags ∧
      GoMap.get r.Data "message" = some (DataValue.text line) ∧
      GoMap.get r.Data "source" = some (DataValue.str file.path) ∧
      (∀ k v, (GoMap.keys file.tags).Nodup → (k, v) ∈ file.tags →
        GoMap.get r.Data k = some (DataValue.str v)) ∧
      (∀ k v, (GoMap.keys file.fields).Nodup → (k, v) ∈ file.fields →
        k ∉ GoMap.keys file.tags → k ∉ captureNames re lc file →
        GoMap.get r.Data k = some (DataValue.str v)) := by
  intro r hr hlog
  unfold processLogLine checkForIssues at hout
  simp only at hout
  cases hiss : checkForIssuesFrom re lc now issueSend line file
      (parseLogLine re lc now line file) 0 lc.patterns with
  | none => rw [hiss] at hout; simp at hout
  | some issues =>
    rw [hiss] at hout
    simp only at hout
    have hev := checkForIssuesFrom_types re lc now issueSend line file _ lc.patterns 0 issues hiss
    have hnot : r ∉ issues := by
      intro hmem
      have h1 := hev r hmem
      rw [hlog] at h1
      exact absurd h1 (by decide)
    have hrec : r =
        { Type_ := DataTypeLog
          Source := file.path
          Data := flattenedData (parseLogLine re lc now line file) file
          Tags := file.tags
          Timestamp := (parseLogLine re lc now line file).Timestamp } := by
      cases logSend <;> simp only [Option.some.injEq] at hout <;> rw [← hout] at hr
      · rcases List.mem_append.mp hr with h | h
        · exact absurd h hnot
        · exact List.mem_singleton.mp h
      · exact absurd hr hnot
      · rcases List.mem_append.mp hr with h | h
        · exact absurd h hnot
        · exact List.mem_singleton.mp h
      · exact absurd hr hnot
      · exact absurd hr hnot
    obtain ⟨f1, f2, f3, f4⟩ := flattenedData_get re lc now line file hmsg hsrc
    rw [hrec]
    exact ⟨rfl, rfl, f1, f2, f3, f4⟩

/-- Witness for C12 (amended): the line `hello` of a file with the tag
`env = prod` and the static field `app = web`. -/
theorem log_record_content_witness :
    processLogLine literalRegexp oomCollector (Clock.mk "2024-01-01T00:00:00Z" 1704067200)
      (fun _ => IssueSend.sent) LogSend.sent (bytes "hello") taggedFile = some taggedOut ∧
    taggedOut.map (fun r => r.Type_) = ["log"] ∧
    ∀ r ∈ taggedOut, r.Type_ = DataTypeLog →
      r.Source = taggedFile.path ∧ r.Tags = taggedFile.tags ∧
      GoMap.get r.Data "message" = some (DataValue.text (bytes "hello")) ∧
      GoMap.get r.Data "source" = some (DataValue.str taggedFile.path) ∧
      (∀ k v, (GoMap.keys taggedFile.tags).Nodup → (k, v) ∈ taggedFile.tags →
        GoMap.get r.Data k = some (DataValue.str v)) ∧
      (∀ k v, (GoMap.keys taggedFile.fields).Nodup → (k, v) ∈ taggedFile.fields →
        k ∉ GoMap.keys taggedFile.tags → k ∉ captureNames literalRegexp oomCollector taggedFile →
        GoMap.get r.Data k = some (DataValue.str v)) :=
  ⟨by decide, by decide,
    log_record_content literalRegexp oomCollector (Clock.mk "2024-01-01T00:00:00Z" 1704067200)
      (fun _ => IssueSend.sent) LogSend.sent (bytes "hello") taggedFile taggedOut
      (by decide) (by decide) (by decide)⟩

end collectors

/-! ## Theorems: retry loop of the HTTP output -/

namespace outputs

open config

theorem retryLoop_zero (retry : RetryConfig) (scale : Int → Int) (doReq : Nat → AttemptResult)
    (wait : Nat → WaitResult) (attempt : Nat) (backoff : Int) (lastErr : Option SendError) :
    retryLoop retry scale doReq wait 0 attempt backoff lastErr
      = { attempts := 0, waits := [], err := lastErr } := rfl

theorem retryLoop_cancelled (retry : RetryConfig) (scale : Int → Int)
    (doReq : Nat → AttemptResult) (wait : Nat → WaitResult) (remaining attempt : Nat)
    (backoff : Int) (lastErr : Option SendError)
    (h : attempt > 0 ∧ wait attempt = WaitResult.ctxDone) :
    retryLoop retry scale doReq wait (remaining + 1) attempt backoff lastErr
      = { attempts := 0, waits := [backoff], err := some SendError.ctxErr } := by
  rw [retryLoop]
  simp only [h, and_self, if_true]

theorem retryLoop_transport (retry : RetryConfig) (scale : Int → Int)
    (doReq : Nat → AttemptResult) (wait : Nat → WaitResult) (remaining attempt : Nat)
    (backoff : Int) (lastErr : Option SendError)
    (h : ¬ (attempt > 0 ∧ wait attempt = WaitResult.ctxDone))
    (hd : doReq attempt = AttemptResult.transportError) :
    retryLoop retry scale doReq wait (remaining + 1) attempt backoff lastErr
      = (retryLoop retry scale doReq wait remaining (attempt + 1)
          (if attempt > 0 then capBackoff retry (scale backoff) else backoff)
          (some SendError.requestFailed)).after (if attempt > 0 then [backoff] else []) := by
  rw [retryLoop]
  simp only [h, if_false, hd]

theorem retryLoop_success (retry : RetryConfig) (scale : Int → Int)
    (doReq : Nat → AttemptResult) (wait : Nat → WaitResult) (remaining attempt : Nat)
    (backoff : Int) (lastErr : Option SendError) (code : Int)
    (h : ¬ (attempt > 0 ∧ wait attempt = WaitResult.ctxDone))
    (hd : doReq attempt = AttemptResult.status code) (hc : code ≥ 200 ∧ code < 300) :
    retryLoop retry scale doReq wait (remaining + 1) attempt backoff lastErr
      = { attempts := 1, waits := (if attempt > 0 then [backoff] else []), err := none } := by
  rw [retryLoop]
  simp only [h, if_false, hd, hc, and_self, if_true]

theorem retryLoop_client (retry : RetryConfig) (scale : Int → Int)
    (doReq : Nat → AttemptResult) (wait : Nat → WaitResult) (remaining attempt : Nat)
    (backoff : Int) (lastErr : Option SendError) (code : Int)
    (h : ¬ (attempt > 0 ∧ wait attempt = WaitResult.ctxDone))
    (hd : doReq attempt = AttemptResult.status code) (hc : code ≥ 400 ∧ code < 500) :
    retryLoop retry scale doReq wait (remaining + 1) attempt backoff lastErr
      = { attempts := 1, waits := (if attempt > 0 then [backoff] else []),
          err := some (SendError.badStatus code) } := by
  have h2 : ¬ (code ≥ 200 ∧ code < 300) := by omega
  rw [retryLoop]
  simp only [h, if_false, hd, h2, hc, and_self, if_true]

theorem retryLoop_other (retry : RetryConfig) (scale : Int → Int)
    (doReq : Nat → AttemptResult) (wait : Nat → WaitResult) (remaining attempt : Nat)
    (backoff : Int) (lastErr : Option SendError) (code : Int)
    (h : ¬ (attempt > 0 ∧ wait attempt = WaitResult.ctxDone))
    (hd : doReq attempt = AttemptResult.status code)
    (h2 : ¬ (code ≥ 200 ∧ code < 300)) (h4 : ¬ (code ≥ 400 ∧ code < 500)) :
    retryLoop retry scale doReq wait (remaining + 1) attempt backoff lastErr
      = (retryLoop retry scale doReq wait remaining (attempt + 1)
          (if attempt > 0 then capBackoff retry (scale backoff) else backoff)
          (some (SendError.badStatus code))).after (if attempt > 0 then [backoff] else []) := by
  rw [retryLoop]
  simp only [h, if_false, hd, h2, h4]

/-- The shape of one iteration that is not cancelled: it stops after one
request (on a 2xx or a 4xx status), or it makes one request and goes on. -/
theorem retryLoop_cases (retry : RetryConfig) (scale : Int → Int)
    (doReq : Nat → AttemptResult) (wait : Nat → WaitResult) (remaining attempt : Nat)
    (backoff : Int) (lastErr : Option SendError)
    (h : ¬ (attempt > 0 ∧ wait attempt = WaitResult.ctxDone)) :
    ((doReq attempt).isSuccess = true ∧
      retryLoop retry scale doReq wait (remaining + 1) attempt backoff lastErr
        = { attempts := 1, waits := (if attempt > 0 then [backoff] else []), err := none }) ∨
    ((doReq attempt).isClientError = true ∧ ∃ code, doReq attempt = AttemptResult.status code ∧
      retryLoop retry scale doReq wait (remaining + 1) attempt backoff lastErr
        = { attempts := 1, waits := (if attempt > 0 then [backoff] else []),
            err := some (SendError.badStatus code) }) ∨
    ((doReq attempt).isSuccess = false ∧ (doReq attempt).isClientError = false ∧ ∃ e,
      retryLoop retry scale doReq wait (remaining + 1) attempt backoff lastErr
        = (retryLoop retry scale doReq wait remaining (attempt + 1)
            (if attempt > 0 then capBackoff retry (scale backoff) else backoff)
            (some e)).after (if attempt > 0 then [backoff] else [])) := by
  cases hd : doReq attempt with
  | transportError =>
    right; right
    exact ⟨rfl, rfl, _, retryLoop_transport _ _ _ _ _ _ _ _ h hd⟩
  | status code =>
    by_cases h2 : code ≥ 200 ∧ code < 300
    · left
      exact ⟨by simp [AttemptResult.isSuccess, h2], retryLoop_success _ _ _ _ _ _ _ _ _ h hd h2⟩
    · by_cases h4 : code ≥ 400 ∧ code < 500
      · right; left
        exact ⟨by simp [AttemptResult.isClientError, h4], code, rfl,
          retryLoop_client _ _ _ _ _ _ _ _ _ h hd h4⟩
      · right; right
        refine ⟨?_, ?_, _, retryLoop_other _ _ _ _ _ _ _ _ _ h hd h2 h4⟩
        · simpa [AttemptResult.isSuccess] using h2
        · simpa [AttemptResult.isClientError] using h4

theorem RetryRun.after_attempts (ws : List Int) (r : RetryRun) :
    (r.after ws).attempts = r.attempts + 1 := rfl

theorem RetryRun.after_err (ws : List Int) (r : RetryRun) : (r.after ws).err = r.err := rfl

theorem RetryRun.after_waits (ws : List Int) (r : RetryRun) :
    (r.after ws).waits = ws ++ r.waits := rfl

theorem retryLoop_attempts_le (retry : RetryConfig) (scale : Int → Int)
    (doReq : Nat → AttemptResult) (wait : Nat → WaitResult) :
    ∀ (remaining attempt : Nat) (backoff : Int) (lastErr : Option SendError),
      (retryLoop retry scale doReq wait remaining attempt backoff lastErr).attempts
        ≤ remaining := by
  intro remaining
  induction remaining with
  | zero => intro attempt backoff lastErr; rw [retryLoop_zero]
  | succ remaining ih =>
    intro attempt backoff lastErr
    by_cases h : attempt > 0 ∧ wait attempt = WaitResult.ctxDone
    · rw [retryLoop_cancelled _ _ _ _ _ _ _ _ h]; exact Nat.zero_le _
    · rcases retryLoop_cases retry scale doReq wait remaining attempt backoff lastErr h with
        ⟨_, e⟩ | ⟨_, _, _, e⟩ | ⟨_, _, _, e⟩
      · rw [e]; exact Nat.succ_le_succ (Nat.zero_le _)
      · rw [e]; exact Nat.succ_le_succ (Nat.zero_le _)
      · rw [e, RetryRun.after_attempts]
        exact Nat.succ_le_succ (ih _ _ _)

theorem retryLoop_attempts_pos (retry : RetryConfig) (scale : Int → Int)
    (doReq : Nat → AttemptResult) (wait : Nat → WaitResult) (remaining attempt : Nat)
    (backoff : Int) (lastErr : Option SendError)
    (h : ¬ (attempt > 0 ∧ wait attempt = WaitResult.ctxDone)) :
    0 < (retryLoop retry scale doReq wait (remaining + 1) attempt backoff lastErr).attempts := by
  rcases retryLoop_cases retry scale doReq wait remaining attempt backoff lastErr h with
    ⟨_, e⟩ | ⟨_, _, _, e⟩ | ⟨_, _, _, e⟩
  · rw [e]; exact Nat.one_pos
  · rw [e]; exact Nat.one_pos
  · rw [e, RetryRun.after_attempts]; exact Nat.succ_pos _

/-- A request answered with a 4xx status is the last one of the loop, and
its error is what the loop returns. -/
theorem retryLoop_client_error_last (retry : RetryConfig) (scale : Int → Int)
    (doReq : Nat → AttemptResult) (wait : Nat → WaitResult) :
    ∀ (remaining attempt : Nat) (backoff : Int) (lastErr : Option SendError) (j : Nat),
      j < (retryLoop retry scale doReq wait remaining attempt backoff lastErr).attempts →
      (doReq (attempt + j)).isClientError = true →
      j + 1 = (retryLoop retry scale doReq wait remaining attempt backoff lastErr).attempts ∧
      ∃ code, doReq (attempt + j) = AttemptResult.status code ∧
        (retryLoop retry scale doReq wait remaining attempt backoff lastErr).err
          = some (SendError.badStatus code) := by
  intro remaining
  induction remaining with
  | zero =>
    intro attempt backoff lastErr j hj
    rw [retryLoop_zero] at hj
    exact absurd hj (Nat.not_lt_zero _)
  | succ remaining ih =>
    intro attempt backoff lastErr j hj hc
    by_cases h : attempt > 0 ∧ wait attempt = WaitResult.ctxDone
    · rw [retryLoop_cancelled _ _ _ _ _ _ _ _ h] at hj
      exact absurd hj (Nat.not_lt_zero _)
    · rcases retryLoop_cases retry scale doReq wait remaining attempt backoff lastErr h with
        ⟨hs, e⟩ | ⟨_, code, hd, e⟩ | ⟨_, hnc, e0, e⟩
      · rw [e] at hj
        have hj0 : j = 0 := by simp only at hj; omega
        subst hj0
        rw [Nat.add_zero] at hc
        cases hd : doReq attempt with
        | transportError => rw [hd] at hc; simp [AttemptResult.isClientError] at hc
        | status code =>
          rw [hd] at hc hs
          simp only [AttemptResult.isClientError, AttemptResult.isSuccess,
            decide_eq_true_eq] at hc hs
          omega
      · rw [e] at hj ⊢
        have hj0 : j = 0 := by simp only at hj; omega
        subst hj0
        exact ⟨rfl, code, by rw [Nat.add_zero]; exact hd, rfl⟩
      · rw [e, RetryRun.after_attempts] at hj
        rw [e, RetryRun.after_attempts, RetryRun.after_err]
        cases j with
        | zero =>
          rw [Nat.add_zero, hnc] at hc
          exact absurd hc (by decide)
        | succ j =>
          have hidx : attempt + (j + 1) = attempt + 1 + j := by omega
          rw [hidx] at hc ⊢
          obtain ⟨i1, i2⟩ := ih (attempt + 1)
            (if attempt > 0 then capBackoff retry (scale backoff) else backoff) (some e0) j
            (by omega) hc
          exact ⟨by omega, i2⟩

theorem AttemptResult.server_failure_retried (r : AttemptResult)
    (h : r.isServerFailure = true) : r.isSuccess = false ∧ r.isClientError = false := by
  cases r with
  | transportError => exact ⟨rfl, rfl⟩
  | status code =>
    simp only [AttemptResult.isServerFailure, decide_eq_true_eq] at h
    simp only [AttemptResult.isSuccess, AttemptResult.isClientError, decide_eq_false_iff_not]
    constructor <;> omega

/-- A request that fails with a transport error or a 5xx status is followed
by another request when the loop condition admits one and the wait is not
cancelled. -/
theorem retryLoop_failure_retried (retry : RetryConfig) (scale : Int → Int)
    (doReq : Nat → AttemptResult) (wait : Nat → WaitResult) :
    ∀ (remaining attempt : Nat) (backoff : Int) (lastErr : Option SendError) (j : Nat),
      j < (retryLoop retry scale doReq wait remaining attempt backoff lastErr).attempts →
      (doReq (attempt + j)).isServerFailure = true →
      j + 1 < remaining → wait (attempt + j + 1) = WaitResult.elapsed →
      j + 1 < (retryLoop retry scale doReq wait remaining attempt backoff lastErr).attempts := by
  intro remaining
  induction remaining with
  | zero => intro attempt backoff lastErr j _ _ hr; omega
  | succ remaining ih =>
    intro attempt backoff lastErr j hj hf hr hw
    by_cases h : attempt > 0 ∧ wait attempt = WaitResult.ctxDone
    · rw [retryLoop_cancelled _ _ _ _ _ _ _ _ h] at hj
      exact absurd hj (Nat.not_lt_zero _)
    · rcases retryLoop_cases retry scale doReq wait remaining attempt backoff lastErr h with
        ⟨hs, e⟩ | ⟨hc, _, _, e⟩ | ⟨_, _, e0, e⟩
      · rw [e] at hj
        have hj0 : j = 0 := by simp only at hj; omega
        subst hj0
        rw [Nat.add_zero] at hf
        rw [(AttemptResult.server_failure_retried _ hf).1] at hs
        exact absurd hs (by decide)
      · rw [e] at hj
        have hj0 : j = 0 := by simp only at hj; omega
        subst hj0
        rw [Nat.add_zero] at hf
        rw [(AttemptResult.server_failure_retried _ hf).2] at hc
        exact absurd hc (by decide)
      · rw [e, RetryRun.after_attempts] at hj ⊢
        cases j with
        | zero =>
          obtain ⟨r2, hr2⟩ : ∃ r2, remaining = r2 + 1 := ⟨remaining - 1, by omega⟩
          subst hr2
          have hnc : ¬ (attempt + 1 > 0 ∧ wait (attempt + 1) = WaitResult.ctxDone) := by
            intro hc
            rw [Nat.add_zero] at hw
            rw [hw] at hc
            exact absurd hc.2 (by decide)
          have := retryLoop_attempts_pos retry scale doReq wait r2 (attempt + 1)
            (if attempt > 0 then capBackoff retry (scale backoff) else backoff) (some e0) hnc
          omega
        | succ j =>
          have hidx : attempt + (j + 1) = attempt + 1 + j := by omega
          rw [hidx] at hf hw
          have := ih (attempt + 1)
            (if attempt > 0 then capBackoff retry (scale backoff) else backoff) (some e0) j
            (by omega) hf (by omega) hw
          omega

/-- C18: for every retry configuration and every sequence of attempt
outcomes, a request answered with a 4xx status is the last request that
`sendWithRetry` makes, and the call returns the error for that status; a
request that fails with a transport error or a 5xx status is followed by
another request as long as the retry budget admits one and the context is
not cancelled during the wait. -/
theorem no_retry_after_client_error (retry : RetryConfig) (scale : Int → Int)
    (doReq : Nat → AttemptResult) (wait : Nat → WaitResult) :
    (∀ i, i < (sendWithRetry retry scale doReq wait).attempts →
      (doReq i).isClientError = true →
      i + 1 = (sendWithRetry retry scale doReq wait).attempts ∧
      ∃ code, doReq i = AttemptResult.status code ∧
        (sendWithRetry retry scale doReq wait).err = some (SendError.badStatus code)) ∧
    (∀ i, i < (sendWithRetry retry scale doReq wait).attempts →
      (doReq i).isServerFailure = true →
      ((i : Int) + 1 ≤ effectiveMaxRetries retry) →
      wait (i + 1) = WaitResult.elapsed →
      i + 1 < (sendWithRetry retry scale doReq wait).attempts) := by
  unfold sendWithRetry
  constructor
  · intro i hi hc
    have := retryLoop_client_error_last retry scale doReq wait
      (effectiveMaxRetries retry + 1).toNat 0 (initialBackoff retry) none i hi
      (by rw [Nat.zero_add]; exact hc)
    rw [Nat.zero_add] at this
    exact this
  · intro i hi hf hb hw
    exact retryLoop_failure_retried retry scale doReq wait
      (effectiveMaxRetries retry + 1).toNat 0 (initialBackoff retry) none i hi
      (by rw [Nat.zero_add]; exact hf) (by omega) (by rw [Nat.zero_add]; exact hw)

/-- Witness for C18: status 503 followed by status 404 with four attempts
allowed: the second request is made and is the last one. -/
theorem no_retry_after_client_error_witness :
    (sendWithRetry (oneThenFive 3) (scaleBy 2) unavailableThenNotFound neverCancelled).attempts
      = 2 ∧
    (1 + 1 = (sendWithRetry (oneThenFive 3) (scaleBy 2) unavailableThenNotFound
        neverCancelled).attempts ∧
      ∃ code, unavailableThenNotFound 1 = AttemptResult.status code ∧
        (sendWithRetry (oneThenFive 3) (scaleBy 2) unavailableThenNotFound neverCancelled).err
          = some (SendError.badStatus code)) ∧
    0 + 1 < (sendWithRetry (oneThenFive 3) (scaleBy 2) unavailableThenNotFound
        neverCancelled).attempts :=
  ⟨by decide,
    (no_retry_after_client_error (oneThenFive 3) (scaleBy 2) unavailableThenNotFound
      neverCancelled).1 1 (by decide) (by decide),
    (no_retry_after_client_error (oneThenFive 3) (scaleBy 2) unavailableThenNotFound
      neverCancelled).2 0 (by decide) (by decide) (by decide) (by decide)⟩

/-- When every request fails in a way that is retried and no wait is
cancelled, the loop makes as many requests as its condition admits. -/
theorem retryLoop_all_fail (retry : RetryConfig) (scale : Int → Int)
    (doReq : Nat → AttemptResult) (wait : Nat → WaitResult)
    (hfail : ∀ i, (doReq i).isServerFailure = true)
    (hlive : ∀ i, wait i = WaitResult.elapsed) :
    ∀ (remaining attempt : Nat) (backoff : Int) (lastErr : Option SendError),
      (retryLoop retry scale doReq wait remaining attempt backoff lastErr).attempts
        = remaining := by
  intro remaining
  induction remaining with
  | zero => intro attempt backoff lastErr; rw [retryLoop_zero]
  | succ remaining ih =>
    intro attempt backoff lastErr
    have h : ¬ (attempt > 0 ∧ wait attempt = WaitResult.ctxDone) := by
      intro hc
      rw [hlive attempt] at hc
      exact absurd hc.2 (by decide)
    obtain ⟨f1, f2⟩ := AttemptResult.server_failure_retried _ (hfail attempt)
    rcases retryLoop_cases retry scale doReq wait remaining attempt backoff lastErr h with
      ⟨hs, _⟩ | ⟨hc, _⟩ | ⟨_, _, _, e⟩
    · rw [f1] at hs; exact absurd hs (by decide)
    · rw [f2] at hc; exact absurd hc (by decide)
    · rw [e, RetryRun.after_attempts, ih]

/-- C19 (counterexample): with `max_retries` configured as 0 and a
destination that answers every request with status 500, `sendWithRetry`
makes four requests, not one. -/
theorem zero_retries_means_three :
    (sendWithRetry (oneThenFive 0) (scaleBy 2) alwaysUnavailable neverCancelled).attempts = 4 ∧
    ¬ (((sendWithRetry (oneThenFive 0) (scaleBy 2) alwaysUnavailable neverCancelled).attempts
        : Int) = (oneThenFive 0).MaxRetries + 1) := by
  constructor <;> decide

/-- C19 (amended): for a destination that fails every request with a
transport error or a 5xx status, and a context that is not cancelled,
`sendWithRetry` makes exactly `n + 1` requests for every configured
`max_retries = n ≥ 1`, and exactly four requests when `max_retries` is 0,
which the code takes as unset; whatever the outcomes, it never makes more
requests than that. -/
theorem attempts_when_all_fail (retry : RetryConfig) (scale : Int → Int)
    (doReq : Nat → AttemptResult) (wait : Nat → WaitResult)
    (hfail : ∀ i, (doReq i).isServerFailure = true)
    (hlive : ∀ i, wait i = WaitResult.elapsed) :
    (retry.MaxRetries ≥ 1 →
      ((sendWithRetry retry scale doReq wait).attempts : Int) = retry.MaxRetries + 1) ∧
    (retry.MaxRetries = 0 → (sendWithRetry retry scale doReq wait).attempts = 4) ∧
    (∀ (doReq2 : Nat → AttemptResult) (wait2 : Nat → WaitResult),
      ((sendWithRetry retry scale doReq2 wait2).attempts : Int)
        ≤ max 0 (effectiveMaxRetries retry + 1)) := by
  have hall := retryLoop_all_fail retry scale doReq wait hfail hlive
    (effectiveMaxRetries retry + 1).toNat 0 (initialBackoff retry) none
  refine ⟨fun hn => ?_, fun h0 => ?_, fun doReq2 wait2 => ?_⟩
  · unfold sendWithRetry
    rw [hall]
    have : effectiveMaxRetries retry = retry.MaxRetries := by
      unfold effectiveMaxRetries
      rw [if_neg (by omega)]
    rw [this]
    omega
  · unfold sendWithRetry
    rw [hall]
    have : effectiveMaxRetries retry = 3 := by
      unfold effectiveMaxRetries
      rw [if_pos h0]
    rw [this]
    rfl
  · have := retryLoop_attempts_le retry scale doReq2 wait2
      (effectiveMaxRetries retry + 1).toNat 0 (initialBackoff retry) none
    unfold sendWithRetry
    omega

/-- Witness for C19 (amended): `max_retries = 2` and a destination that
always answers 500 give three requests. -/
theorem attempts_when_all_fail_witness :
    (∀ i, (alwaysUnavailable i).isServerFailure = true) ∧
    (∀ i, neverCancelled i = WaitResult.elapsed) ∧
    (oneThenFive 2).MaxRetries ≥ 1 ∧
    ((sendWithRetry (oneThenFive 2) (scaleBy 2) alwaysUnavailable neverCancelled).attempts : Int)
      = (oneThenFive 2).MaxRetries + 1 :=
  ⟨fun _ => rfl, fun _ => rfl, by decide,
    (attempts_when_all_fail (oneThenFive 2) (scaleBy 2) alwaysUnavailable neverCancelled
      (fun _ => rfl) (fun _ => rfl)).1 (by decide)⟩

theorem backoffFrom_shift (retry : RetryConfig) (scale : Int → Int) (b : Int) :
    ∀ k, backoffFrom retry scale (capBackoff retry (scale b)) k
      = backoffFrom retry scale b (k + 1) := by
  intro k
  induction k with
  | zero => rfl
  | succ k ih =>
    show capBackoff retry (scale (backoffFrom retry scale (capBackoff retry (scale b)) k)) = _
    rw [ih]
    rfl

/-- Every wait of the loop is the entry of the sequence that starts with the
current backoff. -/
theorem retryLoop_waits (retry : RetryConfig) (scale : Int → Int)
    (doReq : Nat → AttemptResult) (wait : Nat → WaitResult) :
    ∀ (remaining attempt : Nat) (backoff : Int) (lastErr : Option SendError) (k : Nat) (w : Int),
      (retryLoop retry scale doReq wait remaining attempt backoff lastErr).waits.get? k = some w →
      w = backoffFrom retry scale backoff k := by
  intro remaining
  induction remaining with
  | zero =>
    intro attempt backoff lastErr k w h
    rw [retryLoop_zero] at h
    simp at h
  | succ remaining ih =>
    intro attempt backoff lastErr k w hk
    have hsingle : ∀ (k : Nat) (w : Int),
        (if attempt > 0 then [backoff] else ([] : List Int)).get? k = some w →
        w = backoffFrom retry scale backoff k := by
      intro k w h
      by_cases ha : attempt > 0
      · rw [if_pos ha] at h
        cases k with
        | zero => simp at h; rw [← h]; rfl
        | succ k => simp at h
      · rw [if_neg ha] at h
        simp at h
    by_cases h : attempt > 0 ∧ wait attempt = WaitResult.ctxDone
    · rw [retryLoop_cancelled _ _ _ _ _ _ _ _ h] at hk
      have := hsingle k w (by rw [if_pos h.1]; exact hk)
      exact this
    · rcases retryLoop_cases retry scale doReq wait remaining attempt backoff lastErr h with
        ⟨_, e⟩ | ⟨_, _, _, e⟩ | ⟨_, _, e0, e⟩
      · rw [e] at hk; exact hsingle k w hk
      · rw [e] at hk; exact hsingle k w hk
      · rw [e, RetryRun.after_waits] at hk
        by_cases ha : attempt > 0
        · rw [if_pos ha] at hk
          simp only [if_pos ha] at hk
          cases k with
          | zero =>
            simp at hk
            rw [← hk]; rfl
          | succ k =>
            simp only [List.singleton_append, List.get?_cons_succ] at hk
            rw [ih _ _ _ k w hk, backoffFrom_shift]
        · simp only [if_neg ha, List.nil_append] at hk
          exact ih _ _ _ k w hk

theorem capBackoff_le (retry : RetryConfig) (b : Int) (h : retry.MaxBackoff > 0) :
    capBackoff retry b ≤ retry.MaxBackoff := by
  unfold capBackoff
  by_cases hb : b > retry.MaxBackoff
  · rw [if_pos ⟨h, hb⟩]
  · rw [if_neg (fun hc => hb hc.2)]
    omega

theorem capBackoff_eq_min (retry : RetryConfig) (b : Int) (h : retry.MaxBackoff > 0) :
    capBackoff retry b = min b retry.MaxBackoff := by
  unfold capBackoff
  by_cases hb : b > retry.MaxBackoff
  · rw [if_pos ⟨h, hb⟩]; omega
  · rw [if_neg (fun hc => hb hc.2)]
    omega

/-- For a whole multiplier `m ≥ 1` and an initial backoff that does not
exceed the maximal one, the sequence of waits is the capped geometric
sequence. -/
theorem backoffFrom_closed_form (retry : RetryConfig) (m b : Int) (hm : 1 ≤ m)
    (hmax : retry.MaxBackoff > 0) (hb : b ≤ retry.MaxBackoff) :
    ∀ k, backoffFrom retry (scaleBy m) b k = min (b * m ^ k) retry.MaxBackoff := by
  intro k
  induction k with
  | zero =>
    show b = _
    rw [pow_zero, mul_one]
    omega
  | succ k ih =>
    show capBackoff retry (scaleBy m (backoffFrom retry (scaleBy m) b k)) = _
    rw [ih, capBackoff_eq_min _ _ hmax]
    unfold scaleBy
    have hpow : b * m ^ (k + 1) = b * m ^ k * m := by ring
    rw [hpow]
    by_cases hle : b * m ^ k ≤ retry.MaxBackoff
    · rw [min_eq_left hle]
    · have hgt : retry.MaxBackoff < b * m ^ k := by omega
      rw [min_eq_right (le_of_lt hgt)]
      have h1 : retry.MaxBackoff ≤ retry.MaxBackoff * m :=
        le_mul_of_one_le_right (le_of_lt hmax) hm
      have h2 : b * m ^ k ≤ b * m ^ k * m :=
        le_mul_of_one_le_right (le_of_lt (lt_trans hmax hgt)) hm
      rw [min_eq_right h1, min_eq_right (by omega)]

/-- Where the product computed in `float64` is exact, on the waits up to a
maximal backoff, the waits are those of the exact product. -/
theorem backoffFrom_exact (retry : RetryConfig) (scale : Int → Int) (m b : Int) (hm : 1 ≤ m)
    (hmax : retry.MaxBackoff > 0) (hb0 : 0 < b) (hb : b ≤ retry.MaxBackoff)
    (hrange : retry.MaxBackoff * m < 2 ^ 53)
    (hexact : ∀ d, 0 < d → d * m < 2 ^ 53 → scale d = d * m) :
    ∀ k, backoffFrom retry scale b k = backoffFrom retry (scaleBy m) b k ∧
      0 < backoffFrom retry scale b k ∧ backoffFrom retry scale b k ≤ retry.MaxBackoff := by
  intro k
  induction k with
  | zero => exact ⟨rfl, hb0, hb⟩
  | succ k ih =>
    obtain ⟨e, h0, h1⟩ := ih
    have hle : backoffFrom retry scale b k * m ≤ retry.MaxBackoff * m :=
      Int.mul_le_mul_of_nonneg_right h1 (by omega)
    have hs : scale (backoffFrom retry scale b k) = backoffFrom retry scale b k * m :=
      hexact _ h0 (by omega)
    have hpos : 0 < backoffFrom retry scale b k * m := Int.mul_pos h0 (by omega)
    have hstep : backoffFrom retry scale b (k + 1)
        = capBackoff retry (backoffFrom retry scale b k * m) := by
      show capBackoff retry (scale (backoffFrom retry scale b k)) = _
      rw [hs]
    refine ⟨?_, ?_, ?_⟩
    · rw [hstep]
      show _ = capBackoff retry (scaleBy m (backoffFrom retry (scaleBy m) b k))
      rw [← e]
      rfl
    · rw [hstep]
      unfold capBackoff
      split <;> omega
    · rw [hstep]
      exact capBackoff_le _ _ hmax

/-- C20, the code at the failing input `initial_backoff = 10 s`,
`max_backoff = 5 s`: whatever the multiplication yields, the wait before the
first retry is 10 s, twice the maximal backoff; the cap is applied to the
second wait only, which is at most 5 s.  So a wait between attempts exceeds a
set `max_backoff`, and the first wait is not `initial_backoff` capped at
`max_backoff`. -/
theorem first_wait_is_not_capped (scale : Int → Int) :
    (sendWithRetry (tenThenFive 2) scale alwaysUnavailable neverCancelled).waits
      = [10 * 1000000000, capBackoff (tenThenFive 2) (scale (10 * 1000000000))] ∧
    (tenThenFive 2).MaxBackoff = 5 * 1000000000 ∧
    min (initialBackoff (tenThenFive 2)) (tenThenFive 2).MaxBackoff = 5 * 1000000000 ∧
    capBackoff (tenThenFive 2) (scale (10 * 1000000000)) ≤ 5 * 1000000000 ∧
    ¬ (∀ w ∈ (sendWithRetry (tenThenFive 2) scale alwaysUnavailable neverCancelled).waits,
      w ≤ (tenThenFive 2).MaxBackoff) := by
  have hw : (sendWithRetry (tenThenFive 2) scale alwaysUnavailable neverCancelled).waits
      = [10 * 1000000000, capBackoff (tenThenFive 2) (scale (10 * 1000000000))] := by
    simp [sendWithRetry, retryLoop, effectiveMaxRetries, initialBackoff, tenThenFive,
      alwaysUnavailable, neverCancelled, RetryRun.after]
  refine ⟨hw, rfl, by decide, capBackoff_le _ _ (by decide), ?_⟩
  rw [hw]
  intro h
  have := h (10 * 1000000000) (List.mem_cons_self _ _)
  revert this
  decide

/-- The waits of the retry loop.  The wait before the first retry is
`initial_backoff` (5 s when unset), uncapped; the wait before every later retry
is the previous wait multiplied by `backoff_multiple` and then capped at
`max_backoff` when that is set.  So no wait after the first exceeds a set
`max_backoff`, and none does when `initial_backoff ≤ max_backoff`.  In that
case, for a whole multiplier `m ≥ 1` and waits on which the `float64` product
is exact (`max_backoff * m < 2 ^ 53`), the wait before the `k`-th retry is
`initial_backoff * m ^ (k - 1)` capped at `max_backoff`. -/
theorem backoff_waits (retry : RetryConfig) (scale : Int → Int)
    (doReq : Nat → AttemptResult) (wait : Nat → WaitResult) :
    (∀ k w, (sendWithRetry retry scale doReq wait).waits.get? k = some w →
      w = backoffSchedule retry scale k) ∧
    backoffSchedule retry scale 0 = (if retry.InitialBackoff = 0 then 5 * 1000000000
      else retry.InitialBackoff) ∧
    (∀ k, backoffSchedule retry scale (k + 1)
      = capBackoff retry (scale (backoffSchedule retry scale k))) ∧
    (retry.MaxBackoff > 0 → ∀ k, backoffSchedule retry scale (k + 1) ≤ retry.MaxBackoff) ∧
    (retry.MaxBackoff > 0 → initialBackoff retry ≤ retry.MaxBackoff →
      ∀ k, backoffSchedule retry scale k ≤ retry.MaxBackoff) ∧
    (∀ m : Int, 1 ≤ m → retry.MaxBackoff > 0 → 0 < initialBackoff retry →
      initialBackoff retry ≤ retry.MaxBackoff → retry.MaxBackoff * m < 2 ^ 53 →
      (∀ d, 0 < d → d * m < 2 ^ 53 → scale d = d * m) →
      ∀ k, backoffSchedule retry scale k = claimedBackoff retry m (k + 1)) := by
  refine ⟨?_, rfl, fun k => rfl, fun hmax k => capBackoff_le _ _ hmax, ?_, ?_⟩
  · intro k w h
    exact retryLoop_waits retry scale doReq wait _ _ _ _ k w h
  · intro hmax hinit k
    cases k with
    | zero => exact hinit
    | succ k => exact capBackoff_le _ _ hmax
  · intro m hm hmax hpos hinit hrange hexact k
    unfold backoffSchedule claimedBackoff
    rw [(backoffFrom_exact retry scale m _ hm hmax hpos hinit hrange hexact k).1,
      backoffFrom_closed_form retry m _ hm hmax hinit k, Nat.add_sub_cancel]

/-- An evaluation of the waits: initial backoff 1 s, maximal backoff 5 s,
multiplier 2 and four failing requests give the waits 1 s, 2 s and 4 s. -/
theorem backoff_waits_witness :
    (sendWithRetry (oneThenFive 3) (scaleBy 2) alwaysUnavailable neverCancelled).waits
      = [1 * 1000000000, 2 * 1000000000, 4 * 1000000000] ∧
    (oneThenFive 3).MaxBackoff > 0 ∧
    initialBackoff (oneThenFive 3) ≤ (oneThenFive 3).MaxBackoff ∧
    (∀ k, backoffSchedule (oneThenFive 3) (scaleBy 2) k ≤ (oneThenFive 3).MaxBackoff) ∧
    (∀ k, backoffSchedule (oneThenFive 3) (scaleBy 2) k
      = claimedBackoff (oneThenFive 3) 2 (k + 1)) :=
  ⟨by decide, by decide, by decide,
    (backoff_waits (oneThenFive 3) (scaleBy 2) alwaysUnavailable neverCancelled).2.2.2.2.1
      (by decide) (by decide),
    (backoff_waits (oneThenFive 3) (scaleBy 2) alwaysUnavailable neverCancelled).2.2.2.2.2
      2 (by decide) (by decide) (by decide) (by decide) (by decide) (fun _ _ _ => rfl)⟩

end outputs

/-! ## Theorems: fan-out to the sinks -/

namespace agent

open config collectors

/-- C16 (counterexample): a sink that accepts only `log` is handed both
records of a batch made of a log record and a metric record. -/
theorem sink_receives_unaccepted_kinds :
    sendCalls [logOnlySink] [sampleRecord "log", sampleRecord "metric"]
      = [(logOnlySink, [sampleRecord "log", sampleRecord "metric"])] ∧
    acceptedBy logOnlySink [sampleRecord "log", sampleRecord "metric"] = [sampleRecord "log"] ∧
    ¬ (∀ c ∈ sendCalls [logOnlySink] [sampleRecord "log", sampleRecord "metric"],
      c.2 = acceptedBy c.1 [sampleRecord "log", sampleRecord "metric"]) := by
  refine ⟨by decide, by decide, by decide⟩

/-- C16 (amended): for every non-empty batch and every list of sinks, each
sink's `Send` is called exactly once, in the order of the sinks, and is
handed the whole batch, with every record in the original order, whatever
the sink's `data_types`. -/
theorem sinks_receive_whole_batch {O α : Type} (outputs : List O) (batch : List α)
    (h : batch ≠ []) :
    (sendCalls outputs batch).map (fun c => c.1) = outputs ∧
    (∀ c ∈ sendCalls outputs batch, c.2 = batch) ∧
    (sendCalls outputs batch).length = outputs.length := by
  have hlen : ¬ (batch.length = 0) := fun e => h (List.length_eq_zero.mp e)
  unfold sendCalls
  rw [if_neg hlen]
  refine ⟨?_, ?_, by rw [List.length_map]⟩
  · rw [List.map_map]
    exact List.map_id _
  · intro c hc
    obtain ⟨out, _, rfl⟩ := List.mem_map.mp hc
    rfl

/-- Witness for C16 (amended): one sink and a batch of two records. -/
theorem sinks_receive_whole_batch_witness :
    [sampleRecord "log", sampleRecord "metric"] ≠ [] ∧
    (sendCalls [logOnlySink] [sampleRecord "log", sampleRecord "metric"]).map (fun c => c.1)
      = [logOnlySink] ∧
    (∀ c ∈ sendCalls [logOnlySink] [sampleRecord "log", sampleRecord "metric"],
      c.2 = [sampleRecord "log", sampleRecord "metric"]) ∧
    (sendCalls [logOnlySink] [sampleRecord "log", sampleRecord "metric"]).length
      = [logOnlySink].length :=
  ⟨by decide,
    sinks_receive_whole_batch [logOnlySink] [sampleRecord "log", sampleRecord "metric"]
      (by decide)⟩

theorem allReturned_ge (ds : List Nat) : ∀ d ∈ ds, d ≤ allReturned ds := by
  induction ds with
  | nil => intro d hd; exact absurd hd (List.not_mem_nil d)
  | cons x ds ih =>
    intro d hd
    have hx : allReturned (x :: ds) = max x (allReturned ds) := rfl
    rw [hx]
    rcases List.mem_cons.mp hd with h | h
    · rw [h]; exact le_max_left _ _
    · exact le_trans (ih d h) (le_max_right _ _)

theorem allReturned_le (ds : List Nat) (b : Nat) (h : ∀ d ∈ ds, d ≤ b) : allReturned ds ≤ b := by
  induction ds with
  | nil => exact Nat.zero_le _
  | cons x ds ih =>
    have hx : allReturned (x :: ds) = max x (allReturned ds) := rfl
    rw [hx]
    exact max_le (h x (List.mem_cons_self _ _))
      (ih (fun d hd => h d (List.mem_cons_of_mem _ hd)))

/-- C17 (counterexample): with a healthy sink that returns after 10 ms and a
sink whose `Send` blocks for its full 30 s, the loop goes on to the next
batch only after 30 s; with the healthy sink alone it would after 10 ms. -/
theorem blocked_sink_delays_next_batch :
    waitForOutputs [10, 30 * 1000] none = (30 * 1000, WaitOutcome.allDone) ∧
    waitForOutputs [10] none = (10, WaitOutcome.allDone) ∧
    ¬ ((waitForOutputs [10, 30 * 1000] none).1 = (waitForOutputs [10] none).1) := by
  refine ⟨by decide, by decide, by decide⟩

/-- C17 (amended): as long as the agent is not stopped, the loop goes on to
the next batch when every sink's `Send` for the current batch has returned or
when the outer deadline of 45 s has passed, whichever comes first.  Every
sink therefore delays the next batch by the time its `Send` takes, but never
by more than 45 s, and by no more than 30 s when every `Send` honours its
30 s deadline; the results of the `Send` calls play no part. -/
theorem next_batch_waits_for_sinks (sendDurations : List Nat) :
    (waitForOutputs sendDurations none).1 = min (allReturned sendDurations) (45 * 1000) ∧
    (waitForOutputs sendDurations none).1 ≤ 45 * 1000 ∧
    (∀ d ∈ sendDurations, min d (45 * 1000) ≤ (waitForOutputs sendDurations none).1) ∧
    ((∀ d ∈ sendDurations, d ≤ 30 * 1000) →
      (waitForOutputs sendDurations none).1 = allReturned sendDurations ∧
      (waitForOutputs sendDurations none).1 ≤ 30 * 1000 ∧
      (waitForOutputs sendDurations none).2 = WaitOutcome.allDone) := by
  have hval : (waitForOutputs sendDurations none).1
      = min (allReturned sendDurations) (45 * 1000) := by
    unfold waitForOutputs
    by_cases h : allReturned sendDurations ≤ 45 * 1000
    · simp only [h, if_true]; omega
    · simp only [h, if_false]; omega
  refine ⟨hval, by rw [hval]; exact min_le_right _ _, ?_, ?_⟩
  · intro d hd
    rw [hval]
    have := allReturned_ge sendDurations d hd
    omega
  · intro hall
    have hle := allReturned_le sendDurations (30 * 1000) hall
    have h45 : allReturned sendDurations ≤ 45 * 1000 := by omega
    refine ⟨by rw [hval]; omega, by rw [hval]; omega, ?_⟩
    unfold waitForOutputs
    simp only [h45, if_true]

/-- Witness for C17 (amended): a sink that returns after 10 ms and one that
blocks for 30 s. -/
theorem next_batch_waits_for_sinks_witness :
    (∀ d ∈ [10, 30 * 1000], d ≤ 30 * 1000) ∧
    (waitForOutputs [10, 30 * 1000] none).1 = allReturned [10, 30 * 1000] ∧
    (waitForOutputs [10, 30 * 1000] none).1 ≤ 30 * 1000 ∧
    (waitForOutputs [10, 30 * 1000] none).2 = WaitOutcome.allDone :=
  ⟨by decide, (next_batch_waits_for_sinks [10, 30 * 1000]).2.2.2 (by decide)⟩

end agent

/-! ## Theorems: position files, the regex parser and recursive discovery -/

namespace collectors

open config

theorem positionFile_eq (p : String) :
    positionFile p = "/var/lib/pulse-hive/." ++ replaceSlashes (Base p) ++ ".pos" := by
  unfold positionFile
  simp only [← String.append_assoc]
  rfl

theorem addLogFile_path {R : Type} (lc : LogCollector R) (disk : Disk) (path : String)
    (pathConfig : LogPathConfig) (f : OpenFile) (h : disk.open_ path = some f) :
    ∃ lf, GoMap.get (addLogFile lc disk path pathConfig).files path = some lf ∧
      lf.path = path := by
  unfold addLogFile
  rw [h]
  exact ⟨_, GoMap.get_set _ _ _, rfl⟩

/-- C28: the position file of a path `p` is `/var/lib/pulse-hive/.` followed by
the basename of `p` with every `/` replaced by `_` and by `.pos`; the name that
`scanFile` writes for a tracked file is the name that `addLogFile` reads for
the file's path, and the file that `addLogFile` registers under `p` has the
path `p`; two paths with the same basename have the same position file. -/
theorem position_file_by_basename (p q : String) (hbase : Base p = Base q) :
    positionFile p = "/var/lib/pulse-hive/." ++ replaceSlashes (Base p) ++ ".pos" ∧
    (∀ lf : logFile, savedPositionFile lf = positionFile lf.path) ∧
    (∀ (R : Type) (lc : LogCollector R) (disk : Disk) (pathConfig : LogPathConfig)
      (f : OpenFile), disk.open_ p = some f →
      ∃ lf, GoMap.get (addLogFile lc disk p pathConfig).files p = some lf ∧
        savedPositionFile lf = positionFile p) ∧
    positionFile q = positionFile p := by
  refine ⟨positionFile_eq p, fun lf => rfl, ?_, ?_⟩
  · intro R lc disk pathConfig f h
    obtain ⟨lf, h1, h2⟩ := addLogFile_path lc disk p pathConfig f h
    exact ⟨lf, h1, by unfold savedPositionFile positionFile; rw [h2]⟩
  · unfold positionFile
    rw [hbase]

/-- Witness for C28: `/var/log/a/app.log` and `/var/log/b/app.log` have the
basename `app.log` and share the position file `/var/lib/pulse-hive/.app.log.pos`. -/
theorem position_file_by_basename_witness :
    Base "/var/log/a/app.log" = Base "/var/log/b/app.log" ∧
    positionFile "/var/log/a/app.log" = "/var/lib/pulse-hive/.app.log.pos" ∧
    positionFile "/var/log/b/app.log" = positionFile "/var/log/a/app.log" :=
  ⟨by decide, by decide,
    (position_file_by_basename "/var/log/a/app.log" "/var/log/b/app.log" (by decide)).2.2.2⟩

theorem storeGroups_untouched {k : String} (names : List String) (ms : List (List Nat)) :
    ∀ (i : Nat) (fields : GoMap FieldValue),
      (∀ t, t < ms.length → names.get? (i + 1 + t) = some k → k = "") →
      GoMap.get (storeGroups names i ms fields) k = GoMap.get fields k := by
  induction ms with
  | nil => intro i fields _; rfl
  | cons m ms ih =>
    intro i fields h
    have hrest : ∀ t, t < ms.length → names.get? (i + 1 + 1 + t) = some k → k = "" := by
      intro t ht hn
      apply h (t + 1) (by simp; omega)
      rw [← hn]
      congr 1
      omega
    simp only [storeGroups]
    cases hget : names.get? (i + 1) with
    | none => exact ih _ _ hrest
    | some name =>
      by_cases hn : name ≠ ""
      · simp only [hn, ne_eq, not_false_eq_true, if_true]
        have hne : k ≠ name := by
          intro e
          subst e
          exact hn (h 0 (by simp) (by simpa using hget))
        rw [ih _ _ hrest, GoMap.get_set_ne _ _ _ _ hne]
      · simp only [hn, if_false]
        exact ih _ _ hrest

theorem storeGroups_last {name : String} (names : List String) (hname : name ≠ "")
    (ms : List (List Nat)) :
    ∀ (i : Nat) (fields : GoMap FieldValue) (t : Nat) (m : List Nat),
      ms.get? t = some m → names.get? (i + 1 + t) = some name →
      (∀ u, t < u → u < ms.length → names.get? (i + 1 + u) ≠ some name) →
      GoMap.get (storeGroups names i ms fields) name = some (FieldValue.text m) := by
  induction ms with
  | nil => intro i fields t m hm; simp at hm
  | cons m0 ms ih =>
    intro i fields t m hm hn hlast
    cases t with
    | zero =>
      have hm0 : m0 = m := by simpa using hm
      subst hm0
      have hget : names.get? (i + 1) = some name := by simpa using hn
      simp only [storeGroups, hget, hname, ne_eq, not_false_eq_true, if_true]
      rw [storeGroups_untouched names ms (i + 1) _ ?_, GoMap.get_set]
      intro u hu hnu
      exfalso
      apply hlast (u + 1) (by omega) (by simp; omega)
      rw [← hnu]
      congr 1
      omega
    | succ t =>
      have hm1 : ms.get? t = some m := by simpa using hm
      have hn1 : names.get? (i + 1 + 1 + t) = some name := by
        rw [← hn]
        congr 1
        omega
      have hlast1 : ∀ u, t < u → u < ms.length → names.get? (i + 1 + 1 + u) ≠ some name := by
        intro u hu hul
        have := hlast (u + 1) (by omega) (by simp; omega)
        intro e
        apply this
        rw [← e]
        congr 1
        omega
      simp only [storeGroups]
      cases names.get? (i + 1) with
      | none => exact ih _ _ t m hm1 hn1 hlast1
      | some name0 =>
        by_cases hn0 : name0 ≠ ""
        · simp only [hn0, ne_eq, not_false_eq_true, if_true]
          exact ih _ _ t m hm1 hn1 hlast1
        · simp only [hn0, if_false]
          exact ih _ _ t m hm1 hn1 hlast1

theorem parseLogLine_regex {R : Type} (re : Regexp R) (lc : LogCollector R) (now : Clock)
    (line : List Nat) (file : logFile) (parser : ParserConfig) (regex : R)
    (hparser : GoMap.get lc.config.Parsers file.parser = some parser)
    (htype : parser.Type_ = "regex") (hcompile : re.Compile parser.Pattern = some regex) :
    (parseLogLine re lc now line file).Fields =
      if (re.FindStringSubmatch regex line).length > 1 then
        storeGroups (re.SubexpNames regex) 0 (re.FindStringSubmatch regex line).tail
          (copyInto FieldValue.str file.fields [])
      else copyInto FieldValue.str file.fields [] := by
  unfold parseLogLine
  simp only [hparser]
  unfold applyParser
  simp only [htype, if_true, hcompile]
  by_cases hl : (re.FindStringSubmatch regex line).length > 1
  · simp only [hl, if_true]
  · simp only [hl, if_false]

/-- Counterexample for C25: with the expression `^(?P<w>[^ ]+) (?P<w>.*)$` the
line `a b` matches, the first group named `w` captures `a` and the second
group named `w` captures `b`; the parsed fields hold the static field and
`w = b`, so the text captured by the first named group is not stored. -/
theorem first_of_same_name_not_stored :
    sameNameRegexp.SubexpNames () = ["", "w", "w"] ∧
    sameNameRegexp.FindStringSubmatch () (bytes "a b") = [bytes "a b", bytes "a", bytes "b"] ∧
    (parseLogLine sameNameRegexp (parserCollector "^(?P<w>[^ ]+) (?P<w>.*)$")
      (Clock.mk "2024-01-01T00:00:00Z" 1704067200) (bytes "a b") levelFile).Fields
      = [("env", FieldValue.str "prod"), ("w", FieldValue.text (bytes "b"))] := by
  refine ⟨rfl, by decide, by decide⟩

/-- C25 (amended): for a file whose parser is of type `regex` and compiles,
where a match has one entry per capture group: if the expression does not
match the line the parsed fields are the static fields of the file; if it
matches, every group name holds the text captured by the last group of that
name; and in both cases every key that is not the name of a named group holds
what the static fields hold for it, so unnamed groups add nothing. -/
theorem regex_parser_last_group_wins {R : Type} (re : Regexp R) (lc : LogCollector R)
    (now : Clock) (line : List Nat) (file : logFile) (parser : ParserConfig) (regex : R)
    (hparser : GoMap.get lc.config.Parsers file.parser = some parser)
    (htype : parser.Type_ = "regex") (hcompile : re.Compile parser.Pattern = some regex)
    (hlen : re.FindStringSubmatch regex line ≠ [] →
      (re.FindStringSubmatch regex line).length = (re.SubexpNames regex).length) :
    (re.FindStringSubmatch regex line = [] →
      (parseLogLine re lc now line file).Fields = copyInto FieldValue.str file.fields []) ∧
    (re.FindStringSubmatch regex line ≠ [] →
      ∀ i name, 1 ≤ i → (re.SubexpNames regex).get? i = some name → name ≠ "" →
        (∀ j, i < j → (re.SubexpNames regex).get? j ≠ some name) →
        ∃ m, (re.FindStringSubmatch regex line).get? i = some m ∧
          GoMap.get (parseLogLine re lc now line file).Fields name
            = some (FieldValue.text m)) ∧
    (∀ k, (∀ i, 1 ≤ i → (re.SubexpNames regex).get? i = some k → k = "") →
      GoMap.get (parseLogLine re lc now line file).Fields k
        = GoMap.get (copyInto FieldValue.str file.fields ([] : GoMap FieldValue)) k) := by
  have hf := parseLogLine_regex re lc now line file parser regex hparser htype hcompile
  refine ⟨?_, ?_, ?_⟩
  · intro h0
    rw [hf, h0]
    simp
  · intro hne i name hi hn hnm hlast
    have hl := hlen hne
    have hilt : i < (re.SubexpNames regex).length := by
      rcases Nat.lt_or_ge i (re.SubexpNames regex).length with h | h
      · exact h
      · rw [List.get?_eq_none.mpr h] at hn
        cases hn
    have hims : i < (re.FindStringSubmatch regex line).length := by omega
    obtain ⟨t, rfl⟩ : ∃ t, i = t + 1 := ⟨i - 1, by omega⟩
    have hgt : (re.FindStringSubmatch regex line).length > 1 := by omega
    rw [hf]
    simp only [hgt, if_true]
    cases hms : re.FindStringSubmatch regex line with
    | nil => exact absurd hms hne
    | cons m0 rest =>
      rw [hms] at hims
      have htl : t < rest.length := by simpa using hims
      refine ⟨rest.get ⟨t, htl⟩, by simp [List.get?_eq_get htl], ?_⟩
      simp only [List.tail_cons]
      apply storeGroups_last _ hnm rest 0 _ t _ (List.get?_eq_get htl)
      · rw [← hn]
        congr 1
        omega
      · intro u hu _
        have := hlast (u + 1) (by omega)
        intro e
        apply this
        rw [← e]
        congr 1
        omega
  · intro k hk
    rw [hf]
    by_cases hgt : (re.FindStringSubmatch regex line).length > 1
    · simp only [hgt, if_true]
      apply storeGroups_untouched
      intro t _ hn
      apply hk (t + 1) (by omega)
      rw [← hn]
      congr 1
      omega
    · simp only [hgt, if_false]

/-- Witness for C25 (amended): the line `ERROR disk full` parsed with
`^(?P<level>[^ ]+) (.*)$` stores `ERROR` under `level` next to the static
field `env`; the unnamed second group adds nothing. -/
theorem regex_parser_last_group_wins_witness :
    (parseLogLine levelRegexp (parserCollector "^(?P<level>[^ ]+) (.*)$")
      (Clock.mk "2024-01-01T00:00:00Z" 1704067200) (bytes "ERROR disk full") levelFile).Fields
      = [("env", FieldValue.str "prod"), ("level", FieldValue.text (bytes "ERROR"))] ∧
    ∃ m, (levelRegexp.FindStringSubmatch () (bytes "ERROR disk full")).get? 1 = some m ∧
      GoMap.get (parseLogLine levelRegexp (parserCollector "^(?P<level>[^ ]+) (.*)$")
        (Clock.mk "2024-01-01T00:00:00Z" 1704067200) (bytes "ERROR disk full")
        levelFile).Fields "level" = some (FieldValue.text m) :=
  ⟨by decide,
    (regex_parser_last_group_wins levelRegexp (parserCollector "^(?P<level>[^ ]+) (.*)$")
      (Clock.mk "2024-01-01T00:00:00Z" 1704067200) (bytes "ERROR disk full") levelFile
      { Type_ := "regex", Pattern := "^(?P<level>[^ ]+) (.*)$" } () (by decide) rfl (by decide)
      (fun _ => by decide)).2.1 (by decide) 1 "level" (by decide) (by decide) (by decide)
      (by
        intro j hj
        obtain ⟨t, rfl⟩ : ∃ t, j = t + 2 := ⟨j - 2, by omega⟩
        cases t with
        | zero => decide
        | succ t => simp [levelRegexp, splitRegexp])⟩

mutual
theorem entryFiles_level (dir : String) (level : Nat) :
    ∀ (entry : DirEntry), ∀ f ∈ entryFiles dir level entry, level ≤ f.level
  | DirEntry.file name => by
    intro f hf
    simp only [entryFiles, List.mem_singleton] at hf
    subst hf
    exact Nat.le_refl _
  | DirEntry.dir name r sub => by
    intro f hf
    simp only [entryFiles] at hf
    have := allFiles_level (dir ++ "/" ++ name) (level + 1) sub f hf
    omega
theorem allFiles_level (dir : String) (level : Nat) :
    ∀ (entries : List DirEntry), ∀ f ∈ allFiles dir level entries, level ≤ f.level
  | [] => by
    intro f hf
    simp [allFiles] at hf
  | entry :: rest => by
    intro f hf
    simp only [allFiles, List.mem_append] at hf
    rcases hf with hf | hf
    · exact entryFiles_level dir level entry f hf
    · exact allFiles_level dir level rest f hf
end


theorem allFiles_deep (k : Nat) (dir : String) (level : Nat) (entries : List DirEntry)
    (h : k ≤ level) : (allFiles dir level entries).filter (withinDepth k) = [] := by
  rw [List.filter_eq_nil_iff]
  intro f hf
  have := allFiles_level dir level entries f hf
  have hlt : ¬ f.level < k := by omega
  simp [withinDepth, hlt]

mutual
theorem addRecursivePath_spec (pathConfig : LogPathConfig) (k : Nat)
    (hmax : pathConfig.MaxDepth = (k : Int)) (hk : 1 ≤ k) (hrec : pathConfig.Recursive = true) :
    ∀ (node : DirEntry) (dir : String) (depth : Nat), node.readableBelow = true →
      addRecursivePath pathConfig dir node depth
        = ((filesBelow dir depth node).filter (withinDepth k)).map (fun f => f.path)
  | DirEntry.file name => by
    intro dir depth _
    simp [addRecursivePath, filesBelow]
  | DirEntry.dir name readable sub => by
    intro dir depth hr
    simp only [DirEntry.readableBelow, Bool.and_eq_true] at hr
    simp only [addRecursivePath, filesBelow, hmax, hr.1]
    by_cases hd : depth < k
    · have hg : ¬ ((k : Int) > 0 ∧ (depth : Int) ≥ (k : Int)) := by omega
      simp only [hg, if_false, Bool.not_true, Bool.false_eq_true]
      exact walkEntries_spec pathConfig k hmax hk hrec sub dir depth hr.2 hd
    · have hg : ((k : Int) > 0 ∧ (depth : Int) ≥ (k : Int)) := by omega
      simp only [hg, if_true]
      rw [allFiles_deep k dir depth sub (by omega)]
      rfl
theorem walkEntries_spec (pathConfig : LogPathConfig) (k : Nat)
    (hmax : pathConfig.MaxDepth = (k : Int)) (hk : 1 ≤ k) (hrec : pathConfig.Recursive = true) :
    ∀ (entries : List DirEntry) (dir : String) (depth : Nat), allReadable entries = true →
      depth < k →
      walkEntries pathConfig dir entries depth
        = ((allFiles dir depth entries).filter (withinDepth k)).map (fun f => f.path)
  | [] => by
    intro dir depth _ _
    simp [walkEntries, allFiles]
  | entry :: rest => by
    intro dir depth hr hd
    simp only [allReadable, Bool.and_eq_true] at hr
    have ih := walkEntries_spec pathConfig k hmax hk hrec rest dir depth hr.2 hd
    simp only [walkEntries, allFiles, List.filter_append, List.map_append, ih]
    congr 1
    cases entry with
    | file name =>
      by_cases hs : HasSuffix name ".log" = true
      · simp [entryFiles, withinDepth, hs, hd]
      · simp [entryFiles, withinDepth, hs]
    | dir name readable sub =>
      have := addRecursivePath_spec pathConfig k hmax hk hrec (DirEntry.dir name readable sub)
        (dir ++ "/" ++ name) (depth + 1) hr.1
      simp only [hrec, if_true, this, filesBelow, entryFiles]
end

theorem addLogFile_tracked {R : Type} (lc : LogCollector R) (disk : Disk) (path : String)
    (pathConfig : LogPathConfig) (hopen : (disk.open_ path).isSome = true) (p : String) :
    (GoMap.get (addLogFile lc disk path pathConfig).files p).isSome = true ↔
      (GoMap.get lc.files p).isSome = true ∨ p = path := by
  unfold addLogFile
  cases ho : disk.open_ path with
  | none => rw [ho] at hopen; cases hopen
  | some f =>
    simp only
    by_cases hp : p = path
    · subst hp
      simp [GoMap.get_set]
    · rw [GoMap.get_set_ne _ _ _ _ hp]
      simp [hp]

theorem registerAll_tracked {R : Type} (disk : Disk) (pathConfig : LogPathConfig) :
    ∀ (paths : List String) (lc : LogCollector R),
      (∀ q ∈ paths, (disk.open_ q).isSome = true) →
      ∀ p, (GoMap.get (registerAll disk pathConfig paths lc).files p).isSome = true ↔
        (GoMap.get lc.files p).isSome = true ∨ p ∈ paths := by
  intro paths
  induction paths with
  | nil => intro lc _ p; simp [registerAll]
  | cons path rest ih =>
    intro lc hopen p
    simp only [registerAll]
    rw [ih _ (fun q hq => hopen q (List.mem_cons_of_mem _ hq)) p,
      addLogFile_tracked lc disk path pathConfig (hopen path (List.mem_cons_self _ _)) p]
    simp only [List.mem_cons]
    tauto

/-- C26: for a recursive path spec with `max_depth = k ≥ 1` and a directory
whose tree can be listed, the walk (a total function, so it terminates) hands
to `addLogFile` exactly the non-directory entries whose name ends in `.log`
and whose directory is nested fewer than `k` levels below the start; when
these can be opened, the tracked paths afterwards are the ones tracked before
together with exactly those files. -/
theorem recursive_discovery (pathConfig : LogPathConfig) (k : Nat) (dir name : String)
    (entries : List DirEntry) (hk : 1 ≤ k) (hmax : pathConfig.MaxDepth = (k : Int))
    (hrec : pathConfig.Recursive = true) (hread : allReadable entries = true) :
    addRecursivePath pathConfig dir (DirEntry.dir name true entries) 0
      = logFilesWithin k dir entries ∧
    (∀ p, p ∈ addRecursivePath pathConfig dir (DirEntry.dir name true entries) 0 ↔
      ∃ f ∈ allFiles dir 0 entries,
        f.path = p ∧ HasSuffix f.name ".log" = true ∧ f.level < k) ∧
    (∀ (R : Type) (lc : LogCollector R) (disk : Disk),
      (∀ q ∈ logFilesWithin k dir entries, (disk.open_ q).isSome = true) →
      ∀ p, (GoMap.get (registerAll disk pathConfig
          (addRecursivePath pathConfig dir (DirEntry.dir name true entries) 0) lc).files
          p).isSome = true ↔
        (GoMap.get lc.files p).isSome = true ∨ p ∈ logFilesWithin k dir entries) := by
  have h : addRecursivePath pathConfig dir (DirEntry.dir name true entries) 0
      = logFilesWithin k dir entries :=
    addRecursivePath_spec pathConfig k hmax hk hrec (DirEntry.dir name true entries) dir 0
      (by simp [DirEntry.readableBelow, hread])
  refine ⟨h, ?_, ?_⟩
  · intro p
    rw [h]
    simp only [logFilesWithin, List.mem_map, List.mem_filter, withinDepth, Bool.and_eq_true,
      decide_eq_true_eq]
    constructor
    · rintro ⟨f, ⟨hf, hs, hl⟩, hp⟩
      exact ⟨f, hf, hp, hs, hl⟩
    · rintro ⟨f, hf, hp, hs, hl⟩
      exact ⟨f, ⟨hf, hs, hl⟩, hp⟩
  · intro R lc disk hopen p
    rw [h]
    exact registerAll_tracked disk pathConfig _ lc hopen p

/-- Witness for C26: with `max_depth = 2` the walk over `/var/log/app` registers
`app.log` and `svc/svc.log`, and neither `notes.txt` nor `svc/old/svc.1.log`. -/
theorem recursive_discovery_witness :
    logFilesWithin 2 "/var/log/app" sampleTree
      = ["/var/log/app/app.log", "/var/log/app/svc/svc.log"] ∧
    addRecursivePath (recursivePath 2) "/var/log/app" (DirEntry.dir "app" true sampleTree) 0
      = logFilesWithin 2 "/var/log/app" sampleTree :=
  ⟨by decide,
    (recursive_discovery (recursivePath 2) 2 "/var/log/app" "app" sampleTree (by decide) rfl rfl
      (by decide)).1⟩

end collectors

/-! ## Theorems: payload and result of the HTTP output -/

namespace outputs

open config

theorem Contains_ne_empty (url substr : String) (hs : substr ≠ "")
    (h : Contains url substr = true) : url ≠ "" := by
  intro e
  subst e
  simp only [Contains, decide_eq_true_eq] at h
  have h1 : substr.toList = [] := by simpa using h
  apply hs
  cases substr with
  | mk data =>
    simp only [String.toList] at h1
    subst h1
    rfl

/-- C21: when the URL contains `openobserve` or `_json` the payload handed to
the encoder is the batch itself, a bare array of the records in order;
otherwise it is a map with exactly the keys `items`, `timestamp`, `batch_id`
and `source` whose `items` is the batch; an enabled sink hands this payload to
the encoder. -/
theorem payload_shape {α : Type} (url : String) (now1 now2 : Int) (data : List α) :
    ((Contains url "openobserve" = true ∨ Contains url "_json" = true) →
      buildPayload url now1 now2 data = Payload.bare data) ∧
    (¬ (Contains url "openobserve" = true ∨ Contains url "_json" = true) →
      ∃ m, buildPayload url now1 now2 data = Payload.envelope m ∧
        collectors.GoMap.keys m = ["items", "timestamp", "batch_id", "source"] ∧
        GoMap.get m "items" = some (EnvelopeValue.items data) ∧
        GoMap.get m "source" = some (EnvelopeValue.str "hive-agent")) ∧
    (∀ (ho : HTTPOutput) (env : SendEnv), ho.config.Enabled = true →
      (Send ho env data).payload
        = some (buildPayload ho.config.URL env.now1 env.now2 data)) := by
  refine ⟨?_, ?_, ?_⟩
  · intro h
    have hne : url ≠ "" := by
      rcases h with h | h
      · exact Contains_ne_empty url _ (by decide) h
      · exact Contains_ne_empty url _ (by decide) h
    unfold buildPayload
    rw [if_pos ⟨hne, h⟩]
  · intro h
    unfold buildPayload
    rw [if_neg (fun hc => h hc.2)]
    exact ⟨_, rfl, rfl, rfl, rfl⟩
  · intro ho env he
    unfold Send
    simp only [he, Bool.not_true, Bool.false_eq_true, if_false]
    cases env.marshalErr with
    | some e => rfl
    | none =>
      cases env.requestErr with
      | some e => rfl
      | none =>
        simp only
        cases (sendWithRetry ho.config.Retry env.scale env.doReq env.wait).err <;> rfl

/-- Witness for C21: a batch of two records goes bare to an `_json` URL and
inside the envelope to another URL. -/
theorem payload_shape_witness :
    buildPayload "http://o2.test/api/default/_json" 5 6 ["r1", "r2"]
      = Payload.bare ["r1", "r2"] ∧
    buildPayload "http://example.test/ingest" 5 6 ["r1", "r2"]
      = Payload.envelope
        [("items", EnvelopeValue.items ["r1", "r2"]), ("timestamp", EnvelopeValue.time 5),
         ("batch_id", EnvelopeValue.str "batch-6"), ("source", EnvelopeValue.str "hive-agent")] :=
  ⟨(payload_shape "http://o2.test/api/default/_json" 5 6 ["r1", "r2"]).1 (Or.inr (by decide)),
    by decide⟩

/-- A run of the loop that returns no error either made no iteration and
started without an error, or made a request that was answered with a 2xx
status. -/
theorem retryLoop_success_needs_accept (retry : RetryConfig) (scale : Int → Int)
    (doReq : Nat → AttemptResult) (wait : Nat → WaitResult) :
    ∀ (remaining attempt : Nat) (backoff : Int) (lastErr : Option SendError),
      (retryLoop retry scale doReq wait remaining attempt backoff lastErr).err = none →
      (remaining = 0 ∧ lastErr = none) ∨
      (0 < (retryLoop retry scale doReq wait remaining attempt backoff lastErr).attempts ∧
        ∃ a, attempt ≤ a ∧ (doReq a).isSuccess = true) := by
  intro remaining
  induction remaining with
  | zero =>
    intro attempt backoff lastErr h
    left
    exact ⟨rfl, by simpa [retryLoop] using h⟩
  | succ remaining ih =>
    intro attempt backoff lastErr h
    right
    by_cases hc : attempt > 0 ∧ wait attempt = WaitResult.ctxDone
    · rw [retryLoop_cancelled _ _ _ _ _ _ _ _ hc] at h
      cases h
    · refine ⟨retryLoop_attempts_pos _ _ _ _ _ _ _ _ hc, ?_⟩
      rcases retryLoop_cases retry scale doReq wait remaining attempt backoff lastErr hc with
        ⟨hs, _⟩ | ⟨_, code, _, e⟩ | ⟨_, _, e0, e⟩
      · exact ⟨attempt, Nat.le_refl _, hs⟩
      · rw [e] at h
        cases h
      · rw [e, RetryRun.after_err] at h
        rcases ih _ _ _ h with ⟨_, h0⟩ | ⟨_, a, ha, hs⟩
        · cases h0
        · exact ⟨a, by omega, hs⟩

/-- For `max_retries ≥ 0` an enabled sink whose `Send` returns `nil` has made a
request that was answered with a 2xx status. -/
theorem Send_success_needs_accept {α : Type} (ho : HTTPOutput) (env : SendEnv)
    (data : List α) (hen : ho.config.Enabled = true) (hmax : 0 ≤ ho.config.Retry.MaxRetries)
    (h : (Send ho env data).err = none) :
    ∃ a, (env.doReq a).isSuccess = true := by
  unfold Send at h
  simp only [hen, Bool.not_true, Bool.false_eq_true, if_false] at h
  cases hm : env.marshalErr with
  | some e => rw [hm] at h; cases h
  | none =>
    rw [hm] at h
    cases hr : env.requestErr with
    | some e => rw [hr] at h; cases h
    | none =>
      rw [hr] at h
      simp only at h
      cases he : (sendWithRetry ho.config.Retry env.scale env.doReq env.wait).err with
      | some e => rw [he] at h; cases h
      | none =>
        unfold sendWithRetry at he
        rcases retryLoop_success_needs_accept _ _ _ _ _ _ _ _ he with ⟨h0, _⟩ | ⟨_, a, _, hs⟩
        · exfalso
          have : 0 ≤ effectiveMaxRetries ho.config.Retry := by
            unfold effectiveMaxRetries
            split <;> omega
          omega
        · exact ⟨a, hs⟩

/-- C29, the code at the failing input `max_retries = -1`: whatever the
destination answers, the loop of `sendWithRetry` makes no iteration, and `Send`
on an enabled sink that was marked unhealthy returns `nil`, marks the sink
healthy and clears its last error, although no request was made. -/
theorem negative_max_retries_reports_success {α : Type} (doReq : Nat → AttemptResult)
    (data : List α) :
    (Send (failedSink "http://example.test/ingest" (-1)) (plainEnv doReq) data).err = none ∧
    (Send (failedSink "http://example.test/ingest" (-1)) (plainEnv doReq) data).out.healthy
      = true ∧
    (Send (failedSink "http://example.test/ingest" (-1)) (plainEnv doReq) data).out.lastError
      = "" ∧
    (Send (failedSink "http://example.test/ingest" (-1)) (plainEnv doReq) data).run
      = some { attempts := 0, waits := [], err := none } :=
  ⟨rfl, rfl, rfl, rfl⟩

end outputs

/-! ## Theorems: loading the configuration and creating the platform client -/

namespace config

theorem setDefaults_url (hostname : String) (c : Config) :
    (setDefaults hostname c).Server.URL = c.Server.URL ∧
    (setDefaults hostname c).Server.APIKey = c.Server.APIKey := by
  simp only [setDefaults]
  constructor <;> split_ifs <;> rfl

theorem setDefaults_name (hostname : String) (c : Config) :
    (setDefaults hostname c).Agent.Name
      = if c.Agent.Name = "" then hostname else c.Agent.Name := by
  simp only [setDefaults]
  simp only [apply_ite AgentConfig.Name, ite_self]
  
theorem setDefaults_level (hostname : String) (c : Config) :
    (setDefaults hostname c).Logging.Level
      = if c.Logging.Level = "" then "info" else c.Logging.Level := by
  simp only [setDefaults]
  simp only [apply_ite LoggingConfig.Level, ite_self]


/-- Counterexample for C27: a configuration with `server.url` and
`server.api_key` and without `agent.name`, loaded on the host `web-1`, is
accepted, and its agent name is the host name. -/
theorem missing_agent_name_is_accepted :
    (minimalConfig "https://hive.test" "key" "").Agent.Name = "" ∧
    ∃ c, loadDecoded "web-1" (minimalConfig "https://hive.test" "key" "") = Except.ok c ∧
      c.Agent.Name = "web-1" ∧ c.Logging.Level = "info" :=
  ⟨rfl, setDefaults "web-1" (minimalConfig "https://hive.test" "key" ""), rfl, rfl, rfl⟩

/-- C27 (amended): loading fails whenever `server.url` or `server.api_key` is
empty, or `agent.name` is empty and the host name is empty too; it succeeds
with the defaulted configuration when `server.url` and `server.api_key` are
present, `agent.name` or the host name is present, and the logging level is
one of `debug`, `info`, `warn`, `error`, `fatal`. -/
theorem load_required_fields (hostname : String) (c : Config) :
    ((c.Server.URL = "" ∨ c.Server.APIKey = "" ∨ (c.Agent.Name = "" ∧ hostname = "")) →
      ∃ e, loadDecoded hostname c = Except.error e) ∧
    (c.Server.URL ≠ "" → c.Server.APIKey ≠ "" → (c.Agent.Name ≠ "" ∨ hostname ≠ "") →
      c.Logging.Level ∈ validLogLevels →
      loadDecoded hostname c = Except.ok (setDefaults hostname c)) := by
  have hu := (setDefaults_url hostname c).1
  have hk := (setDefaults_url hostname c).2
  have hn := setDefaults_name hostname c
  have hl := setDefaults_level hostname c
  constructor
  · intro h
    unfold loadDecoded
    simp only
    cases hv : validate (setDefaults hostname c) with
    | some e => exact ⟨_, rfl⟩
    | none =>
      exfalso
      unfold validate at hv
      rw [hu, hk, hn] at hv
      rcases h with h | h | ⟨h1, h2⟩
      · simp [h] at hv
      · simp only [h, if_true] at hv
        split_ifs at hv
      · simp only [h1, h2, if_true] at hv
        split_ifs at hv
  · intro h1 h2 h3 h4
    unfold loadDecoded
    simp only
    have hv : validate (setDefaults hostname c) = none := by
      unfold validate
      rw [hu, hk, hn, hl]
      have hname : ¬ ((if c.Agent.Name = "" then hostname else c.Agent.Name) = "") := by
        by_cases hc : c.Agent.Name = ""
        · rw [if_pos hc]
          rcases h3 with h3 | h3
          · exact absurd hc h3
          · exact h3
        · rw [if_neg hc]
          exact hc
      have hlevel : (if c.Logging.Level = "" then "info" else c.Logging.Level)
          ∈ validLogLevels := by
        by_cases hc : c.Logging.Level = ""
        · rw [if_pos hc]
          decide
        · rw [if_neg hc]
          exact h4
      simp [h1, h2, hname, hlevel]
    rw [hv]

/-- Witness for C27 (amended): a configuration naming all three fields and the
level `debug` is accepted; one without `server.api_key` is rejected. -/
theorem load_required_fields_witness :
    loadDecoded "web-1"
        { minimalConfig "https://hive.test" "key" "agent-1" with
          Logging := { Level := "debug", Format := "", Output := "" } }
      = Except.ok (setDefaults "web-1"
        { minimalConfig "https://hive.test" "key" "agent-1" with
          Logging := { Level := "debug", Format := "", Output := "" } }) ∧
    ∃ e, loadDecoded "web-1" (minimalConfig "https://hive.test" "" "agent-1") = Except.error e :=
  ⟨(load_required_fields "web-1"
      { minimalConfig "https://hive.test" "key" "agent-1" with
        Logging := { Level := "debug", Format := "", Output := "" } }).2
      (by decide) (by decide) (Or.inl (by decide)) (by decide),
    (load_required_fields "web-1" (minimalConfig "https://hive.test" "" "agent-1")).1
      (Or.inr (Or.inl rfl))⟩

end config

namespace platform

open config

/-- C30, the code at the failing input `server.url = "abc"`: the configuration
is accepted by `validate`, the URL has three bytes, and the slice expression
`cfg.URL[:5]` of `platform.New` panics; with the four-byte URL `ws:x` the
configuration is accepted and `New` panics as well. -/
theorem short_url_panics :
    validate (setDefaults "web-1" (minimalConfig "abc" "key" "agent-1")) = none ∧
    len "abc" = 3 ∧
    New (setDefaults "web-1" (minimalConfig "abc" "key" "agent-1")).Server = none ∧
    validate (setDefaults "web-1" (minimalConfig "ws:x" "key" "agent-1")) = none ∧
    New (setDefaults "web-1" (minimalConfig "ws:x" "key" "agent-1")).Server = none := by
  refine ⟨by decide, by decide, by decide, by decide, by decide⟩

/-- A URL of at least five bytes makes `platform.New` return a client. -/
theorem New_returns (cfg : ServerConfig) (h : 5 ≤ len cfg.URL) :
    ∃ c, New cfg = some c ∧ c.config = cfg ∧ c.connected = false := by
  unfold New sliceEquals
  have h5 : ¬ (5 > len cfg.URL) := by omega
  simp only [h5, if_false]
  exact ⟨_, rfl, rfl, rfl⟩

end platform

/-! ## Theorems: remote commands and the order of shutdown -/

namespace agent

open platform

/-- Counterexample for C23: a command of type `execute` whose shell run prints
`boom` and exits with status 2 is answered with the error text and the exit
code 2, and the response field is empty: the captured output is not carried. -/
theorem failing_command_output_is_dropped :
    (failingShell "false").output = "boom\n" ∧
    (executeCommand (commandEnv failingShell)
      { ID := "c1", Type_ := "execute", Command := "false" }).response
      = { ID := "c1", Success := false, Response := "", Error := "exit status 2", ExitCode := 2,
          ExecutionTime := 3, Timestamp := 1704067200000000000 } := by
  constructor <;> decide

/-- C23 (amended): for a command of type `system` or `execute` the shell is
run once on the command text and the response carries the command's id and
the exit code of that run; when the run succeeds the response carries the
captured combined output and `success = true`; when it fails the response
carries the error text instead of the output, with `success = false` and the
exit code of the process, or 1 when the failure is not an exit status. -/
theorem command_response_of_shell_run (env : CommandEnv) (cmd : Command)
    (htype : cmd.Type_ = "system" ∨ cmd.Type_ = "execute") :
    (executeCommand env cmd).shellCommands = [cmd.Command] ∧
    (executeCommand env cmd).response.ID = cmd.ID ∧
    (executeCommand env cmd).response.ExitCode
      = (executeSystemCommand env.sh cmd.Command).2.1 ∧
    ((env.sh cmd.Command).err = none →
      (executeCommand env cmd).response.Success = true ∧
      (executeCommand env cmd).response.Response = (env.sh cmd.Command).output ∧
      (executeCommand env cmd).response.Error = "" ∧
      (executeCommand env cmd).response.ExitCode = 0) ∧
    (∀ e, (env.sh cmd.Command).err = some e →
      (executeCommand env cmd).response.Success = false ∧
      (executeCommand env cmd).response.Response = "" ∧
      (executeCommand env cmd).response.Error = e.Error ∧
      (executeCommand env cmd).response.ExitCode
        = (match e with
          | ExecError.exitError code _ => code
          | ExecError.other _ => 1)) := by
  unfold executeCommand executeSystemCommand
  simp only [htype, if_true]
  cases he : (env.sh cmd.Command).err with
  | none => simp
  | some e =>
    cases e with
    | exitError code text => simp
    | other text => simp

/-- Witness for C23 (amended): `true` run by a shell in which commands succeed,
and `false` run by one in which they exit with status 2. -/
theorem command_response_of_shell_run_witness :
    (executeCommand (commandEnv workingShell)
      { ID := "c1", Type_ := "system", Command := "true" }).response.Response = "ok\n" ∧
    (executeCommand (commandEnv failingShell)
      { ID := "c2", Type_ := "execute", Command := "false" }).response.ExitCode = 2 :=
  ⟨((command_response_of_shell_run (commandEnv workingShell)
      { ID := "c1", Type_ := "system", Command := "true" } (Or.inl rfl)).2.2.2.1 rfl).2.1,
    ((command_response_of_shell_run (commandEnv failingShell)
      { ID := "c2", Type_ := "execute", Command := "false" } (Or.inr rfl)).2.2.2.2
      (ExecError.exitError 2 "exit status 2") rfl).2.2.2⟩

/-- C24: for a command whose type is none of `system`, `execute`,
`config_reload`, `restart` and `status`, the response carries the command's
id, `success = false`, no output, and the error text `Unknown command type`
followed by a colon and the type; nothing is handed to the shell. -/
theorem unknown_command_type (env : CommandEnv) (cmd : Command)
    (h : cmd.Type_ ∉ ["system", "execute", "config_reload", "restart", "status"]) :
    executeCommand env cmd
      = { response :=
            { ID := cmd.ID, Success := false, Response := "",
              Error := "Unknown command type: " ++ cmd.Type_, ExitCode := 0,
              ExecutionTime := env.elapsedMs, Timestamp := env.now }
          shellCommands := [] } ∧
    "Unknown command type".toList <+: (executeCommand env cmd).response.Error.toList := by
  simp only [List.mem_cons, List.mem_singleton, List.not_mem_nil, or_false, not_or] at h
  obtain ⟨h1, h2, h3, h4, h5⟩ := h
  have he : executeCommand env cmd
      = { response :=
            { ID := cmd.ID, Success := false, Response := "",
              Error := "Unknown command type: " ++ cmd.Type_, ExitCode := 0,
              ExecutionTime := env.elapsedMs, Timestamp := env.now }
          shellCommands := [] } := by
    unfold executeCommand
    simp only [h1, h2, h3, h4, h5, or_self, if_false]
  refine ⟨he, ?_⟩
  rw [he]
  exact ⟨": ".toList ++ cmd.Type_.toList, by simp [String.toList, String.data_append]⟩

/-- Witness for C24: a command of type `reboot`. -/
theorem unknown_command_type_witness :
    (executeCommand (commandEnv workingShell)
      { ID := "c9", Type_ := "reboot", Command := "reboot" })
      = { response :=
            { ID := "c9", Success := false, Response := "",
              Error := "Unknown command type: reboot", ExitCode := 0,
              ExecutionTime := 3, Timestamp := 1704067200000000000 }
          shellCommands := [] } :=
  (unknown_command_type (commandEnv workingShell)
    { ID := "c9", Type_ := "reboot", Command := "reboot" } (by decide)).1

/-- Counterexample for C22: the steps of `Stop` on an agent with two collectors,
one sink and all components close the record bus and the error channel and
nothing else; the batch channel of the pipeline is not closed. -/
theorem stop_leaves_batch_channel_open :
    (Stop sampleAgent).flatMap StopStep.closes = [Chan.dataChan, Chan.errorChan] ∧
    Chan.outputCh ∉ (Stop sampleAgent).flatMap StopStep.closes := by
  constructor <;> decide

theorem Stop_closes (a : Agent) :
    (Stop a).flatMap StopStep.closes = [Chan.dataChan, Chan.errorChan] := by
  have hc : ∀ l : List String, (l.map StopStep.stopCollector).flatMap StopStep.closes = [] := by
    intro l
    induction l with
    | nil => rfl
    | cons x l ih => simp [StopStep.closes]
  have ho : ∀ l : List String, (l.map StopStep.stopOutput).flatMap StopStep.closes = [] := by
    intro l
    induction l with
    | nil => rfl
    | cons x l ih => simp [StopStep.closes]
  unfold Stop
  simp only [List.flatMap_append, hc, ho]
  cases a.hasCancel <;> cases a.hasPipeline <;> cases a.hasMetrics <;> cases a.hasHealth <;> rfl

theorem pairwise_uniform_phase (b : List StopStep) (p : Nat) (h : ∀ y ∈ b, y.phase = p) :
    b.Pairwise (fun x y => x.phase ≤ y.phase) ∧ ∀ y ∈ b, p ≤ y.phase ∧ y.phase ≤ p := by
  constructor
  · induction b with
    | nil => exact List.Pairwise.nil
    | cons x b ih =>
      refine List.Pairwise.cons (fun y hy => ?_)
        (ih (fun y hy => h y (List.mem_cons_of_mem _ hy)))
      rw [h x (List.mem_cons_self _ _), h y (List.mem_cons_of_mem _ hy)]
  · intro y hy
    rw [h y hy]
    exact ⟨Nat.le_refl _, Nat.le_refl _⟩

theorem pairwise_phase_block (l b : List StopStep) (p q : Nat)
    (hl : l.Pairwise (fun x y => x.phase ≤ y.phase) ∧ ∀ x ∈ l, x.phase ≤ p)
    (hb : b.Pairwise (fun x y => x.phase ≤ y.phase) ∧ ∀ y ∈ b, p ≤ y.phase ∧ y.phase ≤ q)
    (hpq : p ≤ q) :
    (l ++ b).Pairwise (fun x y => x.phase ≤ y.phase) ∧ ∀ x ∈ l ++ b, x.phase ≤ q := by
  constructor
  · rw [List.pairwise_append]
    exact ⟨hl.1, hb.1, fun x hx y hy => Nat.le_trans (hl.2 x hx) (hb.2 y hy).1⟩
  · intro x hx
    rcases List.mem_append.mp hx with hx | hx
    · exact Nat.le_trans (hl.2 x hx) hpq
    · exact (hb.2 x hx).2

theorem optional_step_phase (c : Bool) (x : StopStep) (p : Nat) (hx : x.phase = p) :
    ∀ y ∈ (if c = true then [x] else []), y.phase = p := by
  intro y hy
  cases c with
  | false => simp at hy
  | true =>
    simp only [if_true, List.mem_singleton] at hy
    rw [hy, hx]

/-- C22 (amended): in the steps of `Stop` no step of a later phase comes before
a step of an earlier one, the phases being: collectors, pipeline, sinks,
auxiliary services, closing of channels, join of the background tasks; every
collector and every sink is stopped, the pipeline and the auxiliary services
are stopped when present, the join is made, and the channels closed are the
record bus and the error channel, not the batch channel. -/
theorem stop_order (a : Agent) :
    (Stop a).Pairwise (fun x y => x.phase ≤ y.phase) ∧
    (∀ c ∈ a.collectors, StopStep.stopCollector c ∈ Stop a) ∧
    (a.hasPipeline = true → StopStep.stopPipeline ∈ Stop a) ∧
    (∀ o ∈ a.outputs, StopStep.stopOutput o ∈ Stop a) ∧
    (a.hasMetrics = true → StopStep.stopMetrics ∈ Stop a) ∧
    (a.hasHealth = true → StopStep.stopHealth ∈ Stop a) ∧
    StopStep.waitBackground ∈ Stop a ∧
    (Stop a).flatMap StopStep.closes = [Chan.dataChan, Chan.errorChan] := by
  refine ⟨?_, ?_, ?_, ?_, ?_, ?_, ?_, Stop_closes a⟩
  · have s0 : [StopStep.setStatus "stopping"].Pairwise (fun x y => x.phase ≤ y.phase) ∧
        ∀ x ∈ [StopStep.setStatus "stopping"], x.phase ≤ 0 := by
      constructor
      · exact List.pairwise_singleton _ _
      · intro x hx
        rw [List.mem_singleton.mp hx]
        decide
    have s1 := pairwise_phase_block _ _ 0 0 s0
      (pairwise_uniform_phase _ 0 (optional_step_phase a.hasCancel StopStep.cancel 0 rfl))
      (Nat.le_refl _)
    have s2 := pairwise_phase_block _ (a.collectors.map StopStep.stopCollector) 0 1 s1
      ⟨(pairwise_uniform_phase _ 1 (by
          intro y hy
          obtain ⟨c, _, rfl⟩ := List.mem_map.mp hy
          rfl)).1, by
        intro y hy
        obtain ⟨c, _, rfl⟩ := List.mem_map.mp hy
        exact ⟨by simp [StopStep.phase], by simp [StopStep.phase]⟩⟩ (by decide)
    have s3 := pairwise_phase_block _ _ 1 2 s2
      ⟨(pairwise_uniform_phase _ 2
          (optional_step_phase a.hasPipeline StopStep.stopPipeline 2 rfl)).1, by
        intro y hy
        rw [optional_step_phase a.hasPipeline StopStep.stopPipeline 2 rfl y hy]
        decide⟩ (by decide)
    have s4 := pairwise_phase_block _ (a.outputs.map StopStep.stopOutput) 2 3 s3
      ⟨(pairwise_uniform_phase _ 3 (by
          intro y hy
          obtain ⟨c, _, rfl⟩ := List.mem_map.mp hy
          rfl)).1, by
        intro y hy
        obtain ⟨c, _, rfl⟩ := List.mem_map.mp hy
        exact ⟨by simp [StopStep.phase], by simp [StopStep.phase]⟩⟩ (by decide)
    have s5 := pairwise_phase_block _ _ 3 4 s4
      ⟨(pairwise_uniform_phase _ 4
          (optional_step_phase a.hasMetrics StopStep.stopMetrics 4 rfl)).1, by
        intro y hy
        rw [optional_step_phase a.hasMetrics StopStep.stopMetrics 4 rfl y hy]
        decide⟩ (by decide)
    have s6 := pairwise_phase_block _ _ 4 4 s5
      (pairwise_uniform_phase _ 4 (optional_step_phase a.hasHealth StopStep.stopHealth 4 rfl))
      (Nat.le_refl _)
    have s7 := pairwise_phase_block _
      [StopStep.close Chan.dataChan, StopStep.close Chan.errorChan,
        StopStep.waitBackground, StopStep.setStatus "stopped"] 4 7 s6
      ⟨by decide, by decide⟩ (by decide)
    exact s7.1
  · intro c hc
    unfold Stop
    simp [hc]
  · intro h
    unfold Stop
    simp [h]
  · intro o ho
    unfold Stop
    simp [ho]
  · intro h
    unfold Stop
    simp [h]
  · intro h
    unfold Stop
    simp [h]
  · unfold Stop
    simp

/-- Witness for C22 (amended): the steps of `Stop` on the sample agent. -/
theorem stop_order_witness :
    Stop sampleAgent
      = [StopStep.setStatus "stopping", StopStep.cancel, StopStep.stopCollector "logs",
         StopStep.stopCollector "metrics", StopStep.stopPipeline, StopStep.stopOutput "http",
         StopStep.stopMetrics, StopStep.stopHealth, StopStep.close Chan.dataChan,
         StopStep.close Chan.errorChan, StopStep.waitBackground,
         StopStep.setStatus "stopped"] ∧
    StopStep.stopPipeline ∈ Stop sampleAgent :=
  ⟨by decide, (stop_order sampleAgent).2.2.1 rfl⟩

end agent

/-! ## Theorems: the records of a cold start and of a line matched by several rules -/

namespace collectors

open config

/-- The data of the log record holds the line under `message` when no static
field, tag or capture group is named `message`. -/
theorem flattenedData_message {R : Type} (re : Regexp R) (lc : LogCollector R) (now : Clock)
    (line : List Nat) (file : logFile)
    (hmsg : "message" ∉ GoMap.keys file.fields ∧ "message" ∉ GoMap.keys file.tags ∧
      "message" ∉ captureNames re lc file) :
    GoMap.get (flattenedData (parseLogLine re lc now line file) file) "message"
      = some (DataValue.text line) := by
  obtain ⟨hget, _⟩ := parseLogLine_fields re lc now line file
  obtain ⟨pm, _, _⟩ := parseLogLine_message re lc now line file
  have hnone : "message" ∉ GoMap.keys (parseLogLine re lc now line file).Fields := by
    apply GoMap.not_mem_keys_of_get
    rw [hget _ hmsg.2.2, copyInto_get_of_not_mem _ _ _ _ hmsg.1]
    rfl
  unfold flattenedData
  rw [copyInto_get_of_not_mem _ _ _ _ hmsg.2.1, copyInto_get_of_not_mem _ _ _ _ hnone, pm]
  rfl

/-- With a bus that accepts every send, one call of `processLogLine` puts on
the bus issue records, all of type `event`, followed by one log record that
comes from the file and holds the line under `message`. -/
theorem processLogLine_accepted {R : Type} (re : Regexp R) (lc : LogCollector R) (now : Clock)
    (logSend : LogSend) (line : List Nat) (file : logFile)
    (hlc : lc.patterns = compilePatterns re lc.config.Patterns)
    (hsend : logSend = LogSend.sent ∨ logSend = LogSend.retrySent)
    (hmsg : "message" ∉ GoMap.keys file.fields ∧ "message" ∉ GoMap.keys file.tags ∧
      "message" ∉ captureNames re lc file) :
    ∃ issues record,
      processLogLine re lc now (fun _ => IssueSend.sent) logSend line file
        = some (issues ++ [record]) ∧
      (∀ r ∈ issues, r.Type_ = DataTypeEvent) ∧
      record.Type_ = DataTypeLog ∧ record.Source = file.path ∧
      GoMap.get record.Data "message" = some (DataValue.text line) := by
  have hlen : 0 + lc.patterns.length ≤ lc.config.Patterns.length := by
    rw [hlc, Nat.zero_add]
    exact compilePatterns_length_le re _
  obtain ⟨issues, e1, _, e3⟩ := checkForIssuesFrom_sent re lc now line file
    (parseLogLine re lc now line file) lc.patterns 0 hlen
  refine ⟨issues,
    { Type_ := DataTypeLog
      Source := file.path
      Data := flattenedData (parseLogLine re lc now line file) file
      Tags := file.tags
      Timestamp := (parseLogLine re lc now line file).Timestamp }, ?_,
    fun r hr => (e3 r hr).1, rfl, rfl, flattenedData_message re lc now line file hmsg⟩
  unfold processLogLine checkForIssues
  simp only [e1]
  rcases hsend with h | h <;> rw [h]

theorem logRecords_append (a b : List CollectedData) :
    logRecords (a ++ b) = logRecords a ++ logRecords b := by
  unfold logRecords
  exact List.filter_append _ _

theorem logRecords_of_events (issues : List CollectedData)
    (h : ∀ r ∈ issues, r.Type_ = DataTypeEvent) : logRecords issues = [] := by
  unfold logRecords
  rw [List.filter_eq_nil_iff]
  intro r hr
  rw [h r hr]
  decide

/-- With a bus that accepts every send, the calls of `processLogLine` for a
list of lines put on the bus one log record per line, in order, each holding
its line under `message`. -/
theorem processLines_accepted {R : Type} (re : Regexp R) (lc : LogCollector R)
    (env : Nat → LineEnv) (file : logFile)
    (hlc : lc.patterns = compilePatterns re lc.config.Patterns)
    (hbus : ∀ i, (env i).issueSend = (fun _ => IssueSend.sent) ∧
      ((env i).logSend = LogSend.sent ∨ (env i).logSend = LogSend.retrySent))
    (hmsg : "message" ∉ GoMap.keys file.fields ∧ "message" ∉ GoMap.keys file.tags ∧
      "message" ∉ captureNames re lc file) :
    ∀ (ls : List (List Nat)) (i : Nat), ∃ out,
      processLines re lc env file i ls = some out ∧
      messagesOf out = ls.map (fun l => some (DataValue.text l)) ∧
      (logRecords out).length = ls.length ∧
      ∀ r ∈ logRecords out, r.Source = file.path := by
  intro ls
  induction ls with
  | nil =>
    intro i
    exact ⟨[], rfl, rfl, rfl, fun r hr => absurd hr (List.not_mem_nil r)⟩
  | cons line rest ih =>
    intro i
    obtain ⟨more, e1, e2, e3, e4⟩ := ih (i + 1)
    obtain ⟨issues, record, p1, p2, p3, p4, p5⟩ :=
      processLogLine_accepted re lc (env i).now (env i).logSend line file hlc (hbus i).2 hmsg
    have hlog : logRecords (issues ++ [record] ++ more) = record :: logRecords more := by
      rw [logRecords_append, logRecords_append, logRecords_of_events issues p2]
      have : logRecords [record] = [record] := by
        unfold logRecords
        simp [p3]
      rw [this]
      rfl
    refine ⟨issues ++ [record] ++ more, ?_, ?_, ?_, ?_⟩
    · simp only [processLines]
      rw [(hbus i).1, p1, e1]
      rfl
    · unfold messagesOf at e2 ⊢
      rw [hlog, List.map_cons, List.map_cons, e2, p5]
    · rw [hlog, List.length_cons, List.length_cons, e3]
    · intro r hr
      rw [hlog] at hr
      rcases List.mem_cons.mp hr with h | h
      · rw [h, p4]
      · exact e4 r h

/-- Counterexample for C7: a file whose only line is a carriage return followed
by a newline yields no record and no persisted offset; a file `A` + newline
whose path spec sets the static field `message` yields one log record whose
message is the static value, not `A`; with a bus that stays full the same
file yields no log record although offset 2 is persisted; and for the empty
file nothing is persisted. -/
theorem cold_start_exceptions :
    coldStart (plainPath "/tmp/a.log") (bytes "\r\n") acceptingEnv = some ([], none) ∧
    coldStart { plainPath "/tmp/a.log" with Fields := [("message", "fixed")] } (bytes "A\n")
        acceptingEnv
      = some ([("log", "/tmp/a.log", some (DataValue.str "fixed"))], some 2) ∧
    coldStart (plainPath "/tmp/a.log") (bytes "A\n") droppingEnv = some ([], some 2) ∧
    coldStart (plainPath "/tmp/a.log") [] acceptingEnv = some ([], none) := by
  refine ⟨by decide, by decide, by decide, by decide⟩

/-- C7 (amended): cold start on a small file.  For a collector built by
`NewLogCollector`, a file of at most 100 MiB with no position file whose
content is `k ≤ 1000` lines, each ended by a newline and non-empty once its
carriage returns are removed, a bus that accepts every send, and a path spec
none of whose static fields, tags and parser captures is named `message`:
`addLogFile` registers the file at offset 0, and the first scan puts on the bus
exactly `k` log records, which come from the file and whose messages are the
lines with carriage returns removed, in order (the lines themselves when they
hold no carriage return); for `k ≥ 1` the offset written to the position file
is the file size, and for the empty file nothing is written. -/
theorem cold_start_emits_lines {R : Type} (re : Regexp R) (cfg : LogCollectorConfig)
    (lc : LogCollector R) (env : Nat → LineEnv) (disk : Disk) (path : String)
    (pathConfig : LogPathConfig) (lines : List (List Nat))
    (hnew : NewLogCollector re cfg = some lc)
    (hopen : disk.open_ path = some { statOk := true, content := joinLines lines })
    (hpos : disk.readFile (positionFile path) = none)
    (hsize : (joinLines lines).length ≤ 100 * 1024 * 1024)
    (hk : lines.length ≤ 1000)
    (hline : ∀ l ∈ lines, 10 ∉ l ∧ dropCR l ≠ [])
    (hbus : ∀ i, (env i).issueSend = (fun _ => IssueSend.sent) ∧
      ((env i).logSend = LogSend.sent ∨ (env i).logSend = LogSend.retrySent))
    (hmsg : "message" ∉ GoMap.keys pathConfig.Fields ∧ "message" ∉ GoMap.keys pathConfig.Tags ∧
      "message" ∉ captureNames re lc (trackedAtStart path pathConfig)) :
    GoMap.get (addLogFile lc disk path pathConfig).files path
      = some (trackedAtStart path pathConfig) ∧
    ∃ out,
      scanEmits re (addLogFile lc disk path pathConfig) env (trackedAtStart path pathConfig)
        (viewOf (joinLines lines)) = some out ∧
      messagesOf out = lines.map (fun l => some (DataValue.text (dropCR l))) ∧
      ((∀ l ∈ lines, 13 ∉ l) →
        messagesOf out = lines.map (fun l => some (DataValue.text l))) ∧
      (logRecords out).length = lines.length ∧
      (∀ r ∈ logRecords out, r.Type_ = DataTypeLog ∧ r.Source = path) ∧
      (scanFile (trackedAtStart path pathConfig) (viewOf (joinLines lines))).persisted
        = (if lines = [] then none else some (joinLines lines).length) := by
  have hoff : initialOffset (none : Option PosData)
      { statOk := true, content := joinLines lines } = 0 := by
    have hns : ¬ ((joinLines lines).length > 100 * 1024 * 1024) := by omega
    simp only [initialOffset, if_true, hns, if_false]
  have hadd : addLogFile lc disk path pathConfig
      = { lc with files := GoMap.set lc.files path (trackedAtStart path pathConfig) } := by
    unfold addLogFile
    rw [hopen]
    simp only [hpos, hoff]
    rfl
  have hlc : lc.patterns = compilePatterns re lc.config.Patterns := by
    unfold NewLogCollector at hnew
    by_cases he : (!cfg.Enabled) = true
    · rw [if_pos he] at hnew
      cases hnew
    · rw [if_neg he] at hnew
      cases hnew
      rfl
  obtain ⟨s1, s2, _, _, s5⟩ :=
    scan_from_start (trackedAtStart path pathConfig) lines rfl rfl hk hline
  obtain ⟨out, e1, e2, e3, e4⟩ := processLines_accepted re
    { lc with files := GoMap.set lc.files path (trackedAtStart path pathConfig) } env
    (trackedAtStart path pathConfig) hlc hbus hmsg (lines.map dropCR) 0
  refine ⟨?_, out, ?_, ?_, ?_, ?_, ?_, s5⟩
  · rw [hadd]
    exact GoMap.get_set _ _ _
  · unfold scanEmits
    rw [hadd, s1]
    exact e1
  · rw [e2, List.map_map]
    rfl
  · intro h13
    rw [e2, List.map_map]
    apply List.map_congr_left
    intro l hl
    show some (DataValue.text (dropCR l)) = _
    rw [dropCR_of_not_mem l (h13 l hl)]
  · rw [e3, List.length_map]
  · intro r hr
    refine ⟨?_, e4 r hr⟩
    have := (List.mem_filter.mp hr).2
    simpa using this

/-- Witness for C7 (amended): the file `A\nB\nC\n` with no position file gives
three log records with the messages `A`, `B`, `C` and the persisted offset 6. -/
theorem cold_start_emits_lines_witness :
    coldStart (plainPath "/tmp/a.log") (bytes "A\nB\nC\n") acceptingEnv
      = some ([("log", "/tmp/a.log", some (DataValue.text (bytes "A"))),
               ("log", "/tmp/a.log", some (DataValue.text (bytes "B"))),
               ("log", "/tmp/a.log", some (DataValue.text (bytes "C")))], some 6) ∧
    ∃ out,
      scanEmits literalRegexp
        (addLogFile oomCollector
          (diskWith "/tmp/a.log" (joinLines [bytes "A", bytes "B", bytes "C"]) none)
          "/tmp/a.log" (plainPath "/tmp/a.log"))
        acceptingEnv (trackedAtStart "/tmp/a.log" (plainPath "/tmp/a.log"))
        (viewOf (joinLines [bytes "A", bytes "B", bytes "C"])) = some out ∧
      messagesOf out
        = [bytes "A", bytes "B", bytes "C"].map (fun l => some (DataValue.text (dropCR l))) :=
  ⟨by decide, by
    obtain ⟨out, h1, h2, _⟩ := (cold_start_emits_lines literalRegexp oomCollector.config
      oomCollector acceptingEnv
      (diskWith "/tmp/a.log" (joinLines [bytes "A", bytes "B", bytes "C"]) none)
      "/tmp/a.log" (plainPath "/tmp/a.log") [bytes "A", bytes "B", bytes "C"]
      rfl (by decide) (by decide) (by decide) (by decide) (by decide)
      (fun _ => ⟨rfl, Or.inl rfl⟩) (by decide)).2
    exact ⟨out, h1, h2⟩⟩

/-- When every rule of the rest of the configured list compiles, the loop of
`checkForIssues` over the compiled patterns, with every send accepted, puts on
the bus the issue records of the matching rules, in order. -/
theorem checkForIssuesFrom_all_compiled {R : Type} (re : Regexp R) (lc : LogCollector R)
    (now : Clock) (line : List Nat) (file : logFile) (logData : LogData) :
    ∀ (ps pre : List LogPatternConfig), lc.config.Patterns = pre ++ ps →
      (∀ p ∈ ps, (re.Compile p.Pattern).isSome = true) →
      checkForIssuesFrom re lc now (fun _ => IssueSend.sent) line file logData pre.length
          (compilePatterns re ps)
        = some ((matchingRules re ps line).map
            (fun p => issueRecord now p line file logData)) := by
  intro ps
  induction ps with
  | nil =>
    intro pre _ _
    rfl
  | cons p ps ih =>
    intro pre hcfg hall
    obtain ⟨r, hr⟩ : ∃ r, re.Compile p.Pattern = some r :=
      Option.isSome_iff_exists.mp (hall p (List.mem_cons_self _ _))
    have hrest := ih (pre ++ [p]) (by rw [hcfg, List.append_assoc]; rfl)
      (fun q hq => hall q (List.mem_cons_of_mem _ hq))
    rw [List.length_append, List.length_singleton] at hrest
    have hget : lc.config.Patterns.get? pre.length = some p := by
      rw [hcfg, List.get?_append_right (Nat.le_refl _), Nat.sub_self]
      rfl
    simp only [compilePatterns, hr, checkForIssuesFrom, matchingRules]
    by_cases hm : re.MatchString r line = true
    · simp only [hm, if_true, hget, hrest, Option.map_some']
      rw [List.filter_cons_of_pos (by simp [hr, hm])]
      rfl
    · simp only [hm, if_false, Bool.false_eq_true, hrest]
      rw [List.filter_cons_of_neg (by simp [hr, hm])]
      rfl

theorem issuesOf_issueRecords (now : Clock) (line : List Nat) (file : logFile)
    (logData : LogData) (rules : List LogPatternConfig) :
    (issuesOf (rules.map (fun p => issueRecord now p line file logData))).map
        (fun i => (i.Title, i.Pattern, i.Severity, i.Category, i.Context.line))
      = rules.map (fun p => ("Pattern detected: " ++ p.Name, p.Pattern, p.Severity, p.Category,
          line)) := by
  induction rules with
  | nil => rfl
  | cons p rules ih =>
    simp only [List.map_cons, issuesOf, List.filterMap_cons, issueRecord] at ih ⊢
    rw [ih]

/-- When every configured rule compiles and the bus accepts every send,
`processLogLine` puts on the bus one issue record for each rule that matches
the line, in order, carrying that rule's name, pattern, severity and category
and the line, followed by the log record of the line. -/
theorem issues_when_all_rules_compile {R : Type} (re : Regexp R) (cfg : LogCollectorConfig)
    (lc : LogCollector R) (now : Clock) (logSend : LogSend) (line : List Nat) (file : logFile)
    (hnew : NewLogCollector re cfg = some lc)
    (hall : ∀ p ∈ cfg.Patterns, (re.Compile p.Pattern).isSome = true)
    (hsend : logSend = LogSend.sent ∨ logSend = LogSend.retrySent) :
    ∃ issues record,
      processLogLine re lc now (fun _ => IssueSend.sent) logSend line file
        = some (issues ++ [record]) ∧
      issues.map (fun r => (r.Type_, r.Source))
        = (matchingRules re cfg.Patterns line).map (fun _ => (DataTypeEvent, file.path)) ∧
      (issuesOf issues).map
          (fun i => (i.Title, i.Pattern, i.Severity, i.Category, i.Context.line))
        = (matchingRules re cfg.Patterns line).map
          (fun p => ("Pattern detected: " ++ p.Name, p.Pattern, p.Severity, p.Category, line)) ∧
      record.Type_ = DataTypeLog ∧ record.Source = file.path ∧
      (("message" ∉ GoMap.keys file.fields ∧ "message" ∉ GoMap.keys file.tags ∧
          "message" ∉ captureNames re lc file) →
        GoMap.get record.Data "message" = some (DataValue.text line)) := by
  have hlc : lc.patterns = compilePatterns re cfg.Patterns ∧ lc.config = cfg := by
    unfold NewLogCollector at hnew
    by_cases he : (!cfg.Enabled) = true
    · rw [if_pos he] at hnew
      cases hnew
    · rw [if_neg he] at hnew
      cases hnew
      exact ⟨rfl, rfl⟩
  have hiss := checkForIssuesFrom_all_compiled re lc now line file
    (parseLogLine re lc now line file) cfg.Patterns [] (by rw [hlc.2]; rfl) hall
  rw [List.length_nil, ← hlc.1] at hiss
  refine ⟨(matchingRules re cfg.Patterns line).map
      (fun p => issueRecord now p line file (parseLogLine re lc now line file)),
    { Type_ := DataTypeLog
      Source := file.path
      Data := flattenedData (parseLogLine re lc now line file) file
      Tags := file.tags
      Timestamp := (parseLogLine re lc now line file).Timestamp }, ?_, ?_,
    issuesOf_issueRecords _ _ _ _ _, rfl, rfl,
    fun hmsg => flattenedData_message re lc now line file hmsg⟩
  · unfold processLogLine checkForIssues
    simp only [hiss]
    rcases hsend with h | h <;> rw [h]
  · rw [List.map_map]
    rfl

/-- C10, the code at the failing input: the rule list `[broken, oom, kill]`,
the first of which does not compile, and the line
`Out of memory: Kill process 1234`, which the rules `oom` and `kill` match.
The bus accepts every send.  `processLogLine` puts on the bus two issue
records and the log record of the line; the issue records carry the rules
`broken` and `oom`, so the matching rule `kill` gets no issue record and the
rule `broken`, which matches nothing, gets one. -/
theorem matching_rule_gets_no_issue :
    threeRuleCollector.map (fun lc => lc.patterns)
      = some [bytes "Out of memory", bytes "Kill process"] ∧
    matchingRules literalRegexp [brokenRule, oomRule, killRule]
        (bytes "Out of memory: Kill process 1234")
      = [oomRule, killRule] ∧
    (threeRuleCollector.bind (fun lc =>
      processLogLine literalRegexp lc (Clock.mk "2024-01-01T00:00:00Z" 1704067200)
        (fun _ => IssueSend.sent) LogSend.sent (bytes "Out of memory: Kill process 1234")
        (freshFile "/tmp/a.log"))).map
      (fun out => out.map (fun r => (r.Type_, r.Source, GoMap.get r.Data "message")))
      = some [("event", "/tmp/a.log", none), ("event", "/tmp/a.log", none),
          ("log", "/tmp/a.log",
            some (DataValue.text (bytes "Out of memory: Kill process 1234")))] ∧
    (threeRuleCollector.bind (fun lc =>
      processLogLine literalRegexp lc (Clock.mk "2024-01-01T00:00:00Z" 1704067200)
        (fun _ => IssueSend.sent) LogSend.sent (bytes "Out of memory: Kill process 1234")
        (freshFile "/tmp/a.log"))).map
      (fun out => (issuesOf out).map (fun i => (i.Title, i.Pattern, i.Severity, i.Category)))
      = some [("Pattern detected: broken", "(", "info", "config"),
          ("Pattern detected: oom", "Out of memory", "critical", "memory")] := by
  refine ⟨by decide, by decide, by decide, by decide⟩

end collectors
